import Mathlib

/-!
# Grid trading engine: fill matching, order generation and monitoring

A shallow embedding of `Trading_Bots/backend/grid-server/Services/gridService.js`
(class `GridTradingService`, with `performBacktest`) together with the Mongoose models of
`backend/grid-server/Models/gridModels.js`, of the create, start-live and stop-live routes
of `Trading_Bots/backend/grid-server/Routes/gridRoutes.js`, of `monitorGridOrderFills` and
the `live_data` handler of `Trading_Bots/backend/grid-server/server.js`, of `handleLiveTick`
of `Trading_Bots/backend/data-service/server.js`, and of the DCA service
(`Trading_Bots/backend/dca-server/Services/dcaService.js` with `processPriceUpdate`, the
timer callback of `setupDCACronJob` and `performDCABacktest`,
`backend/dca-server/Models/dcaModels.js`, start-live of
`backend/dca-server/Routes/dcaRoutes.js`, the `live_data` handler of
`backend/dca-server/server.js`).

Modelling conventions.

* JavaScript numbers are idealised as rationals (`ℚ`): arithmetic is exact, and a
  theorem that divides states that the divisor is non-zero.
* `x.toFixed(d)` followed by `parseFloat` is `toFixed d x`: the nearest multiple of
  `10^-d`, ties away from zero.
* `Math.pow` is the platform's; `calculateGridLevels` takes it as the parameter `pow`.
* `new Date()` is the parameter `now` of the operation that reads the clock; one tick
  reads it once. In a run of ticks (`runTicks`) every tick reads a later value than the
  tick before it, so that "the latest FILLED BUY" (`sort({ fillTime: -1 })`) is determined.
* The two collections are lists in insertion order; a document is identified by its
  position, `save()` overwrites that position and a new document is appended.
* A JS `Map` is a list of entries in insertion order; `set` is `mapSet`.
* E-mail and socket notifications are outside the store and are not modelled.
-/

namespace GridBot

/-! ## Numbers -/

/-- The integer nearest to `x`, the one further from zero when two are equally near. -/
def roundHalfAway (x : ℚ) : ℤ :=
  if x < 0 then -⌊-x + 1 / 2⌋ else ⌊x + 1 / 2⌋

/-- The value of `parseFloat(x.toFixed(d))`: the nearest multiple of `10^-d`, the one
further from zero when two are equally near. -/
def toFixed (d : Nat) (x : ℚ) : ℚ :=
  (roundHalfAway (x * 10 ^ d) : ℚ) / 10 ^ d

/-- The value of `a || b` for numbers: `b` when `a` is `0`, else `a`. -/
def orElse (a b : ℚ) : ℚ := if a = 0 then b else a

/-! ## Data model (gridModels.js) -/

inductive GridType where
  | Arithmetic
  | Geometric
  deriving DecidableEq, Repr

inductive OrderType where
  | BUY
  | SELL
  deriving DecidableEq, Repr

inductive OrderStatus where
  | PENDING
  | FILLED
  | CANCELLED
  deriving DecidableEq, Repr

inductive StrategyStatus where
  | ACTIVE
  | STOPPED
  | COMPLETED
  deriving DecidableEq, Repr

/-- The fields of `GridStrategySchema.config` that the service reads. -/
structure GridConfig where
  gridType : GridType
  upperPrice : ℚ
  lowerPrice : ℚ
  levels : ℚ
  investment : ℚ
  qtyPerOrder : ℚ := 0
  deriving DecidableEq, Repr

/-- A document of `GridOrderSchema`, with the schema defaults. -/
structure GridOrder where
  strategyId : String
  symbol : String
  type : OrderType
  price : ℚ
  quantity : ℚ
  status : OrderStatus := OrderStatus.PENDING
  gridLevel : Nat
  timestamp : Nat := 0
  fillPrice : Option ℚ := none
  fillQuantity : ℚ := 0
  fillTime : Option Nat := none
  pnl : ℚ := 0
  lastCheckedPrice : Option ℚ := none
  lastCheckedTime : Nat := 0
  deriving DecidableEq, Repr

/-- The `monitoring` sub-document of `GridStrategySchema`. -/
structure Monitoring where
  totalPnL : ℚ := 0
  roi : ℚ := 0
  filledOrders : Nat := 0
  pendingOrders : Nat := 0
  totalInvestment : ℚ := 0
  currentValue : ℚ := 0
  startTime : Nat := 0
  lastUpdate : Nat := 0
  lastPriceUpdate : Nat := 0
  userEmail : String := ""
  emailNotifications : Bool := true
  deriving DecidableEq, Repr

/-- A document of `GridStrategySchema`. -/
structure GridStrategy where
  strategyId : String
  symbol : String
  status : StrategyStatus := StrategyStatus.STOPPED
  currentPrice : ℚ := 0
  config : GridConfig
  gridLevels : List ℚ := []
  monitoring : Monitoring := {}
  deriving DecidableEq, Repr

/-- The two collections, each in insertion order. -/
structure Store where
  strategies : List GridStrategy
  orders : List GridOrder
  deriving DecidableEq, Repr

/-! ## Grid levels and quantity -/

/-- The value pushed for loop index `i` in `calculateGridLevels`, before rounding. -/
def rawLevel (pow : ℚ → ℚ → ℚ) (config : GridConfig) (i : Nat) : ℚ :=
  match config.gridType with
  | GridType.Arithmetic =>
      config.lowerPrice + (i : ℚ) * ((config.upperPrice - config.lowerPrice) / (config.levels + 1))
  | GridType.Geometric =>
      config.lowerPrice *
        pow (pow (config.upperPrice / config.lowerPrice) (1 / (config.levels + 1))) (i : ℚ)

/-- `GridTradingService.calculateGridLevels`: the loop runs for `i = 1 .. ⌊levels⌋`, each
value is rounded to two decimals, and the result is sorted ascending. -/
def calculateGridLevels (pow : ℚ → ℚ → ℚ) (config : GridConfig) : List ℚ :=
  let levels : List ℚ :=
    if 0 < config.levels ∧ config.lowerPrice < config.upperPrice then
      (List.range ⌊config.levels⌋.toNat).map (fun k => toFixed 2 (rawLevel pow config (k + 1)))
    else []
  levels.insertionSort (fun a b => a ≤ b)

/-- `GridTradingService.calculateQuantityPerLevel`. -/
def calculateQuantityPerLevel (config : GridConfig) (currentPrice : ℚ) : ℚ :=
  if 0 < config.qtyPerOrder then config.qtyPerOrder
  else
    let investmentPerLevel := config.investment / config.levels
    let avgPrice := orElse currentPrice ((config.upperPrice + config.lowerPrice) / 2)
    toFixed 4 (investmentPerLevel / avgPrice)


/-- A stand-in for `Math.pow` in concrete evaluations: exact on natural exponents, and
for `Math.pow(2, 1/5)` the fifth root of two to fifteen decimals. -/
def samplePow (x y : ℚ) : ℚ :=
  if x = 2 ∧ y = 1 / 5 then 1148698354997035 / 10 ^ 15 else x ^ ⌊y⌋.toNat

/-- An arithmetic grid of four levels in a range of one paisa. -/
def tightConfig : GridConfig :=
  { gridType := GridType.Arithmetic, upperPrice := 10001 / 100, lowerPrice := 100,
    levels := 4, investment := 1000 }

/-- The arithmetic example of the specification: three levels between 100 and 110. -/
def arithmeticExample : GridConfig :=
  { gridType := GridType.Arithmetic, upperPrice := 110, lowerPrice := 100,
    levels := 3, investment := 1000 }

/-- The geometric example of the specification: four levels between 100 and 200. -/
def geometricExample : GridConfig :=
  { gridType := GridType.Geometric, upperPrice := 200, lowerPrice := 100,
    levels := 4, investment := 1000 }

/-- The accuracy asked of `Math.pow` at the five calls made for the geometric example:
the fifth power of `pow 2 (1/5)` is 2, and `pow f i` is `f ^ i`, each within `10^-6`. -/
def PowAccurate (pow : ℚ → ℚ → ℚ) : Prop :=
  0 ≤ pow 2 (1 / 5) ∧ |pow 2 (1 / 5) ^ 5 - 2| ≤ 1 / 10 ^ 6 ∧
  ∀ i : ℕ, 1 ≤ i → i ≤ 4 → |pow (pow 2 (1 / 5)) (i : ℚ) - pow 2 (1 / 5) ^ i| ≤ 1 / 10 ^ 6


/-! ## The order ledger and the strategy store -/

/-- One `findOne`, change, `save()`: the first document that meets `p` is replaced by
`f` of it. -/
def updateFirst {α : Type} (p : α → Bool) (f : α → α) : List α → List α
  | [] => []
  | a :: l => if p a then f a :: l else a :: updateFirst p f l

/-- A `save()` of changed paths on the document at position `i`. -/
def modifyAt {α : Type} (f : α → α) (i : Nat) (l : List α) : List α :=
  match l[i]? with
  | some a => l.set i (f a)
  | none => l

/-- The key of `sort({ fillTime: -1 })`: `null` sorts below every date. -/
def fillTimeKey (o : GridOrder) : Nat :=
  match o.fillTime with
  | none => 0
  | some t => t + 1

/-- The filter `{ strategyId, type: 'BUY', status: 'FILLED' }`. -/
def isFilledBuy (strategyId : String) (o : GridOrder) : Prop :=
  o.strategyId = strategyId ∧ o.type = OrderType.BUY ∧ o.status = OrderStatus.FILLED

instance (strategyId : String) (o : GridOrder) : Decidable (isFilledBuy strategyId o) := by
  unfold isFilledBuy
  infer_instance

/-- The query of `fillGridOrder`: the FILLED BUY orders of the strategy, latest `fillTime`
first. -/
def filledBuysLatestFirst (strategyId : String) (orders : List GridOrder) : List GridOrder :=
  (orders.filter (fun o => decide (isFilledBuy strategyId o))).insertionSort
    (fun a b => fillTimeKey b ≤ fillTimeKey a)

/-- The test of `checkOrderFills` that sets `shouldFill`, with `tolerance = price * 0.001`. -/
def shouldFill (order : GridOrder) (currentPrice : ℚ) : Prop :=
  (order.type = OrderType.BUY ∧ currentPrice ≤ order.price + order.price * (1 / 1000)) ∨
  (order.type = OrderType.SELL ∧ currentPrice ≥ order.price - order.price * (1 / 1000))

instance (order : GridOrder) (currentPrice : ℚ) : Decidable (shouldFill order currentPrice) := by
  unfold shouldFill
  infer_instance

/-- The document that `fillGridOrder` saves: the fill fields set, and the P&L computed
against the ledger `orders`. -/
def filledOrderDoc (now : Nat) (order : GridOrder) (fillPrice : ℚ) (orders : List GridOrder) :
    GridOrder :=
  let order1 : GridOrder :=
    { order with status := OrderStatus.FILLED, fillPrice := some fillPrice,
                 fillTime := some now, fillQuantity := order.quantity }
  match order1.type with
  | OrderType.BUY => { order1 with pnl := 0 }
  | OrderType.SELL =>
    match filledBuysLatestFirst order1.strategyId orders with
    | buyOrder :: _ => { order1 with pnl := (fillPrice - buyOrder.fillPrice.getD 0) * order1.quantity }
    | [] => order1

/-- `GridTradingService.createNextGridOrder`. -/
def createNextGridOrder (now : Nat) (filledOrder : GridOrder) (strategy : GridStrategy)
    (db : Store) : Store :=
  let config := strategy.config
  let currentPrice := filledOrder.fillPrice.getD 0
  let qtyPerLevel := calculateQuantityPerLevel config currentPrice
  let nextOrderType :=
    match filledOrder.type with
    | OrderType.BUY => OrderType.SELL
    | OrderType.SELL => OrderType.BUY
  let nextPrice :=
    match filledOrder.type with
    | OrderType.BUY =>
        filledOrder.fillPrice.getD 0 + (config.upperPrice - config.lowerPrice) / (config.levels + 1)
    | OrderType.SELL =>
        filledOrder.fillPrice.getD 0 - (config.upperPrice - config.lowerPrice) / (config.levels + 1)
  if nextPrice > config.upperPrice ∨ nextPrice < config.lowerPrice then db
  else
    let nextOrder : GridOrder :=
      { strategyId := filledOrder.strategyId, symbol := filledOrder.symbol,
        type := nextOrderType, price := toFixed 2 nextPrice, quantity := qtyPerLevel,
        gridLevel := filledOrder.gridLevel, status := OrderStatus.PENDING,
        timestamp := now, lastCheckedTime := now }
    { db with orders := db.orders ++ [nextOrder] }

/-- The sum `orders.reduce((sum, order) => sum + (order.pnl || 0), 0)`. -/
def sumPnl (orders : List GridOrder) : ℚ :=
  orders.foldl (fun sum order => sum + orElse order.pnl 0) 0

/-- The monitoring record that `updateGridMonitoringData` writes, from the strategy's
orders. -/
def recomputeMonitoring (now : Nat) (orders : List GridOrder) (m : Monitoring) : Monitoring :=
  let filledOrders := (orders.filter (fun o => decide (o.status = OrderStatus.FILLED))).length
  let pendingOrders := (orders.filter (fun o => decide (o.status = OrderStatus.PENDING))).length
  let totalPnL := sumPnl orders
  let currentValue := m.totalInvestment + totalPnL
  let roi := if m.totalInvestment > 0 then totalPnL / m.totalInvestment * 100 else 0
  { m with totalPnL := toFixed 2 totalPnL, roi := toFixed 2 roi, filledOrders := filledOrders,
           pendingOrders := pendingOrders, currentValue := toFixed 2 currentValue,
           lastUpdate := now }

/-- `GridTradingService.updateGridMonitoringData`. -/
def updateGridMonitoringData (now : Nat) (strategyId : String) (db : Store) : Store :=
  let orders := db.orders.filter (fun o => decide (o.strategyId = strategyId))
  let strategies :=
    updateFirst (fun s => decide (s.strategyId = strategyId))
      (fun s => { s with monitoring := recomputeMonitoring now orders s.monitoring })
      db.strategies
  { db with strategies := strategies }

/-- `GridTradingService.fillGridOrder` for the order document at position `i`. -/
def fillGridOrder (now : Nat) (i : Nat) (order : GridOrder) (fillPrice : ℚ)
    (strategy : GridStrategy) (db : Store) : Store :=
  let filled := filledOrderDoc now order fillPrice db.orders
  let db1 : Store := { db with orders := db.orders.set i filled }
  let db2 := createNextGridOrder now filled strategy db1
  updateGridMonitoringData now filled.strategyId db2

/-- The two assignments `order.lastCheckedPrice = currentPrice` and
`order.lastCheckedTime = new Date()`. -/
def touch (now : Nat) (currentPrice : ℚ) (o : GridOrder) : GridOrder :=
  { o with lastCheckedPrice := some currentPrice, lastCheckedTime := now }

/-- The body of the loop over `pendingOrders` in `checkOrderFills`. -/
def processOrder (now : Nat) (currentPrice : ℚ) (strategy : GridStrategy) (db : Store)
    (io : Nat × GridOrder) : Store :=
  let order := touch now currentPrice io.2
  if shouldFill order currentPrice then fillGridOrder now io.1 order currentPrice strategy db
  else { db with orders := db.orders.set io.1 order }

/-- The query `GridOrder.find({ strategyId, status: 'PENDING' })`, each document with its
position. -/
def findPending (strategyId : String) (orders : List GridOrder) : List (Nat × GridOrder) :=
  orders.enum.filter
    (fun io => decide (io.2.strategyId = strategyId ∧ io.2.status = OrderStatus.PENDING))

/-- The two assignments `strategy.currentPrice = currentPrice` and
`strategy.monitoring.lastPriceUpdate = new Date()`. -/
def withPrice (now : Nat) (currentPrice : ℚ) (s : GridStrategy) : GridStrategy :=
  { s with currentPrice := currentPrice,
           monitoring := { s.monitoring with lastPriceUpdate := now } }

/-- The body of the loop over `activeStrategiesForSymbol` in `checkOrderFills`: the
strategy found at position `is.1` is stamped with the price and saved, then its PENDING
orders are fetched and processed in turn. -/
def processStrategy (now : Nat) (currentPrice : ℚ) (db : Store) (is : Nat × GridStrategy) :
    Store :=
  let strategy := withPrice now currentPrice is.2
  let db1 : Store := { db with strategies := modifyAt (withPrice now currentPrice) is.1 db.strategies }
  (findPending strategy.strategyId db1.orders).foldl (processOrder now currentPrice strategy) db1

/-- `GridTradingService.checkOrderFills`. -/
def checkOrderFills (now : Nat) (symbol : String) (currentPrice : ℚ) (db : Store) : Store :=
  let activeStrategiesForSymbol :=
    db.strategies.enum.filter
      (fun is => decide (is.2.symbol = symbol ∧ is.2.status = StrategyStatus.ACTIVE))
  activeStrategiesForSymbol.foldl (processStrategy now currentPrice) db

/-- The order that the loop of `createGridOrders` builds for the level `ip.2` at index
`ip.1`, or none when the level equals the reference price. -/
def seedOrder (now : Nat) (strategy : GridStrategy) (qtyPerLevel referencePrice : ℚ)
    (ip : Nat × ℚ) : Option GridOrder :=
  if ip.2 < referencePrice then
    some { strategyId := strategy.strategyId, symbol := strategy.symbol,
           type := OrderType.BUY, price := ip.2, quantity := qtyPerLevel,
           gridLevel := ip.1 + 1, status := OrderStatus.PENDING,
           timestamp := now, lastCheckedTime := now }
  else if ip.2 > referencePrice then
    some { strategyId := strategy.strategyId, symbol := strategy.symbol,
           type := OrderType.SELL, price := ip.2, quantity := qtyPerLevel,
           gridLevel := ip.1 + 1, status := OrderStatus.PENDING,
           timestamp := now, lastCheckedTime := now }
  else none

/-- `GridTradingService.createGridOrders`: the strategy's orders are deleted, then one
order is inserted for every level that differs from the reference price. -/
def createGridOrders (now : Nat) (strategy : GridStrategy) (db : Store) : Store :=
  let qtyPerLevel := calculateQuantityPerLevel strategy.config strategy.currentPrice
  let kept := db.orders.filter (fun o => decide (o.strategyId ≠ strategy.strategyId))
  let referencePrice :=
    orElse strategy.currentPrice ((strategy.config.upperPrice + strategy.config.lowerPrice) / 2)
  let orders := strategy.gridLevels.enum.filterMap (seedOrder now strategy qtyPerLevel referencePrice)
  { db with orders := kept ++ orders }

/-- The order `y` is the order `o` after the tick at price `p` has dealt with it: FILLED
when the fill test holds and still PENDING when not. -/
def Settled (o : GridOrder) (p : ℚ) (y : GridOrder) : Prop :=
  y.type = o.type ∧ y.price = o.price ∧ y.strategyId = o.strategyId ∧
  ((shouldFill o p ∧ y.status = OrderStatus.FILLED) ∨
   (¬ shouldFill o p ∧ y.status = OrderStatus.PENDING))

/-- A store with one ACTIVE strategy on `"SBIN"` and one PENDING BUY order at 100. -/
def sampleStore : Store :=
  { strategies :=
      [{ strategyId := "GRID_1", symbol := "SBIN", status := StrategyStatus.ACTIVE,
         currentPrice := 104, config := arithmeticExample,
         gridLevels := [205 / 2, 105, 215 / 2],
         monitoring := { totalInvestment := 1000, currentValue := 1000 } }],
    orders :=
      [{ strategyId := "GRID_1", symbol := "SBIN", type := OrderType.BUY, price := 100,
         quantity := 5, gridLevel := 1 }] }

/-- A strategy whose orders have quantity 5. -/
def pnlStrategy : GridStrategy :=
  { strategyId := "GRID_1", symbol := "SBIN", status := StrategyStatus.ACTIVE,
    currentPrice := 100,
    config := { gridType := GridType.Arithmetic, upperPrice := 120, lowerPrice := 90,
                levels := 2, investment := 1000, qtyPerOrder := 5 },
    gridLevels := [100, 110],
    monitoring := { totalInvestment := 1000, currentValue := 1000 } }

/-- A PENDING SELL order at 110, quantity 5. -/
def pnlSell : GridOrder :=
  { strategyId := "GRID_1", symbol := "SBIN", type := OrderType.SELL, price := 110,
    quantity := 5, gridLevel := 2 }

/-- A ledger with a BUY order filled at 100 and the PENDING SELL order at 110. -/
def pnlStore : Store :=
  { strategies := [pnlStrategy],
    orders :=
      [{ strategyId := "GRID_1", symbol := "SBIN", type := OrderType.BUY, price := 100,
         quantity := 5, gridLevel := 1, status := OrderStatus.FILLED,
         fillPrice := some 100, fillQuantity := 5, fillTime := some 1 },
       pnlSell] }

/-- An ACTIVE strategy on three levels between 100 and 110, quantity 1 per order, with the
last price 104. -/
def seedStrategy : GridStrategy :=
  { strategyId := "GRID_1", symbol := "SBIN", status := StrategyStatus.ACTIVE,
    currentPrice := 104,
    config := { arithmeticExample with qtyPerOrder := 1 },
    gridLevels := [205 / 2, 105, 215 / 2],
    monitoring := { totalInvestment := 1000, currentValue := 1000 } }

/-- The run: seeding at time 1, a tick at 102.5 at time 2, a tick at 105.001 at time 3. -/
def driftRun : Store :=
  checkOrderFills 3 "SBIN" (105001 / 1000)
    (checkOrderFills 2 "SBIN" (205 / 2)
      (createGridOrders 1 seedStrategy { strategies := [seedStrategy], orders := [] }))

/-- The BUY order of the first level after its fill at 102.5. -/
def filledBuy : GridOrder :=
  { strategyId := "GRID_1", symbol := "SBIN", type := OrderType.BUY, price := 205 / 2,
    quantity := 1, gridLevel := 1, status := OrderStatus.FILLED,
    fillPrice := some (205 / 2), fillQuantity := 1, fillTime := some 2 }

/-- Every order that is still PENDING carries the schema default `pnl = 0`. -/
def PendingUnbooked (orders : List GridOrder) : Prop :=
  ∀ o ∈ orders, o.status = OrderStatus.PENDING → o.pnl = 0

/-! ## The routes of the grid server (gridRoutes.js) -/

/-- The outcome of a route: 200, 400, 404 or 500. -/
inductive Response where
  | ok
  | badRequest
  | notFound
  | serverError
  deriving DecidableEq, Repr

/-- The `strategy` object in the body of `POST /grid-strategy/start-live`. -/
structure StartLiveRequest where
  id : String
  stockSymbol : String
  config : GridConfig
  deriving DecidableEq, Repr

/-- The update `GridOrder.updateMany({ strategyId, status: 'PENDING' }, { status: 'CANCELLED' })`. -/
def cancelPending (strategyId : String) (orders : List GridOrder) : List GridOrder :=
  orders.map (fun o =>
    if o.strategyId = strategyId ∧ o.status = OrderStatus.PENDING then
      { o with status := OrderStatus.CANCELLED }
    else o)

/-- The assignment `strategy.status = 'STOPPED'`. -/
def markStopped (s : GridStrategy) : GridStrategy :=
  { s with status := StrategyStatus.STOPPED }

/-- `POST /grid-strategy/stop-live`. -/
def stopLive (strategyId : String) (db : Store) : Response × Store :=
  if strategyId = "" then (Response.badRequest, db)
  else
    match db.strategies.find? (fun s => decide (s.strategyId = strategyId)) with
    | none => (Response.notFound, db)
    | some _ =>
      (Response.ok,
        { strategies :=
            updateFirst (fun s => decide (s.strategyId = strategyId)) markStopped db.strategies,
          orders := cancelPending strategyId db.orders })

/-- One iteration of the loop over `existingActiveStrategies` in start-live: a strategy
other than the requested one is saved as STOPPED and its PENDING orders are cancelled. -/
def stopExisting (id : String) (db : Store) (is : Nat × GridStrategy) : Store :=
  if is.2.strategyId ≠ id then
    { strategies := modifyAt markStopped is.1 db.strategies,
      orders := cancelPending is.2.strategyId db.orders }
  else db

/-- The first part of start-live: every ACTIVE strategy other than the requested one is
stopped. -/
def stopOthers (id : String) (db : Store) : Store :=
  (db.strategies.enum.filter (fun is => decide (is.2.status = StrategyStatus.ACTIVE))).foldl
    (stopExisting id) db

/-- The price that start-live uses: the `ltp` of the data service when there is one and it
is not 0, else the midpoint of the range. -/
def startPrice (ltp : Option ℚ) (config : GridConfig) : ℚ :=
  orElse (ltp.getD 0) ((config.upperPrice + config.lowerPrice) / 2)

/-- The strategy document that start-live builds when the store has none with the id. -/
def newLiveStrategy (pow : ℚ → ℚ → ℚ) (now : Nat) (currentPrice : ℚ) (req : StartLiveRequest)
    (userEmail : String) : GridStrategy :=
  { strategyId := req.id, symbol := req.stockSymbol, config := req.config,
    gridLevels := calculateGridLevels pow req.config, status := StrategyStatus.ACTIVE,
    currentPrice := currentPrice,
    monitoring := { totalInvestment := req.config.investment,
                    currentValue := req.config.investment, userEmail := userEmail,
                    emailNotifications := true, startTime := now } }

/-- The changes start-live makes to a strategy that the store already has. -/
def reactivate (now : Nat) (currentPrice : ℚ) (userEmail : String) (s : GridStrategy) :
    GridStrategy :=
  { s with status := StrategyStatus.ACTIVE, currentPrice := currentPrice,
           monitoring := { s.monitoring with userEmail := userEmail,
                                             emailNotifications := true, startTime := now } }

/-- `POST /grid-strategy/start-live`. `ltp` is the answer of the data service (none when
the request fails); a new document with an empty `strategyId` or `symbol` fails the
`required` validation of `save()`, which the route answers with 500. -/
def startLive (pow : ℚ → ℚ → ℚ) (now : Nat) (ltp : Option ℚ) (strategy : Option StartLiveRequest)
    (userEmail : String) (db : Store) : Response × Store :=
  match strategy with
  | none => (Response.badRequest, db)
  | some req =>
    if userEmail = "" then (Response.badRequest, db)
    else
      let db1 := stopOthers req.id db
      let currentPrice := startPrice ltp req.config
      match db1.strategies.find? (fun s => decide (s.strategyId = req.id)) with
      | none =>
        if req.id = "" ∨ req.stockSymbol = "" then (Response.serverError, db1)
        else
          let targetStrategy := newLiveStrategy pow now currentPrice req userEmail
          let db2 : Store := { db1 with strategies := db1.strategies ++ [targetStrategy] }
          (Response.ok, createGridOrders now targetStrategy db2)
      | some found =>
        let targetStrategy := reactivate now currentPrice userEmail found
        let strategies :=
          updateFirst (fun s => decide (s.strategyId = req.id))
            (reactivate now currentPrice userEmail) db1.strategies
        let db2 : Store := { db1 with strategies := strategies }
        if (findPending req.id db2.orders).length = 0 then
          (Response.ok, createGridOrders now targetStrategy db2)
        else (Response.ok, db2)

/-- `POST /grid-strategy/create`. `symbol` is empty when the body has none, `strategyId`
is the generated id, and `save()` fails on the unique index when the id is taken. -/
def createStrategy (pow : ℚ → ℚ → ℚ) (strategyId : String) (symbol : String)
    (config : Option GridConfig) (db : Store) : Response × Store :=
  match config with
  | none => (Response.badRequest, db)
  | some config =>
    if symbol = "" then (Response.badRequest, db)
    else if (db.strategies.any (fun s => decide (s.strategyId = strategyId))) = true then
      (Response.serverError, db)
    else
      let strategy : GridStrategy :=
        { strategyId := strategyId, symbol := symbol, config := config,
          gridLevels := calculateGridLevels pow config,
          monitoring := { totalInvestment := config.investment,
                          currentValue := config.investment } }
      (Response.ok, { db with strategies := db.strategies ++ [strategy] })

/-- The ticks `(now, symbol, price)` applied in turn. -/
def applyTicks (ticks : List (Nat × String × ℚ)) (db : Store) : Store :=
  ticks.foldl (fun db t => checkOrderFills t.1 t.2.1 t.2.2 db) db
/-- No order of the strategy `strategyId` is PENDING. -/
def NoPending (strategyId : String) (orders : List GridOrder) : Prop :=
  ∀ o ∈ orders, o.strategyId = strategyId → o.status ≠ OrderStatus.PENDING

/-- The orders of the strategy `strategyId`, in ledger order. -/
def ordersOf (strategyId : String) (orders : List GridOrder) : List GridOrder :=
  orders.filter (fun o => decide (o.strategyId = strategyId))
/-- A start-live request for a second strategy, on another symbol. -/
def secondRequest : StartLiveRequest :=
  { id := "GRID_2", stockSymbol := "TCS", config := arithmeticExample }

/-- A start-live request for the strategy of the sample run. -/
def restartRequest : StartLiveRequest :=
  { id := "GRID_1", stockSymbol := "SBIN", config := seedStrategy.config }

/-- The sample run followed by stop-live for its strategy. -/
def stoppedRun : Store := (stopLive "GRID_1" driftRun).2

/-- A config with no levels. -/
def emptyGridConfig : GridConfig :=
  { gridType := GridType.Arithmetic, upperPrice := 110, lowerPrice := 100, levels := 0,
    investment := 1000 }
/-! ## The DCA service (dcaModels.js, dcaService.js, dcaRoutes.js)

Dates are milliseconds on the clock `now`, in a zone without clock changes, so that
`setMinutes`, `setHours` and `setDate` add a fixed number of milliseconds. -/

inductive FrequencyUnit where
  | minutes
  | hours
  | days
  deriving DecidableEq, Repr

inductive EndCondition where
  | orderCount
  | stopLoss
  | takeProfit
  | manual
  deriving DecidableEq, Repr

inductive DCAOrderStatus where
  | PENDING
  | EXECUTED
  | CANCELLED
  deriving DecidableEq, Repr

/-- The sub-document `config` of `DCAStrategySchema`, with the schema defaults. -/
structure DCAConfig where
  investmentAmount : ℚ
  frequency : Nat
  frequencyUnit : FrequencyUnit
  startTime : Nat
  endCondition : EndCondition
  maxOrders : ℚ := 0
  stopLoss : ℚ := 0
  takeProfit : ℚ := 0
  orderType : OrderType := OrderType.BUY
  enableStopLoss : Bool := false
  enableTakeProfit : Bool := false
  deriving DecidableEq, Repr

/-- The sub-document `monitoring` of `DCAStrategySchema`, with the schema defaults. -/
structure DCAMonitoring where
  totalPnL : ℚ := 0
  roi : ℚ := 0
  executedOrders : Nat := 0
  pendingOrders : Nat := 0
  totalInvestment : ℚ := 0
  currentValue : ℚ := 0
  averagePrice : ℚ := 0
  totalQuantity : ℚ := 0
  startTime : Nat := 0
  lastUpdate : Nat := 0
  nextOrderTime : Option Nat := none
  userEmail : String := ""
  emailNotifications : Bool := true
  deriving DecidableEq, Repr

/-- A document of `DCAStrategySchema`. -/
structure DCAStrategy where
  strategyId : String
  symbol : String
  status : StrategyStatus := StrategyStatus.STOPPED
  config : DCAConfig
  monitoring : DCAMonitoring := {}
  deriving DecidableEq, Repr

/-- A document of `DCAOrderSchema`, with the schema defaults. -/
structure DCAOrder where
  strategyId : String
  symbol : String
  type : OrderType
  price : ℚ
  quantity : ℚ
  amount : ℚ
  status : DCAOrderStatus := DCAOrderStatus.PENDING
  scheduledTime : Nat
  timestamp : Nat := 0
  fillPrice : Option ℚ := none
  fillTime : Option Nat := none
  orderNumber : Nat
  deriving DecidableEq, Repr

/-- The state of the DCA server: the two collections, the live-price cache `liveData`
(symbol and `ltp`), the map `activeDCAStrategies` and the ids that have a timer in
`dcaCronJobs`. -/
structure DCAStore where
  strategies : List DCAStrategy
  orders : List DCAOrder
  liveData : List (String × ℚ) := []
  activeStrategies : List (String × DCAStrategy) := []
  cronJobs : List String := []
  deriving DecidableEq, Repr

/-- The method `set(key, value)` of a JS `Map`: the entry of a key that the map has is
replaced where it stands, a new key is added at the end. -/
def mapSet {α : Type} (key : String) (value : α) (m : List (String × α)) : List (String × α) :=
  if m.any (fun e => decide (e.1 = key)) = true then
    m.map (fun e => if e.1 = key then (key, value) else e)
  else m ++ [(key, value)]

/-- `DCATradingService.calculateNextOrderTime`. -/
def calculateNextOrderTime (lastOrderTime : Nat) (frequency : Nat) (frequencyUnit : FrequencyUnit) :
    Nat :=
  match frequencyUnit with
  | FrequencyUnit.minutes => lastOrderTime + frequency * 60000
  | FrequencyUnit.hours => lastOrderTime + frequency * 3600000
  | FrequencyUnit.days => lastOrderTime + frequency * 86400000

/-- The test `monitoring.nextOrderTime && currentTime < monitoring.nextOrderTime`. -/
def beforeNextOrder (nextOrderTime : Option Nat) (currentTime : Nat) : Prop :=
  match nextOrderTime with
  | some t => currentTime < t
  | none => False

instance (nextOrderTime : Option Nat) (currentTime : Nat) :
    Decidable (beforeNextOrder nextOrderTime currentTime) := by
  unfold beforeNextOrder
  cases nextOrderTime <;> infer_instance

/-- `DCATradingService.shouldExecuteDCAOrder`. -/
def shouldExecuteDCAOrder (strategy : DCAStrategy) (currentTime : Nat) : Bool :=
  if beforeNextOrder strategy.monitoring.nextOrderTime currentTime then false
  else if strategy.config.endCondition = EndCondition.orderCount ∧
      (strategy.monitoring.executedOrders : ℚ) ≥ strategy.config.maxOrders then false
  else if strategy.config.enableStopLoss = true ∧
      strategy.monitoring.roi ≤ -strategy.config.stopLoss then false
  else if strategy.config.enableTakeProfit = true ∧
      strategy.monitoring.roi ≥ strategy.config.takeProfit then false
  else true

/-- The document that `executeDCAOrder` builds. -/
def newDCAOrder (now : Nat) (strategy : DCAStrategy) (currentPrice : ℚ) : DCAOrder :=
  { strategyId := strategy.strategyId, symbol := strategy.symbol,
    type := strategy.config.orderType, price := currentPrice,
    quantity := strategy.config.investmentAmount / currentPrice,
    amount := strategy.config.investmentAmount, status := DCAOrderStatus.EXECUTED,
    scheduledTime := now, timestamp := now, fillPrice := some currentPrice,
    fillTime := some now, orderNumber := strategy.monitoring.executedOrders + 1 }

/-- The query `DCAOrder.find({ strategyId, status: 'EXECUTED' })`. -/
def executedOrdersOf (strategyId : String) (orders : List DCAOrder) : List DCAOrder :=
  orders.filter (fun o => decide (o.strategyId = strategyId ∧ o.status = DCAOrderStatus.EXECUTED))

/-- The price `liveData.get(symbol)?.ltp || newOrder.fillPrice`. -/
def latestPrice (liveData : List (String × ℚ)) (symbol : String) (newOrder : DCAOrder) : ℚ :=
  orElse ((liveData.lookup symbol).getD 0) (newOrder.fillPrice.getD 0)

/-- The monitoring record that `updateDCAMonitoring` writes; the fields it does not assign
are kept. -/
def recomputeDCAMonitoring (now : Nat) (allOrders : List DCAOrder) (currentPrice : ℚ)
    (newOrder : DCAOrder) (config : DCAConfig) (m : DCAMonitoring) : DCAMonitoring :=
  let totalInvestment := allOrders.foldl (fun sum order => sum + order.amount) 0
  let totalQuantity := allOrders.foldl (fun sum order => sum + order.quantity) 0
  let averagePrice := if totalQuantity > 0 then totalInvestment / totalQuantity else 0
  let currentValue := totalQuantity * currentPrice
  let totalPnL := currentValue - totalInvestment
  let roi := if totalInvestment > 0 then totalPnL / totalInvestment * 100 else 0
  let nextOrderTime :=
    calculateNextOrderTime (newOrder.fillTime.getD 0) config.frequency config.frequencyUnit
  { m with totalPnL := totalPnL, roi := roi, executedOrders := allOrders.length,
           totalInvestment := totalInvestment, currentValue := currentValue,
           averagePrice := averagePrice, totalQuantity := totalQuantity,
           nextOrderTime := some nextOrderTime, lastUpdate := now }

/-- `DCATradingService.updateDCAMonitoring`. -/
def updateDCAMonitoring (now : Nat) (strategyId : String) (newOrder : DCAOrder) (db : DCAStore) :
    DCAStore :=
  let allOrders := executedOrdersOf strategyId db.orders
  let strategies :=
    updateFirst (fun s => decide (s.strategyId = strategyId))
      (fun s => { s with monitoring :=
        (recomputeDCAMonitoring now allOrders (latestPrice db.liveData s.symbol newOrder)
          newOrder s.config s.monitoring) })
      db.strategies
  { db with strategies := strategies }

/-- `DCATradingService.executeDCAOrder`: the order is saved as EXECUTED, then the
monitoring of its strategy is recomputed. -/
def executeDCAOrder (now : Nat) (strategy : DCAStrategy) (currentPrice : ℚ) (db : DCAStore) :
    DCAStore :=
  let dcaOrder := newDCAOrder now strategy currentPrice
  updateDCAMonitoring now strategy.strategyId dcaOrder { db with orders := db.orders ++ [dcaOrder] }
/-- A DCA strategy that buys for 1000 every 5 minutes, with a stop loss of 5 per cent. -/
def dcaSample : DCAStrategy :=
  { strategyId := "DCA_1", symbol := "SBIN", status := StrategyStatus.ACTIVE,
    config := { investmentAmount := 1000, frequency := 5,
                frequencyUnit := FrequencyUnit.minutes, startTime := 0,
                endCondition := EndCondition.manual, stopLoss := 5, enableStopLoss := true },
    monitoring := { nextOrderTime := some 0 } }

/-- The sample strategy after a loss of six per cent, its next order time long past. -/
def dcaLosing : DCAStrategy :=
  { dcaSample with monitoring := { roi := -6, executedOrders := 1, totalInvestment := 1000,
                                   nextOrderTime := some 10 } }

/-- A DCA strategy whose `investmentAmount` is negative. -/
def dcaNegative : DCAStrategy :=
  { strategyId := "DCA_2", symbol := "SBIN", status := StrategyStatus.ACTIVE,
    config := { investmentAmount := -100, frequency := 1,
                frequencyUnit := FrequencyUnit.days, startTime := 0,
                endCondition := EndCondition.manual },
    monitoring := { nextOrderTime := some 0 } }

/-- A DCA store with the two sample strategies and the live price 110 for `"SBIN"`. -/
def dcaStore : DCAStore :=
  { strategies := [dcaSample, dcaNegative], orders := [], liveData := [("SBIN", 110)] }
/-- The `strategy` object in the body of `POST /dca-strategy/start-live`. -/
structure DCAStartRequest where
  id : String
  stockSymbol : String
  config : DCAConfig
  deriving DecidableEq, Repr

/-- The update `DCAOrder.updateMany({ strategyId, status: 'PENDING' }, { status: 'CANCELLED' })`. -/
def cancelPendingDCA (strategyId : String) (orders : List DCAOrder) : List DCAOrder :=
  orders.map (fun o =>
    if o.strategyId = strategyId ∧ o.status = DCAOrderStatus.PENDING then
      { o with status := DCAOrderStatus.CANCELLED }
    else o)

/-- The assignment `existingStrategy.status = 'STOPPED'`. -/
def markStoppedDCA (s : DCAStrategy) : DCAStrategy :=
  { s with status := StrategyStatus.STOPPED }

/-- One iteration of the loop over `existingActiveDCAStrategies` in the DCA start-live: a
strategy other than the requested one is saved as STOPPED, its PENDING orders are
cancelled, and it is removed from `activeDCAStrategies` and `dcaCronJobs`. -/
def stopExistingDCA (id : String) (db : DCAStore) (is : Nat × DCAStrategy) : DCAStore :=
  if is.2.strategyId ≠ id then
    { db with strategies := modifyAt markStoppedDCA is.1 db.strategies,
              orders := cancelPendingDCA is.2.strategyId db.orders,
              activeStrategies :=
                db.activeStrategies.filter (fun e => decide (e.1 ≠ is.2.strategyId)),
              cronJobs := db.cronJobs.filter (fun j => decide (j ≠ is.2.strategyId)) }
  else db

/-- The first part of the DCA start-live. -/
def stopOthersDCA (id : String) (db : DCAStore) : DCAStore :=
  (db.strategies.enum.filter (fun is => decide (is.2.status = StrategyStatus.ACTIVE))).foldl
    (stopExistingDCA id) db

/-- The strategy document that the DCA start-live builds when the store has none with
the id. -/
def newLiveDCAStrategy (now : Nat) (req : DCAStartRequest) (userEmail : String) : DCAStrategy :=
  { strategyId := req.id, symbol := req.stockSymbol, config := req.config,
    status := StrategyStatus.ACTIVE,
    monitoring := { totalInvestment := 0, currentValue := 0, userEmail := userEmail,
                    emailNotifications := true, nextOrderTime := some now } }

/-- The changes the DCA start-live makes to a strategy that the store already has. -/
def reactivateDCA (now : Nat) (userEmail : String) (s : DCAStrategy) : DCAStrategy :=
  { s with status := StrategyStatus.ACTIVE,
           monitoring := { s.monitoring with userEmail := userEmail,
                                             emailNotifications := true,
                                             nextOrderTime := some now } }

/-- The end of the DCA start-live: `activeDCAStrategies.set`, then `setupDCACronJob`, which
registers a timer unless `cron.schedule` rejects the expression (`cronOk = false`); a
rejection is answered with 500. -/
def registerDCA (cronOk : Bool) (target : DCAStrategy) (db : DCAStore) : Response × DCAStore :=
  let db1 : DCAStore :=
    { db with activeStrategies := mapSet target.strategyId target db.activeStrategies }
  if cronOk = true then
    (Response.ok,
      { db1 with cronJobs :=
          db1.cronJobs.filter (fun j => decide (j ≠ target.strategyId)) ++ [target.strategyId] })
  else (Response.serverError, db1)

/-- `POST /dca-strategy/start-live`. -/
def startLiveDCA (now : Nat) (cronOk : Bool) (strategy : Option DCAStartRequest)
    (userEmail : String) (db : DCAStore) : Response × DCAStore :=
  match strategy with
  | none => (Response.badRequest, db)
  | some req =>
    if userEmail = "" then (Response.badRequest, db)
    else
      let db1 := stopOthersDCA req.id db
      match db1.strategies.find? (fun s => decide (s.strategyId = req.id)) with
      | none =>
        if req.id = "" ∨ req.stockSymbol = "" then (Response.serverError, db1)
        else
          let targetStrategy := newLiveDCAStrategy now req userEmail
          registerDCA cronOk targetStrategy
            { db1 with strategies := db1.strategies ++ [targetStrategy] }
      | some found =>
        let targetStrategy := reactivateDCA now userEmail found
        let strategies :=
          updateFirst (fun s => decide (s.strategyId = req.id)) (reactivateDCA now userEmail)
            db1.strategies
        registerDCA cronOk targetStrategy { db1 with strategies := strategies }

/-- A grid config with a negative investment, quantity 1 per order. -/
def negativeConfig : GridConfig :=
  { arithmeticExample with investment := -1000, qtyPerOrder := 1 }

/-- The run of a strategy created with the negative investment: start-live at the price
104, then ticks at 102.5 and 105.001. -/
def negativeRun : Store :=
  applyTicks [(2, "SBIN", 205 / 2), (3, "SBIN", 105001 / 1000)]
    (startLive samplePow 1 (some 104)
      (some { id := "GRID_N", stockSymbol := "SBIN", config := negativeConfig })
      "user@example.com" { strategies := [], orders := [] }).2

/-- A DCA start-live request for an id that `dcaStore` does not have. -/
def dcaRequest : DCAStartRequest :=
  { id := "DCA_3", stockSymbol := "TCS", config := dcaSample.config }

/-! ## The tick handlers of the two servers -/

/-- `monitorGridOrderFills` of the grid server: the update is handled when it has a symbol
and a truthy `ltp` (a number other than 0); `serviceReady` says whether `gridService` has
been initialised. The price cache `liveData` of the grid server is not part of `Store`. -/
def monitorGridOrderFills (now : Nat) (serviceReady : Bool) (symbol : String) (ltp : ℚ)
    (db : Store) : Store :=
  if symbol ≠ "" ∧ ltp ≠ 0 then
    if serviceReady = true then checkOrderFills now symbol ltp db else db
  else db

/-- A tick of the market feed as `handleLiveTick` of the data service reads it: the token
and the three fields that may carry the last traded price (0 for a field that is absent). -/
structure RawTick where
  token : String
  last_traded_price : ℚ := 0
  ltp : ℚ := 0
  lastTradedPrice : ℚ := 0
  deriving DecidableEq, Repr

/-- The body of the loop of `handleLiveTick` (data-service/server.js) for one tick: the
update `(symbol, ltp)` that is stored and emitted as `live_data`, or none when the function
returns early. `stocks` is the table `NIFTY50_STOCKS` of symbols and tokens. -/
def handleLiveTick (stocks : List (String × String)) (tick : RawTick) : Option (String × ℚ) :=
  match stocks.find? (fun e => decide (e.2 = tick.token)) with
  | none => none
  | some stock =>
    let ltp := orElse tick.last_traded_price (orElse tick.ltp (orElse tick.lastTradedPrice 0))
    let finalLtp := if ltp > 10000 then ltp / 100 else ltp
    if finalLtp ≤ 0 then none else some (stock.1, finalLtp)

/-- The handler of `live_data` in the grid server, for the update that the data service
emitted (with `success` and `data`). -/
def onGridLiveData (now : Nat) (serviceReady : Bool) (data : String × ℚ) (db : Store) : Store :=
  monitorGridOrderFills now serviceReady data.1 data.2 db

/-- The way of a tick from the feed to the ledger: `handleLiveTick` of the data service,
then the `live_data` handler of the grid server. -/
def gridTick (now : Nat) (serviceReady : Bool) (stocks : List (String × String))
    (tick : RawTick) (db : Store) : Store :=
  match handleLiveTick stocks tick with
  | none => db
  | some data => onGridLiveData now serviceReady data db

/-- Two rows of `NIFTY50_STOCKS`. -/
def sampleStocks : List (String × String) := [("TCS", "11536"), ("SBIN", "3045")]

/-- `liveData.set(symbol, stockData)`. -/
def setLive (symbol : String) (ltp : ℚ) (liveData : List (String × ℚ)) : List (String × ℚ) :=
  mapSet symbol ltp liveData

/-- The body of the loop of `processPriceUpdate` for one entry of `activeStrategies`. -/
def processActive (now : Nat) (symbol : String) (ltp : ℚ) (db : DCAStore)
    (entry : String × DCAStrategy) : DCAStore :=
  if entry.2.symbol = symbol ∧ entry.2.status = StrategyStatus.ACTIVE then
    if shouldExecuteDCAOrder entry.2 now = true then executeDCAOrder now entry.2 ltp db
    else db
  else db

/-- `DCATradingService.processPriceUpdate`: the cache is updated, then every entry of
`activeStrategies` is examined, as it stands in the map. -/
def processPriceUpdate (now : Nat) (symbol : String) (ltp : ℚ) (db : DCAStore) : DCAStore :=
  let db1 : DCAStore := { db with liveData := setLive symbol ltp db.liveData }
  db1.activeStrategies.foldl (processActive now symbol ltp) db1

/-- The handler of `live_data` in the DCA server, for an update with `success` and `data`. -/
def onLiveData (now : Nat) (symbol : String) (ltp : ℚ) (db : DCAStore) : DCAStore :=
  processPriceUpdate now symbol ltp { db with liveData := setLive symbol ltp db.liveData }

/-- The callback that `setupDCACronJob` registers for `strategyId`, run at one timer
fire. -/
def cronFire (now : Nat) (strategyId : String) (db : DCAStore) : DCAStore :=
  match db.strategies.find? (fun s => decide (s.strategyId = strategyId)) with
  | none => db
  | some currentStrategy =>
    if currentStrategy.status ≠ StrategyStatus.ACTIVE then db
    else
      let currentPrice := (db.liveData.lookup currentStrategy.symbol).getD 0
      if currentPrice = 0 then db
      else if shouldExecuteDCAOrder currentStrategy now = true then
        executeDCAOrder now currentStrategy currentPrice db
      else db

/-- An event of the DCA server: a live-data update or a timer fire. -/
inductive DCAEvent where
  | tick (now : Nat) (symbol : String) (ltp : ℚ)
  | timer (now : Nat) (strategyId : String)
  deriving DecidableEq, Repr

/-- One event handled. -/
def handleDCA (db : DCAStore) (e : DCAEvent) : DCAStore :=
  match e with
  | DCAEvent.tick now symbol ltp => onLiveData now symbol ltp db
  | DCAEvent.timer now strategyId => cronFire now strategyId db

/-- The sample DCA store after start-live for `DCA_3` at time 1000. -/
def dcaStarted : DCAStore :=
  (startLiveDCA 1000 true (some dcaRequest) "user@example.com" dcaStore).2

/-- Two live-data updates for `"TCS"` after the start of `DCA_3`. -/
def dcaTwoTicks : DCAStore :=
  onLiveData 3000 "TCS" 210 (onLiveData 2000 "TCS" 200 dcaStarted)

/-- A DCA start-live request for `DCA_1`, which `dcaStore` has. -/
def dcaRestartRequest : DCAStartRequest :=
  { id := "DCA_1", stockSymbol := "SBIN", config := dcaSample.config }

/-- The sample DCA store after start-live for `DCA_3` at time 1000 and start-live for `DCA_1`
at time 2000. -/
def dcaSwitched : DCAStore :=
  (startLiveDCA 2000 true (some dcaRestartRequest) "user@example.com" dcaStarted).2

/-- The entry of `activeStrategies` is on the tick's symbol, ACTIVE and due at `now`. -/
def dueOnTick (now : Nat) (symbol : String) (entry : String × DCAStrategy) : Bool :=
  decide (entry.2.symbol = symbol ∧ entry.2.status = StrategyStatus.ACTIVE) &&
    shouldExecuteDCAOrder entry.2 now

/-- The sample DCA store after start-live for `DCA_3`, with the price 200 for `"TCS"` in the
cache, and two timer fires for `DCA_3` five minutes apart. -/
def dcaTwoFires : DCAStore :=
  cronFire 302000 "DCA_3" (cronFire 2000 "DCA_3" { dcaStarted with liveData := [("TCS", 200)] })

/-! ## Backtests (performBacktest of gridService.js, performDCABacktest of dcaService.js) -/

/-- A point of `historicalData`: its `timestamp` and its `close`. -/
structure DataPoint where
  timestamp : Nat
  close : ℚ
  deriving DecidableEq, Repr

/-- A trade of a backtest. -/
structure Trade where
  type : OrderType
  price : ℚ
  quantity : ℚ
  timestamp : Nat
  pnl : ℚ := 0
  deriving DecidableEq, Repr

/-- The variables `trades`, `totalPnL` and `openPositions` of `performBacktest`. -/
structure BacktestState where
  trades : List Trade := []
  totalPnL : ℚ := 0
  openPositions : List Trade := []
  deriving DecidableEq, Repr

/-- The body of the inner loop of `performBacktest`, for the data point `dataPoint` and the
level `il.2` at index `il.1`. -/
def backtestLevel (config : GridConfig) (dataPoint : DataPoint) (st : BacktestState)
    (il : Nat × ℚ) : BacktestState :=
  let currentPrice := dataPoint.close
  let gridPrice := il.2
  let tolerance := gridPrice * (2 / 1000)
  if |currentPrice - gridPrice| ≤ tolerance then
    let qtyPerLevel := calculateQuantityPerLevel config currentPrice
    let trade : Trade :=
      { type := if il.1 % 2 = 0 then OrderType.BUY else OrderType.SELL, price := gridPrice,
        quantity := qtyPerLevel, timestamp := dataPoint.timestamp, pnl := 0 }
    match trade.type with
    | OrderType.BUY =>
      { st with openPositions := st.openPositions ++ [trade], trades := st.trades ++ [trade] }
    | OrderType.SELL =>
      match st.openPositions with
      | buyTrade :: rest =>
        let pnl := (gridPrice - buyTrade.price) * qtyPerLevel
        { trades := st.trades ++ [{ trade with pnl := pnl }],
          totalPnL := st.totalPnL + pnl, openPositions := rest }
      | [] => { st with trades := st.trades ++ [trade] }
  else st

/-- The two loops of `performBacktest`: the state after the last data point. -/
def backtestRun (pow : ℚ → ℚ → ℚ) (config : GridConfig) (historicalData : List DataPoint) :
    BacktestState :=
  let gridLevels := calculateGridLevels pow config
  historicalData.foldl (fun st dataPoint => gridLevels.enum.foldl (backtestLevel config dataPoint) st)
    {}

/-- The object `results.results` of `performBacktest`. -/
structure BacktestResults where
  totalTrades : Nat
  winningTrades : Nat
  losingTrades : Nat
  totalPnL : ℚ
  roi : ℚ
  winRate : ℚ
  deriving DecidableEq, Repr

/-- The value that `performBacktest` returns. -/
structure BacktestReport where
  results : BacktestResults
  trades : List Trade
  deriving DecidableEq, Repr

/-- `GridTradingService.performBacktest`; `roi` is the source's for `config.investment`
other than 0. -/
def performBacktest (pow : ℚ → ℚ → ℚ) (config : GridConfig) (historicalData : List DataPoint) :
    BacktestReport :=
  let st := backtestRun pow config historicalData
  let trades := st.trades
  let totalPnL := st.totalPnL
  let totalInvestment := config.investment
  let totalTrades := trades.length
  let winningTrades := (trades.filter (fun t => decide (t.pnl > 0))).length
  let losingTrades := (trades.filter (fun t => decide (t.pnl < 0))).length
  let roi := totalPnL / totalInvestment * 100
  let winRate : ℚ := if totalTrades > 0 then (winningTrades : ℚ) / (totalTrades : ℚ) * 100 else 0
  { results :=
      { totalTrades := totalTrades, winningTrades := winningTrades,
        losingTrades := losingTrades, totalPnL := toFixed 2 totalPnL, roi := toFixed 2 roi,
        winRate := toFixed 2 winRate },
    trades := trades.drop (trades.length - 50) }

/-- The specification's reading of the matching: the pairs of a data point and a level,
with the level's index, for which `|close - level| ≤ 0.002 * level`; data points in
series order, and for one data point the levels in index order. -/
def specMatches (gridLevels : List ℚ) (historicalData : List DataPoint) :
    List (DataPoint × Nat × ℚ) :=
  historicalData.flatMap (fun d =>
    (gridLevels.enum.filter (fun il => decide (|d.close - il.2| ≤ 2 / 1000 * il.2))).map
      (fun il => (d, il)))

/-- The trade of a match at an even index: a BUY at the level, with `pnl = 0`. -/
def specBuy (config : GridConfig) (m : DataPoint × Nat × ℚ) : Trade :=
  { type := OrderType.BUY, price := m.2.2,
    quantity := calculateQuantityPerLevel config m.1.close, timestamp := m.1.timestamp,
    pnl := 0 }

/-- The trade of a match at an odd index: a SELL at the level, with the given `pnl`. -/
def specSell (config : GridConfig) (m : DataPoint × Nat × ℚ) (pnl : ℚ) : Trade :=
  { type := OrderType.SELL, price := m.2.2,
    quantity := calculateQuantityPerLevel config m.1.close, timestamp := m.1.timestamp,
    pnl := pnl }

/-- The specification's reading of the trades, for the queue `queue` of open BUY trades
(oldest first) and the matches still to come: a match at an even index is a BUY that joins
the queue; a match at an odd index is a SELL that closes the oldest open BUY with
`pnl = (level - BUY price) * quantity`, or has `pnl = 0` when the queue is empty. -/
def specTrades (config : GridConfig) : List Trade → List (DataPoint × Nat × ℚ) → List Trade
  | _, [] => []
  | queue, m :: rest =>
    if m.2.1 % 2 = 0 then
      specBuy config m :: specTrades config (queue ++ [specBuy config m]) rest
    else
      match queue with
      | [] => specSell config m 0 :: specTrades config [] rest
      | buy :: queue1 =>
        specSell config m ((m.2.2 - buy.price) * calculateQuantityPerLevel config m.1.close)
          :: specTrades config queue1 rest

/-- The queue of open BUY trades after the matches. -/
def specQueue (config : GridConfig) : List Trade → List (DataPoint × Nat × ℚ) → List Trade
  | queue, [] => queue
  | queue, m :: rest =>
    if m.2.1 % 2 = 0 then specQueue config (queue ++ [specBuy config m]) rest
    else specQueue config queue.tail rest

/-- A series of four closes for the grid of `seedStrategy` (levels 102.5, 105, 107.5). -/
def sampleSeries : List DataPoint :=
  [{ timestamp := 1, close := 205 / 2 }, { timestamp := 2, close := 105 },
   { timestamp := 3, close := 104 }, { timestamp := 4, close := 1051 / 10 }]

/-- The variables `trades`, `totalInvestment`, `totalQuantity` and `totalOrders` of
`performDCABacktest`. -/
structure DCABacktestState where
  trades : List Trade := []
  totalInvestment : ℚ := 0
  totalQuantity : ℚ := 0
  totalOrders : Nat := 0
  deriving DecidableEq, Repr

/-- The constant `orderInterval` of `performDCABacktest`:
`Math.max(1, Math.floor(frequencyInDays))`, where `frequencyInDays` is `frequency` for the
unit `days` and `frequency / 24` for every other unit. -/
def orderInterval (config : DCAConfig) : Nat :=
  let frequencyInDays : ℚ :=
    if config.frequencyUnit = FrequencyUnit.days then (config.frequency : ℚ)
    else (config.frequency : ℚ) / 24
  max 1 ⌊frequencyInDays⌋.toNat

/-- The loop `for (let i = 0; i < historicalData.length; i += orderInterval)` of
`performDCABacktest`, from the index `i` on; each iteration moves `i` up by at least 1, so
the fuel `historicalData.length` is enough. -/
def dcaBacktestLoop (config : DCAConfig) (historicalData : List DataPoint) :
    Nat → Nat → DCABacktestState → DCABacktestState
  | 0, _, st => st
  | fuel + 1, i, st =>
    match historicalData[i]? with
    | none => st
    | some dataPoint =>
      if config.endCondition = EndCondition.orderCount ∧
          (st.totalOrders : ℚ) ≥ config.maxOrders then st
      else
        let price := dataPoint.close
        let quantity := config.investmentAmount / price
        let trade : Trade :=
          { type := config.orderType, price := price, quantity := quantity,
            timestamp := dataPoint.timestamp, pnl := 0 }
        dcaBacktestLoop config historicalData fuel (i + orderInterval config)
          { trades := st.trades ++ [trade],
            totalInvestment := st.totalInvestment + config.investmentAmount,
            totalQuantity := st.totalQuantity + quantity,
            totalOrders := st.totalOrders + 1 }

/-- The object `results.results` of `performDCABacktest`. -/
structure DCABacktestResults where
  totalOrders : Nat
  totalInvestment : ℚ
  currentValue : ℚ
  totalPnL : ℚ
  roi : ℚ
  averagePrice : ℚ
  totalQuantity : ℚ
  finalPrice : ℚ
  deriving DecidableEq, Repr

/-- The value that `performDCABacktest` returns. -/
structure DCABacktestReport where
  results : DCABacktestResults
  trades : List Trade
  deriving DecidableEq, Repr

/-- `DCATradingService.performDCABacktest`; none when the series is empty, where the source
throws on `historicalData[historicalData.length - 1].close`. -/
def performDCABacktest (config : DCAConfig) (historicalData : List DataPoint) :
    Option DCABacktestReport :=
  let st := dcaBacktestLoop config historicalData historicalData.length 0 {}
  match historicalData.getLast? with
  | none => none
  | some last =>
    let averagePrice := st.totalInvestment / st.totalQuantity
    let finalPrice := last.close
    let currentValue := st.totalQuantity * finalPrice
    let totalPnL := currentValue - st.totalInvestment
    let roi := if st.totalInvestment > 0 then totalPnL / st.totalInvestment * 100 else 0
    some
      { results :=
          { totalOrders := st.totalOrders, totalInvestment := toFixed 2 st.totalInvestment,
            currentValue := toFixed 2 currentValue, totalPnL := toFixed 2 totalPnL,
            roi := toFixed 2 roi, averagePrice := toFixed 2 averagePrice,
            totalQuantity := toFixed 4 st.totalQuantity, finalPrice := toFixed 2 finalPrice },
        trades := st.trades.drop (st.trades.length - 50) }

/-- A DCA config that buys for 1000 every 60 minutes. -/
def hourlyInMinutes : DCAConfig :=
  { investmentAmount := 1000, frequency := 60, frequencyUnit := FrequencyUnit.minutes,
    startTime := 0, endCondition := EndCondition.manual }

/-- The same schedule, written as every 1 hour. -/
def hourlyInHours : DCAConfig :=
  { hourlyInMinutes with frequency := 1, frequencyUnit := FrequencyUnit.hours }

/-- A ledger with two EXECUTED orders of the sample DCA strategy, at 100 and at 125. -/
def dcaTwoOrders : DCAStore :=
  { dcaStore with orders := [newDCAOrder 1 dcaSample 100, newDCAOrder 2 dcaSample 125] }

/-- A strategy that has executed no order and whose thresholds leave no room: the stop
loss is enabled at 0, or the take profit is enabled at 0, or the order count is limited
to 0. -/
def ZeroBlocked (s : DCAStrategy) : Prop :=
  s.monitoring.roi = 0 ∧ s.monitoring.executedOrders = 0 ∧
  ((s.config.enableStopLoss = true ∧ s.config.stopLoss = 0) ∨
   (s.config.enableTakeProfit = true ∧ s.config.takeProfit = 0) ∨
   (s.config.endCondition = EndCondition.orderCount ∧ s.config.maxOrders = 0))

/-- The sample DCA strategy with the stop loss enabled and left at the schema default 0. -/
def dcaZero : DCAStrategy :=
  { dcaSample with config := { dcaSample.config with stopLoss := 0 } }

/-- A running DCA server whose only strategy is `dcaZero`. -/
def dcaZeroStore : DCAStore :=
  { strategies := [dcaZero], orders := [], liveData := [("SBIN", 110)],
    activeStrategies := [("DCA_1", dcaZero)], cronJobs := ["DCA_1"] }

/-- Two ticks and a timer fire. -/
def dcaZeroEvents : List DCAEvent :=
  [DCAEvent.tick 1000 "SBIN" 110, DCAEvent.timer 2000 "DCA_1", DCAEvent.tick 400000 "SBIN" 90]

/-! ## Predicates on the ledger used by the tick invariants -/

/-- The constant `priceIncrement` (and `priceDecrement`) of `createNextGridOrder`. -/
def gridStep (config : GridConfig) : ℚ :=
  (config.upperPrice - config.lowerPrice) / (config.levels + 1)

/-- No PENDING order of the strategy passes the fill test at the price `p`. -/
def Quiet (p : ℚ) (strategyId : String) (orders : List GridOrder) : Prop :=
  ∀ o ∈ orders, o.strategyId = strategyId → o.status = OrderStatus.PENDING → ¬ shouldFill o p

/-- The order without the two stamps that every check of a PENDING order renews. -/
def unstamped (o : GridOrder) : GridOrder :=
  { o with lastCheckedPrice := none, lastCheckedTime := 0 }

/-- The fields of a strategy document that no tick changes. -/
def coreOf (s : GridStrategy) : String × String × StrategyStatus × GridConfig :=
  (s.strategyId, s.symbol, s.status, s.config)

/-- Some BUY order of the strategy was FILLED at the clock reading `now`. -/
def FilledNow (strategyId : String) (now : Nat) (orders : List GridOrder) : Prop :=
  ∃ x ∈ orders, isFilledBuy strategyId x ∧ fillTimeKey x = now + 1

/-- The facts about the orders of one strategy that hold throughout the tick at the clock
reading `now` and the price `p`, where `f` is the fill price of the latest BUY fill before
the tick and `K` bounds the keys of the fill times before the tick: no order carries a
negative `pnl` or quantity and a PENDING order carries `pnl = 0`; a FILLED BUY was filled
before the tick or in it, at `p`; the latest of the BUY fills before the tick was at `f`;
and a PENDING SELL lies above `f` by more than its tolerance, unless a BUY was filled in
this tick. -/
def TickInv (strategyId : String) (K : Nat) (f : ℚ) (now : Nat) (p : ℚ)
    (orders : List GridOrder) : Prop :=
  (∀ o ∈ orders, o.strategyId = strategyId →
    0 ≤ o.pnl ∧ (o.status = OrderStatus.PENDING → o.pnl = 0) ∧ 0 ≤ o.quantity) ∧
  (∀ x ∈ orders, isFilledBuy strategyId x →
    fillTimeKey x ≤ K ∨ (fillTimeKey x = now + 1 ∧ x.fillPrice.getD 0 = p)) ∧
  (∀ b ∈ orders, isFilledBuy strategyId b → fillTimeKey b ≤ K →
    (∀ c ∈ orders, isFilledBuy strategyId c → fillTimeKey c ≤ fillTimeKey b) →
    b.fillPrice.getD 0 = f) ∧
  (∀ o ∈ orders, o.strategyId = strategyId → o.status = OrderStatus.PENDING →
    o.type = OrderType.SELL →
    f < o.price - o.price * (1 / 1000) ∨ FilledNow strategyId now orders)

/-- The stored `totalPnL` of every document of the strategy is not negative, or it is
still the value that a document of the strategy in `base` has. -/
def PnlSound (strategyId : String) (base : List GridStrategy)
    (strategies : List GridStrategy) : Prop :=
  ∀ s ∈ strategies, s.strategyId = strategyId →
    0 ≤ s.monitoring.totalPnL ∨
    ∃ x ∈ base, x.strategyId = strategyId ∧ s.monitoring.totalPnL = x.monitoring.totalPnL

/-- The conditions on a grid config under which no trade books a loss: `levels + 1` is not
0, the step is at least `0.001 * upperPrice + 0.01`, and the quantity of an order is not
negative: the config has a fixed `qtyPerOrder > 0`, or the quantity is sized from an
investment per level `investment / levels` that is not negative. -/
def WideGrid (config : GridConfig) : Prop :=
  config.levels + 1 ≠ 0 ∧ gridStep config ≥ config.upperPrice / 1000 + 1 / 100 ∧
  (0 < config.qtyPerOrder ∨ (config.levels ≠ 0 ∧ 0 ≤ config.investment / config.levels))

/-- The clock readings of a run: each tick `(elapsed, symbol, price)` is handled
`elapsed + 1` milliseconds after the clock reading before it, so the readings rise from
tick to tick. -/
def stampTicks (start : Nat) : List (Nat × String × ℚ) → List (Nat × String × ℚ)
  | [] => []
  | t :: ticks => (start + t.1 + 1, t.2.1, t.2.2) :: stampTicks (start + t.1 + 1) ticks

/-- A run of ticks after the clock reading `start`, one `checkOrderFills` per tick. -/
def runTicks (start : Nat) (ticks : List (Nat × String × ℚ)) (db : Store) : Store :=
  applyTicks (stampTicks start ticks) db

/-- The strategy of the sample run with the quantity sized from the investment
(`qtyPerOrder = 0`, 1000 over 3 levels). -/
def investStrategy : GridStrategy :=
  { seedStrategy with config := arithmeticExample }

/-- The run of `investStrategy`: seeding at the clock reading 1, then ticks at 102.5 and at
105.001. -/
def investRun : Store :=
  runTicks 1 [(0, "SBIN", 205 / 2), (0, "SBIN", 105001 / 1000)]
    (createGridOrders 1 investStrategy { strategies := [investStrategy], orders := [] })

/-! # Theorems -/

/-! ## Rounding -/

theorem roundHalfAway_mono {x y : ℚ} (h : x ≤ y) : roundHalfAway x ≤ roundHalfAway y := by
  unfold roundHalfAway
  split_ifs with hx hy hy
  · have : ⌊-y + 1 / 2⌋ ≤ ⌊-x + 1 / 2⌋ := Int.floor_mono (by linarith)
    omega
  · have h1 : 0 ≤ ⌊-x + 1 / 2⌋ := Int.floor_nonneg.mpr (by linarith)
    have h2 : 0 ≤ ⌊y + 1 / 2⌋ := Int.floor_nonneg.mpr (by linarith)
    omega
  · linarith
  · exact Int.floor_mono (by linarith)

theorem roundHalfAway_ge (x : ℚ) : x - 1 / 2 ≤ (roundHalfAway x : ℚ) := by
  unfold roundHalfAway
  split_ifs with hx
  · have := Int.floor_le (-x + 1 / 2)
    push_cast
    linarith
  · have := Int.lt_floor_add_one (x + 1 / 2)
    linarith

theorem roundHalfAway_le (x : ℚ) : (roundHalfAway x : ℚ) ≤ x + 1 / 2 := by
  unfold roundHalfAway
  split_ifs with hx
  · have := Int.lt_floor_add_one (-x + 1 / 2)
    push_cast
    linarith
  · exact Int.floor_le (x + 1 / 2)

theorem roundHalfAway_gt_of_nonneg {x : ℚ} (hx : 0 ≤ x) : x - 1 / 2 < (roundHalfAway x : ℚ) := by
  unfold roundHalfAway
  rw [if_neg (not_lt.mpr hx)]
  have := Int.lt_floor_add_one (x + 1 / 2)
  linarith

theorem roundHalfAway_lt_of_neg {x : ℚ} (hx : x < 0) : (roundHalfAway x : ℚ) < x + 1 / 2 := by
  unfold roundHalfAway
  rw [if_pos hx]
  have := Int.floor_le (-x + 1 / 2)
  have h2 := Int.lt_floor_add_one (-x + 1 / 2)
  push_cast
  by_contra hc
  push_neg at hc
  have h3 : (⌊-x + 1 / 2⌋ : ℚ) ≤ -x - 1 / 2 := by linarith
  have h4 : (⌊-x + 1 / 2⌋ : ℚ) + 1 ≤ -x + 1 / 2 := by linarith
  have h5 : ⌊-x + 1 / 2⌋ + 1 ≤ ⌊-x + 1 / 2⌋ := Int.le_floor.mpr (by push_cast; linarith)
  omega

theorem roundHalfAway_lt_of_add_one_le {x y : ℚ} (h : x + 1 ≤ y) :
    roundHalfAway x < roundHalfAway y := by
  have hx := roundHalfAway_le x
  have hy := roundHalfAway_ge y
  by_cases h0 : 0 ≤ y
  · have := roundHalfAway_gt_of_nonneg h0
    have : (roundHalfAway x : ℚ) < roundHalfAway y := by linarith
    exact_mod_cast this
  · have hxn : x < 0 := by linarith [not_le.mp h0]
    have := roundHalfAway_lt_of_neg hxn
    have : (roundHalfAway x : ℚ) < roundHalfAway y := by linarith
    exact_mod_cast this

theorem roundHalfAway_eq_of_nonneg {x : ℚ} (n : ℤ) (h0 : 0 ≤ x) (h1 : (n : ℚ) ≤ x + 1 / 2)
    (h2 : x + 1 / 2 < n + 1) : roundHalfAway x = n := by
  unfold roundHalfAway
  rw [if_neg (not_lt.mpr h0)]
  exact Int.floor_eq_iff.mpr ⟨h1, h2⟩

theorem toFixed_mono (d : Nat) {x y : ℚ} (h : x ≤ y) : toFixed d x ≤ toFixed d y := by
  unfold toFixed
  have hp : (0 : ℚ) < 10 ^ d := by positivity
  have : roundHalfAway (x * 10 ^ d) ≤ roundHalfAway (y * 10 ^ d) :=
    roundHalfAway_mono (mul_le_mul_of_nonneg_right h hp.le)
  have : (roundHalfAway (x * 10 ^ d) : ℚ) ≤ roundHalfAway (y * 10 ^ d) := by exact_mod_cast this
  exact div_le_div_of_nonneg_right this hp.le

theorem toFixed_two_ge (x : ℚ) : x - 1 / 200 ≤ toFixed 2 x := by
  unfold toFixed
  have := roundHalfAway_ge (x * 10 ^ 2)
  rw [le_div_iff₀ (by norm_num)]
  linarith

theorem toFixed_two_le (x : ℚ) : toFixed 2 x ≤ x + 1 / 200 := by
  unfold toFixed
  have := roundHalfAway_le (x * 10 ^ 2)
  rw [div_le_iff₀ (by norm_num)]
  linarith

theorem toFixed_two_lt_of_gap {x y : ℚ} (h : x + 1 / 100 ≤ y) : toFixed 2 x < toFixed 2 y := by
  unfold toFixed
  have : roundHalfAway (x * 10 ^ 2) < roundHalfAway (y * 10 ^ 2) :=
    roundHalfAway_lt_of_add_one_le (by linarith)
  have : (roundHalfAway (x * 10 ^ 2) : ℚ) < roundHalfAway (y * 10 ^ 2) := by exact_mod_cast this
  exact div_lt_div_of_pos_right this (by norm_num)

theorem toFixed_eq_of_nonneg (d : Nat) {x : ℚ} (n : ℤ) (h0 : 0 ≤ x)
    (h1 : (n : ℚ) ≤ x * 10 ^ d + 1 / 2) (h2 : x * 10 ^ d + 1 / 2 < n + 1) :
    toFixed d x = (n : ℚ) / 10 ^ d := by
  unfold toFixed
  rw [roundHalfAway_eq_of_nonneg n (by positivity) h1 h2]

example : toFixed 2 (100002/1000) = 100 := by
  rw [toFixed_eq_of_nonneg 2 10000] <;> norm_num

/-! ## Grid levels -/

theorem floor_toNat_natCast (N : ℕ) : ⌊(N : ℚ)⌋.toNat = N := by
  simp

/-- For a valid config the result is the list of rounded loop values, provided these are
already in ascending order (the final sort then changes nothing). -/
theorem calculateGridLevels_eq_map (pow : ℚ → ℚ → ℚ) (config : GridConfig) (N : ℕ)
    (hN : config.levels = N) (hpos : 0 < N) (hlt : config.lowerPrice < config.upperPrice)
    (hs : List.Sorted (fun a b => a ≤ b)
      ((List.range N).map (fun k => toFixed 2 (rawLevel pow config (k + 1))))) :
    calculateGridLevels pow config
      = (List.range N).map (fun k => toFixed 2 (rawLevel pow config (k + 1))) := by
  unfold calculateGridLevels
  have h0 : (0 : ℚ) < config.levels := by rw [hN]; exact_mod_cast hpos
  simp only [h0, hlt, and_self, if_true]
  rw [hN, floor_toNat_natCast]
  exact List.Sorted.insertionSort_eq hs

theorem sorted_map_range_of_mono (f : ℕ → ℚ) (hf : ∀ k, f k ≤ f (k + 1)) (N : ℕ) :
    List.Sorted (fun a b => a ≤ b) ((List.range N).map f) := by
  have hmono : Monotone f := monotone_nat_of_le_succ hf
  unfold List.Sorted
  rw [List.pairwise_map]
  exact (List.pairwise_lt_range N).imp (fun h => hmono h.le)

theorem sorted_lt_map_range_of_strictMono (f : ℕ → ℚ) (N : ℕ)
    (hf : ∀ k, k + 1 < N → f k < f (k + 1)) :
    List.Sorted (fun a b => a < b) ((List.range N).map f) := by
  unfold List.Sorted
  rw [List.pairwise_map]
  have key : ∀ a b, a < b → b < N → f a < f b := by
    intro a b hab hb
    induction b with
    | zero => omega
    | succ b ih =>
      rcases Nat.lt_succ_iff_lt_or_eq.mp hab with h | h
      · exact lt_trans (ih h (by omega)) (hf b hb)
      · subst h; exact hf a hb
  have hp := List.pairwise_lt_range N
  have hm : ∀ x ∈ List.range N, x < N := fun x hx => List.mem_range.mp hx
  exact hp.imp_of_mem (fun _ hb hab => key _ _ hab (hm _ hb))

theorem rawLevel_arithmetic (pow : ℚ → ℚ → ℚ) (config : GridConfig)
    (hA : config.gridType = GridType.Arithmetic) (i : ℕ) :
    rawLevel pow config i
      = config.lowerPrice + (i : ℚ) * ((config.upperPrice - config.lowerPrice) / (config.levels + 1)) := by
  unfold rawLevel
  rw [hA]

theorem calculateGridLevels_arithmetic_eq (pow : ℚ → ℚ → ℚ) (config : GridConfig) (N : ℕ)
    (hN : config.levels = N) (hpos : 0 < N) (hlt : config.lowerPrice < config.upperPrice)
    (hA : config.gridType = GridType.Arithmetic) :
    calculateGridLevels pow config
      = (List.range N).map (fun k => toFixed 2 (config.lowerPrice +
          ((k + 1 : ℕ) : ℚ) * ((config.upperPrice - config.lowerPrice) / (config.levels + 1)))) := by
  have hstep : 0 ≤ (config.upperPrice - config.lowerPrice) / (config.levels + 1) := by
    apply div_nonneg
    · linarith
    · rw [hN]; positivity
  have hs : List.Sorted (fun a b => a ≤ b)
      ((List.range N).map (fun k => toFixed 2 (rawLevel pow config (k + 1)))) := by
    apply sorted_map_range_of_mono
    intro k
    apply toFixed_mono
    rw [rawLevel_arithmetic pow config hA, rawLevel_arithmetic pow config hA]
    push_cast
    nlinarith
  rw [calculateGridLevels_eq_map pow config N hN hpos hlt hs]
  apply List.map_congr_left
  intro k _
  rw [rawLevel_arithmetic pow config hA]

/-- C5: for a positive integer `N = config.levels` and `upperPrice > lowerPrice`,
`calculateGridLevels` returns exactly `N` levels (whatever the grid type); it returns the
empty sequence when `upperPrice ≤ lowerPrice` or `levels ≤ 0`. -/
theorem calculateGridLevels_length (pow : ℚ → ℚ → ℚ) (config : GridConfig) :
    (∀ N : ℕ, 0 < N → config.levels = N → config.lowerPrice < config.upperPrice →
        (calculateGridLevels pow config).length = N) ∧
    (config.upperPrice ≤ config.lowerPrice ∨ config.levels ≤ 0 →
        calculateGridLevels pow config = []) := by
  constructor
  · intro N hpos hN hlt
    unfold calculateGridLevels
    have h0 : (0 : ℚ) < config.levels := by rw [hN]; exact_mod_cast hpos
    simp only [h0, hlt, and_self, if_true, List.length_insertionSort, List.length_map,
      List.length_range]
    rw [hN, floor_toNat_natCast]
  · intro h
    unfold calculateGridLevels
    have hc : ¬ (0 < config.levels ∧ config.lowerPrice < config.upperPrice) := by
      rintro ⟨h1, h2⟩
      rcases h with h | h <;> linarith
    simp [hc]

/-- C5 (witness): three levels between 100 and 110, and none when the bounds are swapped. -/
theorem calculateGridLevels_length_witness :
    (calculateGridLevels samplePow arithmeticExample).length = 3 ∧
    calculateGridLevels samplePow
      { arithmeticExample with upperPrice := 100, lowerPrice := 110 } = [] :=
  ⟨(calculateGridLevels_length samplePow arithmeticExample).1 3 (by norm_num)
      (by norm_num [arithmeticExample]) (by norm_num [arithmeticExample]),
    (calculateGridLevels_length samplePow
      { arithmeticExample with upperPrice := 100, lowerPrice := 110 }).2
      (Or.inl (by norm_num))⟩

theorem tightConfig_levels (pow : ℚ → ℚ → ℚ) :
    calculateGridLevels pow tightConfig = [100, 100, 10001 / 100, 10001 / 100] := by
  rw [calculateGridLevels_arithmetic_eq pow tightConfig 4 (by norm_num [tightConfig])
    (by norm_num) (by norm_num [tightConfig]) rfl]
  simp only [tightConfig, List.range_succ, List.range_zero, List.nil_append, List.cons_append,
    List.map_cons, List.map_nil]
  rw [toFixed_eq_of_nonneg 2 10000 (by norm_num) (by norm_num) (by norm_num),
    toFixed_eq_of_nonneg 2 10000 (by norm_num) (by norm_num) (by norm_num),
    toFixed_eq_of_nonneg 2 10001 (by norm_num) (by norm_num) (by norm_num),
    toFixed_eq_of_nonneg 2 10001 (by norm_num) (by norm_num) (by norm_num)]
  norm_num

/-- C6 (counterexample): the arithmetic grid with four levels between 100 and 100.01 is a
valid config whose levels are `[100, 100, 100.01, 100.01]`: they repeat and they touch both
bounds. -/
theorem calculateGridLevels_not_strict :
    tightConfig.lowerPrice < tightConfig.upperPrice ∧ tightConfig.levels = 4 ∧
    calculateGridLevels samplePow tightConfig = [100, 100, 10001 / 100, 10001 / 100] ∧
    ¬ List.Sorted (fun a b => a < b) (calculateGridLevels samplePow tightConfig) ∧
    ¬ (∀ l ∈ calculateGridLevels samplePow tightConfig,
        tightConfig.lowerPrice < l ∧ l < tightConfig.upperPrice) := by
  rw [tightConfig_levels]
  refine ⟨by norm_num [tightConfig], rfl, rfl, ?_, ?_⟩
  · intro h
    have := List.rel_of_sorted_cons h 100 (by simp)
    exact lt_irrefl _ this
  · intro h
    have := (h 100 (by simp)).1
    simp [tightConfig] at this

/-- C6 (amended): for a valid config whose unrounded levels are at least 0.01 apart from
each other and from the two bounds, the result is the list of the rounded loop values, it
is strictly ascending, and every level lies strictly between the bounds. -/
theorem calculateGridLevels_strict (pow : ℚ → ℚ → ℚ) (config : GridConfig) (N : ℕ)
    (hN : config.levels = N) (hpos : 0 < N) (hlt : config.lowerPrice < config.upperPrice)
    (hlo : config.lowerPrice + 1 / 100 ≤ rawLevel pow config 1)
    (hgap : ∀ i, 1 ≤ i → i < N → rawLevel pow config i + 1 / 100 ≤ rawLevel pow config (i + 1))
    (hhi : rawLevel pow config N + 1 / 100 ≤ config.upperPrice) :
    calculateGridLevels pow config
        = (List.range N).map (fun k => toFixed 2 (rawLevel pow config (k + 1))) ∧
    List.Sorted (fun a b => a < b) (calculateGridLevels pow config) ∧
    ∀ l ∈ calculateGridLevels pow config, config.lowerPrice < l ∧ l < config.upperPrice := by
  have hstrict : List.Sorted (fun a b => a < b)
      ((List.range N).map (fun k => toFixed 2 (rawLevel pow config (k + 1)))) := by
    apply sorted_lt_map_range_of_strictMono
    intro k hk
    exact toFixed_two_lt_of_gap (hgap (k + 1) (by omega) hk)
  have hs : List.Sorted (fun a b => a ≤ b)
      ((List.range N).map (fun k => toFixed 2 (rawLevel pow config (k + 1)))) :=
    hstrict.imp (fun h => le_of_lt h)
  have heq := calculateGridLevels_eq_map pow config N hN hpos hlt hs
  have hdown : ∀ i, 1 ≤ i → i ≤ N → config.lowerPrice + 1 / 100 ≤ rawLevel pow config i := by
    intro i
    induction i with
    | zero => intro h; omega
    | succ i ih =>
      intro _ h2
      rcases Nat.eq_zero_or_pos i with h0 | h0
      · subst h0; exact hlo
      · have := ih h0 (by omega)
        have := hgap i h0 (by omega)
        linarith
  have hup : ∀ j i, 1 ≤ i → i + j = N → rawLevel pow config i + 1 / 100 ≤ config.upperPrice := by
    intro j
    induction j with
    | zero =>
      intro i _ h
      have hi : i = N := by omega
      rw [hi]; exact hhi
    | succ j ih =>
      intro i h1 h
      have := ih (i + 1) (by omega) (by omega)
      have := hgap i h1 (by omega)
      linarith
  have hraw : ∀ i, 1 ≤ i → i ≤ N →
      config.lowerPrice + 1 / 100 ≤ rawLevel pow config i ∧
      rawLevel pow config i + 1 / 100 ≤ config.upperPrice :=
    fun i h1 h2 => ⟨hdown i h1 h2, hup (N - i) i h1 (by omega)⟩
  refine ⟨heq, ?_, ?_⟩
  · rw [heq]; exact hstrict
  · intro l hl
    rw [heq] at hl
    obtain ⟨k, hk, rfl⟩ := List.mem_map.mp hl
    have hkN := List.mem_range.mp hk
    obtain ⟨h1, h2⟩ := hraw (k + 1) (by omega) (by omega)
    have h3 := toFixed_two_ge (rawLevel pow config (k + 1))
    have h4 := toFixed_two_le (rawLevel pow config (k + 1))
    constructor <;> linarith

/-- An arithmetic grid whose step is at least 0.01 meets the spacing conditions of
`calculateGridLevels_strict`. -/
theorem arithmetic_spacing (pow : ℚ → ℚ → ℚ) (config : GridConfig) (N : ℕ)
    (hN : config.levels = N)
    (hA : config.gridType = GridType.Arithmetic)
    (hstep : 1 / 100 ≤ (config.upperPrice - config.lowerPrice) / (config.levels + 1)) :
    config.lowerPrice + 1 / 100 ≤ rawLevel pow config 1 ∧
    (∀ i, 1 ≤ i → i < N → rawLevel pow config i + 1 / 100 ≤ rawLevel pow config (i + 1)) ∧
    rawLevel pow config N + 1 / 100 ≤ config.upperPrice := by
  have hne : config.levels + 1 ≠ 0 := by
    rw [hN]; positivity
  refine ⟨?_, ?_, ?_⟩
  · rw [rawLevel_arithmetic pow config hA]
    push_cast
    linarith
  · intro i _ _
    rw [rawLevel_arithmetic pow config hA, rawLevel_arithmetic pow config hA]
    push_cast
    linarith
  · rw [rawLevel_arithmetic pow config hA]
    have h1 : (N : ℚ) * ((config.upperPrice - config.lowerPrice) / (config.levels + 1))
        = (config.upperPrice - config.lowerPrice)
          - (config.upperPrice - config.lowerPrice) / (config.levels + 1) := by
      rw [← hN]
      field_simp
      ring
    rw [h1]
    linarith

/-- C6 (witness): the grid of three levels between 100 and 110 has step 2.5. -/
theorem calculateGridLevels_strict_witness :
    calculateGridLevels samplePow arithmeticExample
        = (List.range 3).map (fun k => toFixed 2 (rawLevel samplePow arithmeticExample (k + 1))) ∧
    List.Sorted (fun a b => a < b) (calculateGridLevels samplePow arithmeticExample) ∧
    ∀ l ∈ calculateGridLevels samplePow arithmeticExample,
      arithmeticExample.lowerPrice < l ∧ l < arithmeticExample.upperPrice :=
  have hs := arithmetic_spacing samplePow arithmeticExample 3 (by norm_num [arithmeticExample])
    rfl (by norm_num [arithmeticExample])
  calculateGridLevels_strict samplePow arithmeticExample 3 (by norm_num [arithmeticExample])
    (by norm_num) (by norm_num [arithmeticExample]) hs.1 hs.2.1 hs.2.2

/-- C7: for an arithmetic grid with a valid config, the `i`-th level (`i = 1 .. N`) is
`lowerPrice + i * (upperPrice - lowerPrice) / (N + 1)` rounded to two decimals; for
`upperPrice = 110`, `lowerPrice = 100`, `levels = 3` the result is `[102.5, 105, 107.5]`. -/
theorem calculateGridLevels_arithmetic_nth (pow : ℚ → ℚ → ℚ) (config : GridConfig) (N i : ℕ)
    (hN : config.levels = N) (hpos : 0 < N) (hlt : config.lowerPrice < config.upperPrice)
    (hA : config.gridType = GridType.Arithmetic) (h1 : 1 ≤ i) (h2 : i ≤ N) :
    (calculateGridLevels pow config)[i - 1]?
        = some (toFixed 2 (config.lowerPrice +
            (i : ℚ) * (config.upperPrice - config.lowerPrice) / ((N : ℚ) + 1))) ∧
    calculateGridLevels pow arithmeticExample = [205 / 2, 105, 215 / 2] := by
  constructor
  · rw [calculateGridLevels_arithmetic_eq pow config N hN hpos hlt hA]
    rw [List.getElem?_map, List.getElem?_range (by omega)]
    simp only [Option.map_some']
    have hi : i - 1 + 1 = i := by omega
    rw [hi, hN, mul_div_assoc]
  · rw [calculateGridLevels_arithmetic_eq pow arithmeticExample 3
      (by norm_num [arithmeticExample]) (by norm_num) (by norm_num [arithmeticExample]) rfl]
    simp only [arithmeticExample, List.range_succ, List.range_zero, List.nil_append,
      List.cons_append, List.map_cons, List.map_nil]
    rw [toFixed_eq_of_nonneg 2 10250 (by norm_num) (by norm_num) (by norm_num),
      toFixed_eq_of_nonneg 2 10500 (by norm_num) (by norm_num) (by norm_num),
      toFixed_eq_of_nonneg 2 10750 (by norm_num) (by norm_num) (by norm_num)]
    norm_num

/-- C7 (witness): the second of three levels between 100 and 110. -/
theorem calculateGridLevels_arithmetic_nth_witness :
    (calculateGridLevels samplePow arithmeticExample)[2 - 1]?
        = some (toFixed 2 (arithmeticExample.lowerPrice +
            ((2 : ℕ) : ℚ) * (arithmeticExample.upperPrice - arithmeticExample.lowerPrice)
              / (((3 : ℕ) : ℚ) + 1))) ∧
    calculateGridLevels samplePow arithmeticExample = [205 / 2, 105, 215 / 2] :=
  calculateGridLevels_arithmetic_nth samplePow arithmeticExample 3 2
    (by norm_num [arithmeticExample]) (by norm_num) (by norm_num [arithmeticExample]) rfl
    (by norm_num) (by norm_num)

theorem fifthRoot_bounds {f : ℚ} (h0 : 0 ≤ f) (h : |f ^ 5 - 2| ≤ 1 / 10 ^ 6) :
    1148698 / 10 ^ 6 ≤ f ∧ f ≤ 1148699 / 10 ^ 6 := by
  obtain ⟨hl, hu⟩ := abs_le.mp h
  constructor
  · by_contra hc
    push_neg at hc
    have : f ^ 5 ≤ (1148698 / 10 ^ 6 : ℚ) ^ 5 := pow_le_pow_left₀ h0 hc.le 5
    norm_num at this hl
    linarith
  · by_contra hc
    push_neg at hc
    have : (1148699 / 10 ^ 6 : ℚ) ^ 5 ≤ f ^ 5 := pow_le_pow_left₀ (by norm_num) hc.le 5
    norm_num at this hu
    linarith

theorem geometricExample_rawLevel (pow : ℚ → ℚ → ℚ) (i : ℕ) :
    rawLevel pow geometricExample i = 100 * pow (pow 2 (1 / 5)) (i : ℚ) := by
  unfold rawLevel geometricExample
  norm_num

theorem geometricExample_map (pow : ℚ → ℚ → ℚ) (hp : PowAccurate pow) :
    (List.range 4).map (fun k => toFixed 2 (rawLevel pow geometricExample (k + 1)))
      = [11487 / 100, 13195 / 100, 15157 / 100, 17411 / 100] := by
  obtain ⟨h0, hroot, hpow⟩ := hp
  obtain ⟨hlo, hhi⟩ := fifthRoot_bounds h0 hroot
  have hflo : (0 : ℚ) ≤ 1148698 / 10 ^ 6 := by norm_num
  have b1 := abs_le.mp (hpow 1 (by norm_num) (by norm_num))
  have b2 := abs_le.mp (hpow 2 (by norm_num) (by norm_num))
  have b3 := abs_le.mp (hpow 3 (by norm_num) (by norm_num))
  have b4 := abs_le.mp (hpow 4 (by norm_num) (by norm_num))
  have l1 : (1148698 / 10 ^ 6 : ℚ) ^ 1 ≤ pow 2 (1 / 5) ^ 1 := pow_le_pow_left₀ hflo hlo 1
  have u1 : pow 2 (1 / 5) ^ 1 ≤ (1148699 / 10 ^ 6 : ℚ) ^ 1 := pow_le_pow_left₀ h0 hhi 1
  have l2 : (1148698 / 10 ^ 6 : ℚ) ^ 2 ≤ pow 2 (1 / 5) ^ 2 := pow_le_pow_left₀ hflo hlo 2
  have u2 : pow 2 (1 / 5) ^ 2 ≤ (1148699 / 10 ^ 6 : ℚ) ^ 2 := pow_le_pow_left₀ h0 hhi 2
  have l3 : (1148698 / 10 ^ 6 : ℚ) ^ 3 ≤ pow 2 (1 / 5) ^ 3 := pow_le_pow_left₀ hflo hlo 3
  have u3 : pow 2 (1 / 5) ^ 3 ≤ (1148699 / 10 ^ 6 : ℚ) ^ 3 := pow_le_pow_left₀ h0 hhi 3
  have l4 : (1148698 / 10 ^ 6 : ℚ) ^ 4 ≤ pow 2 (1 / 5) ^ 4 := pow_le_pow_left₀ hflo hlo 4
  have u4 : pow 2 (1 / 5) ^ 4 ≤ (1148699 / 10 ^ 6 : ℚ) ^ 4 := pow_le_pow_left₀ h0 hhi 4
  norm_num at l1 u1 l2 u2 l3 u3 l4 u4 b1 b2 b3 b4
  have e1 : toFixed 2 (rawLevel pow geometricExample (0 + 1)) = 11487 / 100 := by
    rw [geometricExample_rawLevel, toFixed_eq_of_nonneg 2 11487] <;> norm_num <;> linarith
  have e2 : toFixed 2 (rawLevel pow geometricExample (1 + 1)) = 13195 / 100 := by
    rw [geometricExample_rawLevel, toFixed_eq_of_nonneg 2 13195] <;> norm_num <;> linarith
  have e3 : toFixed 2 (rawLevel pow geometricExample (2 + 1)) = 15157 / 100 := by
    rw [geometricExample_rawLevel, toFixed_eq_of_nonneg 2 15157] <;> norm_num <;> linarith
  have e4 : toFixed 2 (rawLevel pow geometricExample (3 + 1)) = 17411 / 100 := by
    rw [geometricExample_rawLevel, toFixed_eq_of_nonneg 2 17411] <;> norm_num <;> linarith
  simp only [List.range_succ, List.range_zero, List.nil_append, List.cons_append,
    List.map_cons, List.map_nil, e1, e2, e3, e4]

theorem geometricExample_eq_map (pow : ℚ → ℚ → ℚ) (hp : PowAccurate pow) :
    calculateGridLevels pow geometricExample
      = (List.range 4).map (fun k => toFixed 2 (rawLevel pow geometricExample (k + 1))) := by
  apply calculateGridLevels_eq_map pow geometricExample 4 (by norm_num [geometricExample])
    (by norm_num) (by norm_num [geometricExample])
  rw [geometricExample_map pow hp]
  simp [List.Sorted]
  norm_num

theorem geometricExample_levels (pow : ℚ → ℚ → ℚ) (hp : PowAccurate pow) :
    calculateGridLevels pow geometricExample
      = [11487 / 100, 13195 / 100, 15157 / 100, 17411 / 100] := by
  rw [geometricExample_eq_map pow hp, geometricExample_map pow hp]

theorem samplePow_accurate : PowAccurate samplePow := by
  have hf : samplePow 2 (1 / 5) = 1148698354997035 / 10 ^ 15 := by
    simp [samplePow]
  refine ⟨?_, ?_, ?_⟩
  · rw [hf]; norm_num
  · rw [hf, abs_le]; norm_num
  · intro i _ _
    rw [hf]
    have : samplePow (1148698354997035 / 10 ^ 15) (i : ℚ) = (1148698354997035 / 10 ^ 15) ^ i := by
      unfold samplePow
      rw [if_neg (by norm_num), floor_toNat_natCast]
    rw [this]
    simp

/-- C8 (counterexample): with `Math.pow` accurate to fifteen decimals the geometric grid of
four levels between 100 and 200 is `[114.87, 131.95, 151.57, 174.11]`, and the ratio of the
second level to the first differs from the ratio of the first level to `lowerPrice`. -/
theorem geometric_step_not_constant :
    calculateGridLevels samplePow geometricExample
      = [11487 / 100, 13195 / 100, 15157 / 100, 17411 / 100] ∧
    (calculateGridLevels samplePow geometricExample).getD 1 0
        / (calculateGridLevels samplePow geometricExample).getD 0 0
      ≠ (calculateGridLevels samplePow geometricExample).getD 0 0
        / geometricExample.lowerPrice := by
  rw [geometricExample_levels samplePow samplePow_accurate]
  refine ⟨rfl, ?_⟩
  simp only [List.getD_cons_zero, List.getD_cons_succ, geometricExample]
  norm_num

/-- C8 (amended): whenever `Math.pow` is accurate to `10^-6` at the calls made, the
geometric grid of four levels between 100 and 200 is `[114.87, 131.95, 151.57, 174.11]`,
the values `100 * f ^ i` rounded to two decimals; the ratio of each level to the previous
one agrees with the ratio of the first level to `lowerPrice` to within `0.0001`. -/
theorem geometric_step_approx (pow : ℚ → ℚ → ℚ) (hp : PowAccurate pow) :
    calculateGridLevels pow geometricExample
      = [11487 / 100, 13195 / 100, 15157 / 100, 17411 / 100] ∧
    (calculateGridLevels pow geometricExample
      = (List.range 4).map (fun k => toFixed 2 (100 * pow (pow 2 (1 / 5)) ((k + 1 : ℕ) : ℚ)))) ∧
    ∀ k : ℕ, k < 3 →
      |(calculateGridLevels pow geometricExample).getD (k + 1) 0
          / (calculateGridLevels pow geometricExample).getD k 0
        - (calculateGridLevels pow geometricExample).getD 0 0 / geometricExample.lowerPrice|
        < 1 / 10 ^ 4 := by
  have hl := geometricExample_levels pow hp
  refine ⟨hl, ?_, ?_⟩
  · rw [geometricExample_eq_map pow hp]
    apply List.map_congr_left
    intro k _
    rw [geometricExample_rawLevel]
  · rw [hl]
    intro k hk
    interval_cases k <;>
      simp only [List.getD_cons_zero, List.getD_cons_succ, geometricExample] <;>
      rw [abs_lt] <;> norm_num

/-- C8 (witness): the stand-in for `Math.pow` is accurate at the calls made. -/
theorem geometric_step_approx_witness :
    calculateGridLevels samplePow geometricExample
      = [11487 / 100, 13195 / 100, 15157 / 100, 17411 / 100] ∧
    (calculateGridLevels samplePow geometricExample
      = (List.range 4).map
          (fun k => toFixed 2 (100 * samplePow (samplePow 2 (1 / 5)) ((k + 1 : ℕ) : ℚ)))) ∧
    ∀ k : ℕ, k < 3 →
      |(calculateGridLevels samplePow geometricExample).getD (k + 1) 0
          / (calculateGridLevels samplePow geometricExample).getD k 0
        - (calculateGridLevels samplePow geometricExample).getD 0 0
          / geometricExample.lowerPrice|
        < 1 / 10 ^ 4 :=
  geometric_step_approx samplePow samplePow_accurate

/-! ## Frame lemmas for the ledger -/

theorem updateGridMonitoringData_orders (now : Nat) (sid : String) (db : Store) :
    (updateGridMonitoringData now sid db).orders = db.orders := rfl

theorem createNextGridOrder_strategies (now : Nat) (o : GridOrder) (s : GridStrategy)
    (db : Store) : (createNextGridOrder now o s db).strategies = db.strategies := by
  unfold createNextGridOrder
  simp only
  split_ifs <;> rfl

theorem createNextGridOrder_orders (now : Nat) (o : GridOrder) (s : GridStrategy) (db : Store) :
    ∃ l, (createNextGridOrder now o s db).orders = db.orders ++ l := by
  unfold createNextGridOrder
  simp only
  split_ifs
  · exact ⟨[], by simp⟩
  · exact ⟨_, rfl⟩

theorem fillGridOrder_orders (now i : Nat) (order : GridOrder) (p : ℚ) (s : GridStrategy)
    (db : Store) :
    ∃ l, (fillGridOrder now i order p s db).orders
      = db.orders.set i (filledOrderDoc now order p db.orders) ++ l := by
  unfold fillGridOrder
  simp only [updateGridMonitoringData_orders]
  exact createNextGridOrder_orders now _ s _

theorem processOrder_orders (now : Nat) (p : ℚ) (s : GridStrategy) (db : Store)
    (io : Nat × GridOrder) :
    ∃ l, (processOrder now p s db io).orders
      = db.orders.set io.1
          (if shouldFill io.2 p then filledOrderDoc now (touch now p io.2) p db.orders
           else touch now p io.2) ++ l := by
  unfold processOrder
  have hsf : shouldFill (touch now p io.2) p ↔ shouldFill io.2 p := Iff.rfl
  by_cases h : shouldFill io.2 p
  · simp only [h, hsf, if_true]
    exact fillGridOrder_orders now io.1 _ p s db
  · simp only [h, hsf, if_false]
    exact ⟨[], by simp [touch]⟩

theorem processOrder_length (now : Nat) (p : ℚ) (s : GridStrategy) (db : Store)
    (io : Nat × GridOrder) : db.orders.length ≤ (processOrder now p s db io).orders.length := by
  obtain ⟨l, hl⟩ := processOrder_orders now p s db io
  rw [hl]
  simp

theorem processOrder_get_ne (now : Nat) (p : ℚ) (s : GridStrategy) (db : Store)
    (io : Nat × GridOrder) (i : Nat) (hne : io.1 ≠ i) (hi : i < db.orders.length) :
    (processOrder now p s db io).orders[i]? = db.orders[i]? := by
  obtain ⟨l, hl⟩ := processOrder_orders now p s db io
  rw [hl, List.getElem?_append_left (by simpa using hi), List.getElem?_set_ne hne]

theorem processOrder_get_self (now : Nat) (p : ℚ) (s : GridStrategy) (db : Store)
    (io : Nat × GridOrder) (hi : io.1 < db.orders.length) :
    (processOrder now p s db io).orders[io.1]?
      = some (if shouldFill io.2 p then filledOrderDoc now (touch now p io.2) p db.orders
              else touch now p io.2) := by
  obtain ⟨l, hl⟩ := processOrder_orders now p s db io
  rw [hl, List.getElem?_append_left (by simpa using hi), List.getElem?_set_self hi]

theorem foldl_processOrder_length (now : Nat) (p : ℚ) (s : GridStrategy)
    (P : List (Nat × GridOrder)) (db : Store) :
    db.orders.length ≤ (P.foldl (processOrder now p s) db).orders.length := by
  induction P generalizing db with
  | nil => exact le_refl _
  | cons io P ih =>
    rw [List.foldl_cons]
    exact le_trans (processOrder_length now p s db io) (ih _)

theorem foldl_processOrder_get_not_mem (now : Nat) (p : ℚ) (s : GridStrategy)
    (P : List (Nat × GridOrder)) (db : Store) (i : Nat) (hi : i < db.orders.length)
    (hP : ∀ io ∈ P, io.1 ≠ i) :
    (P.foldl (processOrder now p s) db).orders[i]? = db.orders[i]? := by
  induction P generalizing db with
  | nil => rfl
  | cons io P ih =>
    rw [List.foldl_cons]
    have h1 := processOrder_get_ne now p s db io i (hP io (List.mem_cons_self _ _)) hi
    rw [ih _ (lt_of_lt_of_le hi (processOrder_length now p s db io))
      (fun x hx => hP x (List.mem_cons_of_mem _ hx)), h1]

/-- An order of the snapshot is written once, with the outcome of the fill test. -/
theorem foldl_processOrder_get_mem (now : Nat) (p : ℚ) (s : GridStrategy)
    (P : List (Nat × GridOrder)) (db : Store) (i : Nat) (o : GridOrder)
    (hi : i < db.orders.length) (hmem : (i, o) ∈ P)
    (hP : P.Pairwise (fun a b => a.1 ≠ b.1)) :
    ∃ ords, (P.foldl (processOrder now p s) db).orders[i]?
      = some (if shouldFill o p then filledOrderDoc now (touch now p o) p ords
              else touch now p o) := by
  induction P generalizing db with
  | nil => simp at hmem
  | cons io P ih =>
    rw [List.foldl_cons]
    rw [List.pairwise_cons] at hP
    rcases List.mem_cons.mp hmem with h | h
    · subst h
      refine ⟨db.orders, ?_⟩
      rw [foldl_processOrder_get_not_mem now p s P _ i
        (lt_of_lt_of_le hi (processOrder_length now p s db _))
        (fun x hx => (hP.1 x hx).symm)]
      exact processOrder_get_self now p s db (i, o) hi
    · exact ih _ (lt_of_lt_of_le hi (processOrder_length now p s db io)) h hP.2

theorem enum_pairwise_fst {α : Type} (l : List α) :
    (l.enum).Pairwise (fun a b => a.1 ≠ b.1) := by
  have h : ((l.enum).map Prod.fst).Pairwise (fun a b => a ≠ b) := by
    rw [List.enum_map_fst]
    exact (List.pairwise_lt_range l.length).imp (fun h => Nat.ne_of_lt h)
  exact List.pairwise_map.mp h

theorem findPending_pairwise (sid : String) (orders : List GridOrder) :
    (findPending sid orders).Pairwise (fun a b => a.1 ≠ b.1) :=
  (enum_pairwise_fst orders).sublist (List.filter_sublist _)

theorem mem_findPending (sid : String) (orders : List GridOrder) (io : Nat × GridOrder) :
    io ∈ findPending sid orders
      ↔ orders[io.1]? = some io.2 ∧ io.2.strategyId = sid ∧ io.2.status = OrderStatus.PENDING := by
  unfold findPending
  rw [List.mem_filter, List.mem_enum_iff_getElem?]
  simp

theorem processStrategy_eq (now : Nat) (p : ℚ) (db : Store) (is : Nat × GridStrategy) :
    processStrategy now p db is
      = (findPending is.2.strategyId db.orders).foldl (processOrder now p (withPrice now p is.2))
          { db with strategies := modifyAt (withPrice now p) is.1 db.strategies } := rfl

theorem processStrategy_length (now : Nat) (p : ℚ) (db : Store) (is : Nat × GridStrategy) :
    db.orders.length ≤ (processStrategy now p db is).orders.length := by
  rw [processStrategy_eq]
  exact foldl_processOrder_length now p _ _
    { db with strategies := modifyAt (withPrice now p) is.1 db.strategies }

/-- What one iteration of the strategy loop does to the order at position `i`: an order
that is PENDING and belongs to the strategy is filled or touched according to the fill
test, and any other order is left as it is. -/
theorem processStrategy_get (now : Nat) (p : ℚ) (db : Store) (is : Nat × GridStrategy)
    (i : Nat) (x : GridOrder) (hx : db.orders[i]? = some x) :
    (x.strategyId = is.2.strategyId ∧ x.status = OrderStatus.PENDING →
      ∃ ords, (processStrategy now p db is).orders[i]?
        = some (if shouldFill x p then filledOrderDoc now (touch now p x) p ords
                else touch now p x)) ∧
    (¬ (x.strategyId = is.2.strategyId ∧ x.status = OrderStatus.PENDING) →
      (processStrategy now p db is).orders[i]? = some x) := by
  have hi : i < db.orders.length := by
    by_contra hc
    rw [List.getElem?_eq_none (not_lt.mp hc)] at hx
    exact Option.noConfusion hx
  rw [processStrategy_eq]
  have hi1 : i < ({ db with strategies := modifyAt (withPrice now p) is.1 db.strategies } :
      Store).orders.length := hi
  constructor
  · intro h
    apply foldl_processOrder_get_mem now p _ _
      { db with strategies := modifyAt (withPrice now p) is.1 db.strategies } i x hi1
    · exact (mem_findPending _ _ (i, x)).mpr ⟨hx, h.1, h.2⟩
    · exact findPending_pairwise _ _
  · intro h
    rw [foldl_processOrder_get_not_mem now p _ _
      { db with strategies := modifyAt (withPrice now p) is.1 db.strategies } i hi1]
    · exact hx
    · intro io hio heq
      obtain ⟨h1, h2, h3⟩ := (mem_findPending _ _ io).mp hio
      rw [heq] at h1
      have hxe : x = io.2 := by
        have h4 : some x = some io.2 := hx.symm.trans h1
        exact Option.some.inj h4
      exact h ⟨by rw [hxe]; exact h2, by rw [hxe]; exact h3⟩

theorem filledOrderDoc_fields (now : Nat) (o : GridOrder) (p : ℚ) (ords : List GridOrder) :
    (filledOrderDoc now o p ords).status = OrderStatus.FILLED ∧
    (filledOrderDoc now o p ords).fillPrice = some p ∧
    (filledOrderDoc now o p ords).fillTime = some now ∧
    (filledOrderDoc now o p ords).fillQuantity = o.quantity ∧
    (filledOrderDoc now o p ords).type = o.type ∧
    (filledOrderDoc now o p ords).price = o.price ∧
    (filledOrderDoc now o p ords).quantity = o.quantity ∧
    (filledOrderDoc now o p ords).gridLevel = o.gridLevel ∧
    (filledOrderDoc now o p ords).symbol = o.symbol ∧
    (filledOrderDoc now o p ords).strategyId = o.strategyId := by
  unfold filledOrderDoc
  simp only
  split
  · exact ⟨rfl, rfl, rfl, rfl, rfl, rfl, rfl, rfl, rfl, rfl⟩
  · split <;> exact ⟨rfl, rfl, rfl, rfl, rfl, rfl, rfl, rfl, rfl, rfl⟩

/-! ## One tick -/

theorem shouldFill_congr {o y : GridOrder} (ht : y.type = o.type) (hp : y.price = o.price)
    (p : ℚ) : shouldFill y p ↔ shouldFill o p := by
  unfold shouldFill
  rw [ht, hp]

theorem touch_fields (now : Nat) (p : ℚ) (o : GridOrder) :
    (touch now p o).type = o.type ∧ (touch now p o).price = o.price ∧
    (touch now p o).strategyId = o.strategyId ∧ (touch now p o).status = o.status ∧
    (touch now p o).quantity = o.quantity ∧ (touch now p o).pnl = o.pnl :=
  ⟨rfl, rfl, rfl, rfl, rfl, rfl⟩

/-- One iteration of the strategy loop keeps a settled order settled, and settles a
PENDING order when the strategy is its own. -/
theorem processStrategy_settles (now : Nat) (p : ℚ) (db : Store) (is : Nat × GridStrategy)
    (i : Nat) (o y : GridOrder) (hy : db.orders[i]? = some y)
    (ht : y.type = o.type) (hpr : y.price = o.price) (hsid : y.strategyId = o.strategyId)
    (hst : y.status = OrderStatus.PENDING ∨ Settled o p y) :
    ∃ y1, (processStrategy now p db is).orders[i]? = some y1 ∧
      y1.type = o.type ∧ y1.price = o.price ∧ y1.strategyId = o.strategyId ∧
      (y1.status = OrderStatus.PENDING ∨ Settled o p y1) ∧
      (Settled o p y → Settled o p y1) ∧
      (is.2.strategyId = o.strategyId → Settled o p y1) := by
  obtain ⟨hA, hB⟩ := processStrategy_get now p db is i y hy
  have hsf : shouldFill y p ↔ shouldFill o p := shouldFill_congr ht hpr p
  by_cases hc : y.strategyId = is.2.strategyId ∧ y.status = OrderStatus.PENDING
  · obtain ⟨ords, h1⟩ := hA hc
    by_cases hf : shouldFill y p
    · rw [if_pos hf] at h1
      have hd := filledOrderDoc_fields now (touch now p y) p ords
      have hS : Settled o p (filledOrderDoc now (touch now p y) p ords) :=
        ⟨hd.2.2.2.2.1.trans ht, hd.2.2.2.2.2.1.trans hpr, hd.2.2.2.2.2.2.2.2.2.trans hsid,
          Or.inl ⟨hsf.mp hf, hd.1⟩⟩
      exact ⟨_, h1, hS.1, hS.2.1, hS.2.2.1, Or.inr hS, fun _ => hS, fun _ => hS⟩
    · rw [if_neg hf] at h1
      have hS : Settled o p (touch now p y) :=
        ⟨ht, hpr, hsid, Or.inr ⟨fun h => hf (hsf.mpr h), hc.2⟩⟩
      exact ⟨_, h1, ht, hpr, hsid, Or.inr hS, fun _ => hS, fun _ => hS⟩
  · have h1 := hB hc
    refine ⟨y, h1, ht, hpr, hsid, hst, fun h => h, ?_⟩
    intro hid
    rcases hst with h | h
    · exact absurd ⟨hsid.trans hid.symm, h⟩ hc
    · exact h

theorem foldl_processStrategy_settles (now : Nat) (p : ℚ) (i : Nat) (o : GridOrder)
    (AS : List (Nat × GridStrategy)) (db : Store) (y : GridOrder)
    (hy : db.orders[i]? = some y)
    (ht : y.type = o.type) (hpr : y.price = o.price) (hsid : y.strategyId = o.strategyId)
    (hst : y.status = OrderStatus.PENDING ∨ Settled o p y) :
    ∃ y1, (AS.foldl (processStrategy now p) db).orders[i]? = some y1 ∧
      (Settled o p y → Settled o p y1) ∧
      ((∃ is ∈ AS, is.2.strategyId = o.strategyId) → Settled o p y1) := by
  induction AS generalizing db y with
  | nil =>
    refine ⟨y, hy, fun h => h, ?_⟩
    rintro ⟨is, his, _⟩
    simp at his
  | cons a AS ih =>
    rw [List.foldl_cons]
    obtain ⟨y1, h1, ht1, hp1, hs1, hst1, hk1, hm1⟩ :=
      processStrategy_settles now p db a i o y hy ht hpr hsid hst
    obtain ⟨y2, h2, hk2, hm2⟩ := ih (processStrategy now p db a) y1 h1 ht1 hp1 hs1 hst1
    refine ⟨y2, h2, fun h => hk2 (hk1 h), ?_⟩
    rintro ⟨is, his, hid⟩
    rcases List.mem_cons.mp his with h | h
    · subst h
      exact hk2 (hm1 hid)
    · exact hm2 ⟨is, h, hid⟩

/-- An order that is not PENDING is left as it is by a tick. -/
theorem foldl_processStrategy_keep (now : Nat) (p : ℚ) (i : Nat)
    (AS : List (Nat × GridStrategy)) (db : Store) (x : GridOrder)
    (hx : db.orders[i]? = some x) (hnp : x.status ≠ OrderStatus.PENDING) :
    (AS.foldl (processStrategy now p) db).orders[i]? = some x := by
  induction AS generalizing db with
  | nil => exact hx
  | cons a AS ih =>
    rw [List.foldl_cons]
    exact ih _ ((processStrategy_get now p db a i x hx).2 (fun h => hnp h.2))

theorem checkOrderFills_keep (now : Nat) (symbol : String) (p : ℚ) (db : Store) (i : Nat)
    (x : GridOrder) (hx : db.orders[i]? = some x) (hnp : x.status ≠ OrderStatus.PENDING) :
    (checkOrderFills now symbol p db).orders[i]? = some x :=
  foldl_processStrategy_keep now p i _ db x hx hnp

theorem checkOrderFills_settles (now : Nat) (symbol : String) (p : ℚ) (db : Store) (i : Nat)
    (o : GridOrder) (hi : db.orders[i]? = some o) (hp : o.status = OrderStatus.PENDING)
    (hs : ∃ s ∈ db.strategies, s.strategyId = o.strategyId ∧ s.symbol = symbol ∧
      s.status = StrategyStatus.ACTIVE) :
    ∃ y, (checkOrderFills now symbol p db).orders[i]? = some y ∧ Settled o p y := by
  obtain ⟨y, h1, _, h2⟩ := foldl_processStrategy_settles now p i o
    (db.strategies.enum.filter
      (fun is => decide (is.2.symbol = symbol ∧ is.2.status = StrategyStatus.ACTIVE)))
    db o hi rfl rfl rfl (Or.inl hp)
  refine ⟨y, h1, h2 ?_⟩
  obtain ⟨s, hsm, hsid, hsym, hact⟩ := hs
  obtain ⟨k, hk⟩ := List.mem_iff_getElem?.mp hsm
  refine ⟨(k, s), ?_, hsid⟩
  rw [List.mem_filter, List.mem_enum_iff_getElem?]
  exact ⟨hk, by simp [hsym, hact]⟩

/-- C1: a PENDING order `o` of an ACTIVE strategy on the tick's symbol is FILLED by
`checkOrderFills(symbol, p)` exactly when it is a BUY and `p ≤ price + 0.001 * price`, or a
SELL and `p ≥ price - 0.001 * price` (it stays PENDING otherwise); so a BUY at 100 fills at
every `p ≤ 100.1` and does not fill at `p = 100.11`. -/
theorem checkOrderFills_fills_iff (now : Nat) (symbol : String) (p : ℚ) (db : Store) (i : Nat)
    (o : GridOrder) (hi : db.orders[i]? = some o) (hp : o.status = OrderStatus.PENDING)
    (hs : ∃ s ∈ db.strategies, s.strategyId = o.strategyId ∧ s.symbol = symbol ∧
      s.status = StrategyStatus.ACTIVE) :
    ∃ y, (checkOrderFills now symbol p db).orders[i]? = some y ∧
      (y.status = OrderStatus.FILLED ↔
        (o.type = OrderType.BUY ∧ p ≤ o.price + 1 / 1000 * o.price) ∨
        (o.type = OrderType.SELL ∧ p ≥ o.price - 1 / 1000 * o.price)) ∧
      (y.status ≠ OrderStatus.FILLED → y.status = OrderStatus.PENDING) ∧
      (o.type = OrderType.BUY → o.price = 100 →
        (p ≤ 1001 / 10 → y.status = OrderStatus.FILLED) ∧
        (p = 10011 / 100 → y.status ≠ OrderStatus.FILLED)) := by
  obtain ⟨y, h1, _, _, _, h2⟩ := checkOrderFills_settles now symbol p db i o hi hp hs
  have hiff : y.status = OrderStatus.FILLED ↔ shouldFill o p := by
    rcases h2 with ⟨hf, hst⟩ | ⟨hf, hst⟩
    · exact ⟨fun _ => hf, fun _ => hst⟩
    · constructor
      · intro h; rw [hst] at h; exact OrderStatus.noConfusion h
      · intro h; exact absurd h hf
  have hsf : shouldFill o p ↔
      (o.type = OrderType.BUY ∧ p ≤ o.price + 1 / 1000 * o.price) ∨
      (o.type = OrderType.SELL ∧ p ≥ o.price - 1 / 1000 * o.price) := by
    unfold shouldFill
    rw [mul_comm o.price (1 / 1000)]
  refine ⟨y, h1, hiff.trans hsf, ?_, ?_⟩
  · intro hnf
    rcases h2 with ⟨_, hst⟩ | ⟨_, hst⟩
    · exact absurd hst hnf
    · exact hst
  · intro hb h100
    constructor
    · intro hle
      apply (hiff.trans hsf).mpr
      left
      refine ⟨hb, ?_⟩
      rw [h100]; norm_num; linarith
    · intro heq hfilled
      rcases (hiff.trans hsf).mp hfilled with ⟨_, h⟩ | ⟨h, _⟩
      · rw [h100, heq] at h; norm_num at h
      · rw [hb] at h; exact OrderType.noConfusion h

/-- C1 (witness): the BUY order at 100 of the sample store, at the tick price 100.1. -/
theorem checkOrderFills_fills_iff_witness :
    ∃ y, (checkOrderFills 1 "SBIN" (1001 / 10) sampleStore).orders[0]? = some y ∧
      y.status = OrderStatus.FILLED := by
  have hi : sampleStore.orders[0]? = some
      { strategyId := "GRID_1", symbol := "SBIN", type := OrderType.BUY, price := 100,
        quantity := 5, gridLevel := 1 } := rfl
  obtain ⟨y, h1, _, _, h2⟩ := checkOrderFills_fills_iff 1 "SBIN" (1001 / 10) sampleStore 0 _ hi rfl
    ⟨_, List.mem_singleton.mpr rfl, rfl, rfl, rfl⟩
  exact ⟨y, h1, (h2 rfl rfl).1 (le_refl _)⟩

/-- C2: once a tick has moved the order at position `i` to FILLED, a second tick leaves that
document exactly as it is (status, `fillPrice`, `fillQuantity`, `pnl` and every other
field), and no strategy selects it as a PENDING order again. -/
theorem checkOrderFills_idempotent (now1 now2 : Nat) (symbol : String) (p : ℚ) (db : Store)
    (i : Nat) (o o1 : GridOrder) (hi : db.orders[i]? = some o)
    (hp : o.status = OrderStatus.PENDING)
    (h1 : (checkOrderFills now1 symbol p db).orders[i]? = some o1)
    (hf : o1.status = OrderStatus.FILLED) :
    (checkOrderFills now2 symbol p (checkOrderFills now1 symbol p db)).orders[i]? = some o1 ∧
    (∀ sid x, (i, x) ∉ findPending sid (checkOrderFills now1 symbol p db).orders) := by
  constructor
  · apply checkOrderFills_keep now2 symbol p _ i o1 h1
    rw [hf]; exact fun h => OrderStatus.noConfusion h
  · intro sid x hmem
    obtain ⟨h2, _, h3⟩ := (mem_findPending sid _ (i, x)).mp hmem
    have hx : o1 = x := Option.some.inj (h1.symm.trans h2)
    rw [← hx, hf] at h3
    exact OrderStatus.noConfusion h3

/-- C2 (witness): the BUY order at 100 of the sample store is filled by a tick at 100 and
left alone by the next one. -/
theorem checkOrderFills_idempotent_witness :
    ∃ o1, (checkOrderFills 1 "SBIN" 100 sampleStore).orders[0]? = some o1 ∧
      o1.status = OrderStatus.FILLED ∧
      (checkOrderFills 2 "SBIN" 100 (checkOrderFills 1 "SBIN" 100 sampleStore)).orders[0]?
        = some o1 := by
  have hi : sampleStore.orders[0]? = some
      { strategyId := "GRID_1", symbol := "SBIN", type := OrderType.BUY, price := 100,
        quantity := 5, gridLevel := 1 } := rfl
  obtain ⟨o1, h1, _, _, _, h2⟩ := checkOrderFills_settles 1 "SBIN" 100 sampleStore 0 _ hi rfl
    ⟨_, List.mem_singleton.mpr rfl, rfl, rfl, rfl⟩
  have hf : o1.status = OrderStatus.FILLED := by
    rcases h2 with ⟨_, h⟩ | ⟨h, _⟩
    · exact h
    · exact absurd (Or.inl ⟨rfl, by norm_num⟩) h
  exact ⟨o1, h1, hf, (checkOrderFills_idempotent 1 2 "SBIN" 100 sampleStore 0 _ o1 hi rfl h1 hf).1⟩

/-! ## Filling an order -/

theorem filledBuysLatestFirst_nil (sid : String) (orders : List GridOrder)
    (h : ∀ b ∈ orders, ¬ isFilledBuy sid b) : filledBuysLatestFirst sid orders = [] := by
  unfold filledBuysLatestFirst
  have : orders.filter (fun o => decide (isFilledBuy sid o)) = [] := by
    rw [List.filter_eq_nil_iff]
    intro b hb
    simpa using h b hb
  rw [this]
  rfl

/-- The head of the sorted query is a FILLED BUY order of the strategy, and no FILLED BUY
order of the strategy has a later `fillTime`. -/
theorem filledBuysLatestFirst_head (sid : String) (orders : List GridOrder) (b : GridOrder)
    (rest : List GridOrder) (h : filledBuysLatestFirst sid orders = b :: rest) :
    b ∈ orders ∧ isFilledBuy sid b ∧
    ∀ c ∈ orders, isFilledBuy sid c → fillTimeKey c ≤ fillTimeKey b := by
  unfold filledBuysLatestFirst at h
  haveI : IsTotal GridOrder (fun a b => fillTimeKey b ≤ fillTimeKey a) :=
    ⟨fun a b => le_total (fillTimeKey b) (fillTimeKey a)⟩
  haveI : IsTrans GridOrder (fun a b => fillTimeKey b ≤ fillTimeKey a) :=
    ⟨fun a b c hab hbc => le_trans hbc hab⟩
  have hperm := List.perm_insertionSort (fun a b => fillTimeKey b ≤ fillTimeKey a)
    (orders.filter (fun o => decide (isFilledBuy sid o)))
  have hsorted := List.sorted_insertionSort (fun a b => fillTimeKey b ≤ fillTimeKey a)
    (orders.filter (fun o => decide (isFilledBuy sid o)))
  rw [h] at hperm hsorted
  have hmem : ∀ c, c ∈ b :: rest ↔ c ∈ orders ∧ isFilledBuy sid c := by
    intro c
    rw [hperm.mem_iff, List.mem_filter]
    simp
  have hb := (hmem b).mp (List.mem_cons_self _ _)
  refine ⟨hb.1, hb.2, ?_⟩
  intro c hc hfc
  rcases List.mem_cons.mp ((hmem c).mpr ⟨hc, hfc⟩) with h1 | h1
  · rw [h1]
  · exact List.rel_of_sorted_cons hsorted c h1

theorem fillGridOrder_get (now i : Nat) (order : GridOrder) (p : ℚ) (s : GridStrategy)
    (db : Store) (hi : i < db.orders.length) :
    (fillGridOrder now i order p s db).orders[i]?
      = some (filledOrderDoc now order p db.orders) := by
  obtain ⟨l, hl⟩ := fillGridOrder_orders now i order p s db
  rw [hl, List.getElem?_append_left (by simpa using hi), List.getElem?_set_self hi]

/-- C3: `fillGridOrder(order, fillPrice)` on an order that was never filled (its `pnl` is
still the schema default 0) saves it with `status = FILLED`, `fillPrice` and
`fillQuantity = quantity`; a BUY records `pnl = 0`; a SELL records
`(fillPrice - b.fillPrice) * quantity` for a FILLED BUY order `b` of the strategy that no
other FILLED BUY order of the strategy follows in `fillTime`, and `pnl = 0` when the strategy
has no FILLED BUY order. A SELL fill at 110 after a BUY fill at 100, quantity 5, records 50. -/
theorem fillGridOrder_record (now i : Nat) (order : GridOrder) (fillPrice : ℚ)
    (strategy : GridStrategy) (db : Store) (hi : i < db.orders.length)
    (hpnl : order.pnl = 0) :
    (∃ y, (fillGridOrder now i order fillPrice strategy db).orders[i]? = some y ∧
      y.status = OrderStatus.FILLED ∧ y.fillPrice = some fillPrice ∧
      y.fillQuantity = order.quantity ∧
      (order.type = OrderType.BUY → y.pnl = 0) ∧
      (order.type = OrderType.SELL →
        (∀ b ∈ db.orders, ¬ isFilledBuy order.strategyId b) → y.pnl = 0) ∧
      (order.type = OrderType.SELL →
        (∃ b ∈ db.orders, isFilledBuy order.strategyId b) →
        ∃ b ∈ db.orders, isFilledBuy order.strategyId b ∧
          (∀ c ∈ db.orders, isFilledBuy order.strategyId c → fillTimeKey c ≤ fillTimeKey b) ∧
          y.pnl = (fillPrice - b.fillPrice.getD 0) * order.quantity)) ∧
    ((fillGridOrder 2 1 pnlSell 110 pnlStrategy pnlStore).orders[1]?).map (fun y => y.pnl)
      = some 50 := by
  refine ⟨⟨filledOrderDoc now order fillPrice db.orders,
    fillGridOrder_get now i order fillPrice strategy db hi, ?_⟩, by decide!⟩
  have hd := filledOrderDoc_fields now order fillPrice db.orders
  refine ⟨hd.1, hd.2.1, hd.2.2.2.1, ?_, ?_, ?_⟩
  · intro hb
    unfold filledOrderDoc
    simp only [hb]
  · intro hsell hnone
    unfold filledOrderDoc
    simp only [hsell, filledBuysLatestFirst_nil order.strategyId db.orders hnone]
    exact hpnl
  · intro hsell hex
    cases hq : filledBuysLatestFirst order.strategyId db.orders with
    | nil =>
      exfalso
      obtain ⟨b, hb, hfb⟩ := hex
      unfold filledBuysLatestFirst at hq
      have hperm := List.perm_insertionSort (fun a b => fillTimeKey b ≤ fillTimeKey a)
        (db.orders.filter (fun o => decide (isFilledBuy order.strategyId o)))
      rw [hq] at hperm
      have hmem : b ∈ db.orders.filter (fun o => decide (isFilledBuy order.strategyId o)) := by
        rw [List.mem_filter]
        exact ⟨hb, by simpa using hfb⟩
      rw [← hperm.mem_iff] at hmem
      simp at hmem
    | cons b rest =>
      obtain ⟨h1, h2, h3⟩ := filledBuysLatestFirst_head order.strategyId db.orders b rest hq
      refine ⟨b, h1, h2, h3, ?_⟩
      unfold filledOrderDoc
      simp only [hsell, hq]

/-- C3 (witness): the SELL order at position 1 of the sample ledger, filled at 110 after
the BUY fill at 100. -/
theorem fillGridOrder_record_witness :
    ∃ y, (fillGridOrder 2 1 pnlSell 110 pnlStrategy pnlStore).orders[1]? = some y ∧
      y.status = OrderStatus.FILLED ∧ y.fillPrice = some 110 ∧
      y.fillQuantity = pnlSell.quantity ∧ y.pnl = 50 := by
  obtain ⟨⟨y, h1, h2, h3, h4, _⟩, h5⟩ :=
    fillGridOrder_record 2 1 pnlSell 110 pnlStrategy pnlStore (by decide) rfl
  refine ⟨y, h1, h2, h3, h4, ?_⟩
  rw [h1] at h5
  exact Option.some.inj h5

/-! ## Monitoring -/

theorem orElse_zero (x : ℚ) : orElse x 0 = x := by
  unfold orElse
  split_ifs with h
  · exact h.symm
  · rfl

theorem foldl_pnl (l : List GridOrder) (a : ℚ) :
    l.foldl (fun sum order => sum + orElse order.pnl 0) a = a + (l.map (fun o => o.pnl)).sum := by
  induction l generalizing a with
  | nil => simp
  | cons o l ih =>
    rw [List.foldl_cons, ih, orElse_zero, List.map_cons, List.sum_cons]
    ring

theorem sumPnl_eq (l : List GridOrder) : sumPnl l = (l.map (fun o => o.pnl)).sum := by
  unfold sumPnl
  rw [foldl_pnl, zero_add]

theorem find?_updateFirst {α : Type} (p : α → Bool) (f : α → α) (hf : ∀ a, p a = true → p (f a) = true)
    (l : List α) (a : α) (h : l.find? p = some a) :
    (updateFirst p f l).find? p = some (f a) := by
  induction l with
  | nil => simp at h
  | cons b l ih =>
    unfold updateFirst
    by_cases hb : p b = true
    · rw [if_pos hb]
      rw [List.find?_cons_of_pos _ hb] at h
      rw [List.find?_cons_of_pos _ (hf b hb)]
      rw [Option.some.inj h]
    · rw [if_neg hb]
      rw [List.find?_cons_of_neg _ hb] at h
      rw [List.find?_cons_of_neg _ hb]
      exact ih h

/-- C4 (counterexample): after seeding and two ticks (102.5, then 105.001) the ledger holds
two SELL fills with `pnl = 2.501` each, so the `pnl` fields sum to 5.002, while the
`monitoring.totalPnL` stored by `updateGridMonitoringData` is 5. -/
theorem totalPnL_drift :
    driftRun.strategies.map (fun s => s.monitoring.totalPnL) = [5] ∧
    ((driftRun.orders.filter (fun o => decide (o.strategyId = "GRID_1"))).map
      (fun o => o.pnl)).sum = 5002 / 1000 := by
  decide!

/-- C4 (amended): the `monitoring.totalPnL` that `updateGridMonitoringData` stores for a
strategy is the sum of the `pnl` fields of all orders of that strategy rounded to two
decimals, so it differs from the exact sum by at most 0.005. -/
theorem updateGridMonitoringData_totalPnL (now : Nat) (sid : String) (db : Store)
    (s : GridStrategy)
    (hs : db.strategies.find? (fun s => decide (s.strategyId = sid)) = some s) :
    ∃ s1, (updateGridMonitoringData now sid db).strategies.find?
        (fun s => decide (s.strategyId = sid)) = some s1 ∧
      s1.monitoring.totalPnL
        = toFixed 2 (((db.orders.filter (fun o => decide (o.strategyId = sid))).map
            (fun o => o.pnl)).sum) ∧
      |s1.monitoring.totalPnL
        - ((db.orders.filter (fun o => decide (o.strategyId = sid))).map
            (fun o => o.pnl)).sum| ≤ 1 / 200 := by
  have h1 := find?_updateFirst (fun s : GridStrategy => decide (s.strategyId = sid))
    (fun s => { s with monitoring := (recomputeMonitoring now
      (db.orders.filter (fun o => decide (o.strategyId = sid))) s.monitoring) })
    (fun a ha => ha) db.strategies s hs
  refine ⟨_, h1, ?_, ?_⟩
  · simp only [recomputeMonitoring, sumPnl_eq]
  · simp only [recomputeMonitoring, sumPnl_eq]
    rw [abs_le]
    constructor
    · linarith [toFixed_two_ge (((db.orders.filter (fun o => decide (o.strategyId = sid))).map
        (fun o => o.pnl)).sum)]
    · linarith [toFixed_two_le (((db.orders.filter (fun o => decide (o.strategyId = sid))).map
        (fun o => o.pnl)).sum)]

/-- C4 (witness): the strategy of the sample run. -/
theorem updateGridMonitoringData_totalPnL_witness :
    ∃ s1, (updateGridMonitoringData 4 "GRID_1" driftRun).strategies.find?
        (fun s => decide (s.strategyId = "GRID_1")) = some s1 ∧
      s1.monitoring.totalPnL
        = toFixed 2 (((driftRun.orders.filter (fun o => decide (o.strategyId = "GRID_1"))).map
            (fun o => o.pnl)).sum) ∧
      |s1.monitoring.totalPnL
        - ((driftRun.orders.filter (fun o => decide (o.strategyId = "GRID_1"))).map
            (fun o => o.pnl)).sum| ≤ 1 / 200 :=
  updateGridMonitoringData_totalPnL 4 "GRID_1" driftRun
    (driftRun.strategies.headD seedStrategy) (by decide!)

/-! ## Order generation -/

/-- C9: with `step = (upperPrice - lowerPrice) / (levels + 1)`, after a BUY fill at `f`
`createNextGridOrder` appends exactly one PENDING SELL order at `f + step`, and after a SELL
fill exactly one PENDING BUY order at `f - step` (price rounded to two decimals, same
`strategyId`, `symbol` and `gridLevel`); when the computed price is above `upperPrice` or
below `lowerPrice` the store is returned unchanged. -/
theorem createNextGridOrder_spec (now : Nat) (filledOrder : GridOrder) (strategy : GridStrategy)
    (db : Store) (f : ℚ) (hf : filledOrder.fillPrice = some f)
    (hlev : strategy.config.levels + 1 ≠ 0) :
    (filledOrder.type = OrderType.BUY →
      strategy.config.lowerPrice ≤ f + (strategy.config.upperPrice - strategy.config.lowerPrice)
        / (strategy.config.levels + 1) →
      f + (strategy.config.upperPrice - strategy.config.lowerPrice)
        / (strategy.config.levels + 1) ≤ strategy.config.upperPrice →
      createNextGridOrder now filledOrder strategy db
        = { db with orders := db.orders ++
            [{ strategyId := filledOrder.strategyId, symbol := filledOrder.symbol,
               type := OrderType.SELL,
               price := toFixed 2 (f + (strategy.config.upperPrice - strategy.config.lowerPrice)
                 / (strategy.config.levels + 1)),
               quantity := calculateQuantityPerLevel strategy.config f,
               gridLevel := filledOrder.gridLevel, status := OrderStatus.PENDING,
               timestamp := now, lastCheckedTime := now }] }) ∧
    (filledOrder.type = OrderType.SELL →
      strategy.config.lowerPrice ≤ f - (strategy.config.upperPrice - strategy.config.lowerPrice)
        / (strategy.config.levels + 1) →
      f - (strategy.config.upperPrice - strategy.config.lowerPrice)
        / (strategy.config.levels + 1) ≤ strategy.config.upperPrice →
      createNextGridOrder now filledOrder strategy db
        = { db with orders := db.orders ++
            [{ strategyId := filledOrder.strategyId, symbol := filledOrder.symbol,
               type := OrderType.BUY,
               price := toFixed 2 (f - (strategy.config.upperPrice - strategy.config.lowerPrice)
                 / (strategy.config.levels + 1)),
               quantity := calculateQuantityPerLevel strategy.config f,
               gridLevel := filledOrder.gridLevel, status := OrderStatus.PENDING,
               timestamp := now, lastCheckedTime := now }] }) ∧
    (filledOrder.type = OrderType.BUY →
      (f + (strategy.config.upperPrice - strategy.config.lowerPrice)
          / (strategy.config.levels + 1) > strategy.config.upperPrice ∨
       f + (strategy.config.upperPrice - strategy.config.lowerPrice)
          / (strategy.config.levels + 1) < strategy.config.lowerPrice) →
      createNextGridOrder now filledOrder strategy db = db) ∧
    (filledOrder.type = OrderType.SELL →
      (f - (strategy.config.upperPrice - strategy.config.lowerPrice)
          / (strategy.config.levels + 1) > strategy.config.upperPrice ∨
       f - (strategy.config.upperPrice - strategy.config.lowerPrice)
          / (strategy.config.levels + 1) < strategy.config.lowerPrice) →
      createNextGridOrder now filledOrder strategy db = db) := by
  refine ⟨?_, ?_, ?_, ?_⟩
  · intro ht h1 h2
    unfold createNextGridOrder
    simp only [ht, hf, Option.getD_some]
    rw [if_neg (by push_neg; exact ⟨h2, h1⟩)]
  · intro ht h1 h2
    unfold createNextGridOrder
    simp only [ht, hf, Option.getD_some]
    rw [if_neg (by push_neg; exact ⟨h2, h1⟩)]
  · intro ht h
    unfold createNextGridOrder
    simp only [ht, hf, Option.getD_some]
    rw [if_pos h]
  · intro ht h
    unfold createNextGridOrder
    simp only [ht, hf, Option.getD_some]
    rw [if_pos h]

/-- C9 (witness): after the BUY fill at 102.5 in the grid of step 2.5 between 100 and 110,
one PENDING SELL order at 105 is appended. -/
theorem createNextGridOrder_spec_witness :
    createNextGridOrder 2 filledBuy seedStrategy sampleStore
      = { sampleStore with orders := sampleStore.orders ++
          [{ strategyId := filledBuy.strategyId, symbol := filledBuy.symbol,
             type := OrderType.SELL,
             price := toFixed 2 (205 / 2 +
               (seedStrategy.config.upperPrice - seedStrategy.config.lowerPrice)
                 / (seedStrategy.config.levels + 1)),
             quantity := calculateQuantityPerLevel seedStrategy.config (205 / 2),
             gridLevel := filledBuy.gridLevel, status := OrderStatus.PENDING,
             timestamp := 2, lastCheckedTime := 2 }] } :=
  (createNextGridOrder_spec 2 filledBuy seedStrategy sampleStore (205 / 2) rfl
    (by decide!)).1 rfl (by decide!) (by decide!)

theorem seedOrder_fields (now : Nat) (strategy : GridStrategy) (qty ref : ℚ) (ip : Nat × ℚ)
    (o : GridOrder) (h : seedOrder now strategy qty ref ip = some o) :
    o.strategyId = strategy.strategyId ∧ o.gridLevel = ip.1 + 1 ∧ o.price = ip.2 ∧
    o.quantity = qty ∧ o.status = OrderStatus.PENDING ∧ o.pnl = 0 := by
  unfold seedOrder at h
  split_ifs at h
  · cases h; exact ⟨rfl, rfl, rfl, rfl, rfl, rfl⟩
  · cases h; exact ⟨rfl, rfl, rfl, rfl, rfl, rfl⟩

/-- Among the orders built for the levels numbered from `n`, none has a grid level at or
below `n`. -/
theorem seeded_filter_lt (now : Nat) (strategy : GridStrategy) (qty ref : ℚ) (l : List ℚ)
    (n i : Nat) (h : i < n) :
    ((l.enumFrom n).filterMap (seedOrder now strategy qty ref)).filter
      (fun o => decide (o.strategyId = strategy.strategyId ∧ o.gridLevel = i + 1)) = [] := by
  rw [List.filter_eq_nil_iff]
  intro o ho
  obtain ⟨ip, hip, hso⟩ := List.mem_filterMap.mp ho
  have hle : n ≤ ip.1 := by
    have := List.mk_mem_enumFrom_iff_le_and_getElem?_sub.mp (show (ip.1, ip.2) ∈ l.enumFrom n from hip)
    exact this.1
  have hg := (seedOrder_fields now strategy qty ref ip o hso).2.1
  simp only [decide_eq_true_eq, not_and]
  intro _ hgl
  omega

/-- Among the orders built for the levels numbered from `n`, the ones with grid level
`i + 1` are the order built for the level at index `i`, if there is one. -/
theorem seeded_filter (now : Nat) (strategy : GridStrategy) (qty ref : ℚ) (l : List ℚ)
    (n i : Nat) (h : n ≤ i) :
    ((l.enumFrom n).filterMap (seedOrder now strategy qty ref)).filter
      (fun o => decide (o.strategyId = strategy.strategyId ∧ o.gridLevel = i + 1))
      = match l[i - n]? with
        | some level => (seedOrder now strategy qty ref (i, level)).toList
        | none => [] := by
  induction l generalizing n with
  | nil => simp
  | cons a l ih =>
    rw [List.enumFrom_cons]
    rcases Nat.eq_or_lt_of_le h with heq | hlt
    · subst heq
      have hrest := seeded_filter_lt now strategy qty ref l (n + 1) n (Nat.lt_succ_self n)
      simp only [Nat.sub_self, List.getElem?_cons_zero]
      cases hs : seedOrder now strategy qty ref (n, a) with
      | none =>
        rw [List.filterMap_cons_none hs, hrest]
        rfl
      | some o =>
        rw [List.filterMap_cons_some hs, List.filter_cons_of_pos, hrest]
        · rfl
        · have hfl := seedOrder_fields now strategy qty ref (n, a) o hs
          simp [hfl.1, hfl.2.1]
    · have hidx : i - n = (i - (n + 1)) + 1 := by omega
      rw [hidx, List.getElem?_cons_succ, ← ih (n + 1) (by omega)]
      cases hs : seedOrder now strategy qty ref (n, a) with
      | none => rw [List.filterMap_cons_none hs]
      | some o =>
        rw [List.filterMap_cons_some hs, List.filter_cons_of_neg]
        have hfl := seedOrder_fields now strategy qty ref (n, a) o hs
        simp only [decide_eq_true_eq, not_and]
        intro _ hgl
        rw [hfl.2.1] at hgl
        simp only at hgl
        omega

/-- C10: after `createGridOrders`, with `reference = currentPrice` when that is non-zero and
the midpoint of the bounds otherwise, the strategy's orders with `gridLevel = i + 1` are
exactly one PENDING order at the level of index `i` (BUY below the reference, SELL above)
or none when the level equals the reference; every order of the strategy is PENDING, has
`quantity = calculateQuantityPerLevel(config, currentPrice)` and sits on one of the levels;
the orders of other strategies are untouched. -/
theorem createGridOrders_spec (now : Nat) (strategy : GridStrategy) (db : Store) :
    (∀ i level, strategy.gridLevels[i]? = some level →
      (createGridOrders now strategy db).orders.filter
          (fun o => decide (o.strategyId = strategy.strategyId ∧ o.gridLevel = i + 1))
        = if level < orElse strategy.currentPrice
              ((strategy.config.upperPrice + strategy.config.lowerPrice) / 2) then
            [{ strategyId := strategy.strategyId, symbol := strategy.symbol,
               type := OrderType.BUY, price := level,
               quantity := calculateQuantityPerLevel strategy.config strategy.currentPrice,
               gridLevel := i + 1, status := OrderStatus.PENDING,
               timestamp := now, lastCheckedTime := now }]
          else if level > orElse strategy.currentPrice
              ((strategy.config.upperPrice + strategy.config.lowerPrice) / 2) then
            [{ strategyId := strategy.strategyId, symbol := strategy.symbol,
               type := OrderType.SELL, price := level,
               quantity := calculateQuantityPerLevel strategy.config strategy.currentPrice,
               gridLevel := i + 1, status := OrderStatus.PENDING,
               timestamp := now, lastCheckedTime := now }]
          else []) ∧
    (∀ o ∈ (createGridOrders now strategy db).orders, o.strategyId = strategy.strategyId →
      o.status = OrderStatus.PENDING ∧
      o.quantity = calculateQuantityPerLevel strategy.config strategy.currentPrice ∧
      ∃ i level, strategy.gridLevels[i]? = some level ∧ o.gridLevel = i + 1 ∧ o.price = level ∧
        level ≠ orElse strategy.currentPrice
          ((strategy.config.upperPrice + strategy.config.lowerPrice) / 2)) ∧
    ((createGridOrders now strategy db).orders.filter
        (fun o => decide (o.strategyId ≠ strategy.strategyId))
      = db.orders.filter (fun o => decide (o.strategyId ≠ strategy.strategyId))) ∧
    (createGridOrders now strategy db).strategies = db.strategies := by
  refine ⟨?_, ?_, ?_, rfl⟩
  · intro i level hlv
    unfold createGridOrders
    simp only [List.filter_append, List.filter_filter]
    have hkept : db.orders.filter (fun a =>
        decide (a.strategyId = strategy.strategyId ∧ a.gridLevel = i + 1) &&
          decide (a.strategyId ≠ strategy.strategyId)) = [] := by
      rw [List.filter_eq_nil_iff]
      intro o _
      simp only [Bool.and_eq_true, decide_eq_true_eq, not_and]
      intro h1 h2
      exact h2 h1.1
    rw [hkept, List.nil_append]
    have := seeded_filter now strategy
      (calculateQuantityPerLevel strategy.config strategy.currentPrice)
      (orElse strategy.currentPrice ((strategy.config.upperPrice + strategy.config.lowerPrice) / 2))
      strategy.gridLevels 0 i (Nat.zero_le i)
    rw [Nat.sub_zero, hlv] at this
    rw [List.enum, this]
    by_cases h1 : level < orElse strategy.currentPrice
        ((strategy.config.upperPrice + strategy.config.lowerPrice) / 2)
    · simp [seedOrder, h1]
    · by_cases h2 : level > orElse strategy.currentPrice
          ((strategy.config.upperPrice + strategy.config.lowerPrice) / 2)
      · simp [seedOrder, h1, h2]
      · simp [seedOrder, h1, h2]
  · intro o ho hsid
    unfold createGridOrders at ho
    simp only [List.mem_append, List.mem_filter, decide_eq_true_eq] at ho
    rcases ho with ⟨_, h⟩ | h
    · exact absurd hsid h
    · obtain ⟨ip, hip, hso⟩ := List.mem_filterMap.mp h
      have hfl := seedOrder_fields now strategy _ _ ip o hso
      refine ⟨hfl.2.2.2.2.1, hfl.2.2.2.1, ip.1, ip.2, ?_, hfl.2.1, hfl.2.2.1, ?_⟩
      · exact List.mem_enum_iff_getElem?.mp hip
      · intro heq
        unfold seedOrder at hso
        rw [heq] at hso
        simp at hso
  · unfold createGridOrders
    simp only [List.filter_append, List.filter_filter]
    have hnew : (strategy.gridLevels.enum.filterMap (seedOrder now strategy
        (calculateQuantityPerLevel strategy.config strategy.currentPrice)
        (orElse strategy.currentPrice
          ((strategy.config.upperPrice + strategy.config.lowerPrice) / 2)))).filter
        (fun o => decide (o.strategyId ≠ strategy.strategyId)) = [] := by
      rw [List.filter_eq_nil_iff]
      intro o ho
      obtain ⟨ip, _, hso⟩ := List.mem_filterMap.mp ho
      simp [(seedOrder_fields now strategy _ _ ip o hso).1]
    rw [hnew, List.append_nil]
    apply List.filter_congr
    intro o _
    simp

/-- C10 (witness): seeding the sample strategy (levels 102.5, 105, 107.5, last price 104)
leaves exactly one order with `gridLevel = 1`, a PENDING BUY at 102.5, and exactly one with
`gridLevel = 2`, a PENDING SELL at 105. -/
theorem createGridOrders_spec_witness :
    (createGridOrders 1 seedStrategy sampleStore).orders.filter
        (fun o => decide (o.strategyId = "GRID_1" ∧ o.gridLevel = 0 + 1))
      = [{ strategyId := "GRID_1", symbol := "SBIN", type := OrderType.BUY, price := 205 / 2,
           quantity := 1, gridLevel := 1, status := OrderStatus.PENDING,
           timestamp := 1, lastCheckedTime := 1 }] ∧
    (createGridOrders 1 seedStrategy sampleStore).orders.filter
        (fun o => decide (o.strategyId = "GRID_1" ∧ o.gridLevel = 1 + 1))
      = [{ strategyId := "GRID_1", symbol := "SBIN", type := OrderType.SELL, price := 105,
           quantity := 1, gridLevel := 2, status := OrderStatus.PENDING,
           timestamp := 1, lastCheckedTime := 1 }] := by
  have h := (createGridOrders_spec 1 seedStrategy sampleStore).1
  refine ⟨(h 0 (205 / 2) rfl).trans (by decide!), (h 1 105 rfl).trans (by decide!)⟩

/-! ## PENDING orders carry no P&L -/

theorem createNextGridOrder_new (now : Nat) (o : GridOrder) (s : GridStrategy) (db : Store) :
    ∃ l, (createNextGridOrder now o s db).orders = db.orders ++ l ∧
      ∀ x ∈ l, x.pnl = 0 ∧ x.status = OrderStatus.PENDING ∧ x.strategyId = o.strategyId := by
  unfold createNextGridOrder
  simp only
  split_ifs
  · exact ⟨[], by simp, by simp⟩
  · refine ⟨_, rfl, ?_⟩
    intro x hx
    rw [List.mem_singleton] at hx
    subst hx
    exact ⟨rfl, rfl, rfl⟩

theorem processOrder_pendingUnbooked (now : Nat) (p : ℚ) (s : GridStrategy) (db : Store)
    (io : Nat × GridOrder) (hdb : PendingUnbooked db.orders)
    (hio : io.2.status = OrderStatus.PENDING → io.2.pnl = 0) :
    PendingUnbooked (processOrder now p s db io).orders := by
  intro x hx hpend
  unfold processOrder at hx
  simp only at hx
  split_ifs at hx with hf
  · unfold fillGridOrder at hx
    simp only [updateGridMonitoringData_orders] at hx
    obtain ⟨l, hl, hnew⟩ := createNextGridOrder_new now
      (filledOrderDoc now (touch now p io.2) p db.orders) s
      { db with orders := db.orders.set io.1 (filledOrderDoc now (touch now p io.2) p db.orders) }
    rw [hl] at hx
    rcases List.mem_append.mp hx with h | h
    · rcases List.mem_or_eq_of_mem_set h with h1 | h1
      · exact hdb x h1 hpend
      · rw [h1, (filledOrderDoc_fields now _ p db.orders).1] at hpend
        exact OrderStatus.noConfusion hpend
    · exact (hnew x h).1
  · rcases List.mem_or_eq_of_mem_set hx with h1 | h1
    · exact hdb x h1 hpend
    · rw [h1] at hpend ⊢
      exact hio hpend

theorem foldl_processOrder_pendingUnbooked (now : Nat) (p : ℚ) (s : GridStrategy)
    (P : List (Nat × GridOrder)) (db : Store) (hdb : PendingUnbooked db.orders)
    (hP : ∀ io ∈ P, io.2.status = OrderStatus.PENDING → io.2.pnl = 0) :
    PendingUnbooked (P.foldl (processOrder now p s) db).orders := by
  induction P generalizing db with
  | nil => exact hdb
  | cons io P ih =>
    rw [List.foldl_cons]
    exact ih _ (processOrder_pendingUnbooked now p s db io hdb (hP io (List.mem_cons_self _ _)))
      (fun x hx => hP x (List.mem_cons_of_mem _ hx))

theorem processStrategy_pendingUnbooked (now : Nat) (p : ℚ) (db : Store)
    (is : Nat × GridStrategy) (hdb : PendingUnbooked db.orders) :
    PendingUnbooked (processStrategy now p db is).orders := by
  rw [processStrategy_eq]
  apply foldl_processOrder_pendingUnbooked now p _ _
    { db with strategies := modifyAt (withPrice now p) is.1 db.strategies } hdb
  intro io hio
  obtain ⟨h1, _, _⟩ := (mem_findPending _ _ io).mp hio
  exact hdb io.2 (List.getElem?_mem h1)

/-- A tick keeps every PENDING order at `pnl = 0`. -/
theorem checkOrderFills_pendingUnbooked (now : Nat) (symbol : String) (p : ℚ) (db : Store)
    (hdb : PendingUnbooked db.orders) :
    PendingUnbooked (checkOrderFills now symbol p db).orders := by
  unfold checkOrderFills
  simp only
  generalize db.strategies.enum.filter
    (fun is => decide (is.2.symbol = symbol ∧ is.2.status = StrategyStatus.ACTIVE)) = AS
  induction AS generalizing db with
  | nil => exact hdb
  | cons a AS ih =>
    rw [List.foldl_cons]
    exact ih _ (processStrategy_pendingUnbooked now p db a hdb)

/-- Seeding keeps every PENDING order at `pnl = 0`. -/
theorem createGridOrders_pendingUnbooked (now : Nat) (strategy : GridStrategy) (db : Store)
    (hdb : PendingUnbooked db.orders) :
    PendingUnbooked (createGridOrders now strategy db).orders := by
  intro o ho hpend
  unfold createGridOrders at ho
  simp only [List.mem_append, List.mem_filter] at ho
  rcases ho with ⟨h, _⟩ | h
  · exact hdb o h hpend
  · obtain ⟨ip, _, hso⟩ := List.mem_filterMap.mp h
    exact (seedOrder_fields now strategy _ _ ip o hso).2.2.2.2.2

/-! ## Quantity per level -/

/-- C11: `calculateQuantityPerLevel(config, referencePrice)` returns `config.qtyPerOrder`
unchanged when it is positive; otherwise it returns `(investment / levels) / p` rounded to
four decimals, where `p` is the reference price when a non-zero one is given and the
midpoint `(upperPrice + lowerPrice) / 2` when none is available (the divisors being
non-zero). -/
theorem calculateQuantityPerLevel_spec (config : GridConfig) (referencePrice : ℚ) :
    (0 < config.qtyPerOrder →
      calculateQuantityPerLevel config referencePrice = config.qtyPerOrder) ∧
    (¬ 0 < config.qtyPerOrder → config.levels ≠ 0 → referencePrice ≠ 0 →
      calculateQuantityPerLevel config referencePrice
        = toFixed 4 ((config.investment / config.levels) / referencePrice)) ∧
    (¬ 0 < config.qtyPerOrder → config.levels ≠ 0 → referencePrice = 0 →
      (config.upperPrice + config.lowerPrice) / 2 ≠ 0 →
      calculateQuantityPerLevel config referencePrice
        = toFixed 4 ((config.investment / config.levels)
            / ((config.upperPrice + config.lowerPrice) / 2))) := by
  refine ⟨?_, ?_, ?_⟩
  · intro h
    unfold calculateQuantityPerLevel
    rw [if_pos h]
  · intro h _ hp
    unfold calculateQuantityPerLevel orElse
    rw [if_neg h]
    simp only [hp, if_false]
  · intro h _ hp _
    unfold calculateQuantityPerLevel orElse
    rw [if_neg h]
    simp only [hp, if_true]

/-- C11 (witness): with `qtyPerOrder = 1` the quantity is 1; with investment 1000 on three
levels it is 3.2051 at the reference price 104 and 3.1746 at the midpoint 105. -/
theorem calculateQuantityPerLevel_spec_witness :
    calculateQuantityPerLevel seedStrategy.config 104 = 1 ∧
    calculateQuantityPerLevel arithmeticExample 104 = 32051 / 10000 ∧
    calculateQuantityPerLevel arithmeticExample 0 = 31746 / 10000 := by
  have h1 := (calculateQuantityPerLevel_spec seedStrategy.config 104).1 (by decide!)
  have h2 := (calculateQuantityPerLevel_spec arithmeticExample 104).2.1 (by decide!)
    (by decide!) (by decide!)
  have h3 := (calculateQuantityPerLevel_spec arithmeticExample 0).2.2 (by decide!)
    (by decide!) rfl (by decide!)
  exact ⟨h1.trans (by decide!), h2.trans (by decide!), h3.trans (by decide!)⟩
/-! ## Stop-live -/

theorem filter_set_of_not {α : Type} (p : α → Bool) (l : List α) (i : Nat) (a x : α)
    (ha : l[i]? = some a) (hpa : p a = false) (hpx : p x = false) :
    (l.set i x).filter p = l.filter p := by
  induction l generalizing i with
  | nil => simp
  | cons b l ih =>
    cases i with
    | zero =>
      simp only [List.getElem?_cons_zero, Option.some.injEq] at ha
      subst ha
      simp [List.set, List.filter, hpa, hpx]
    | succ i =>
      simp only [List.getElem?_cons_succ] at ha
      simp only [List.set_cons_succ, List.filter_cons]
      rw [ih i ha]

theorem processOrder_orders_new (now : Nat) (p : ℚ) (s : GridStrategy) (db : Store)
    (io : Nat × GridOrder) :
    ∃ x l, (processOrder now p s db io).orders = db.orders.set io.1 x ++ l ∧
      x.strategyId = io.2.strategyId ∧
      ∀ y ∈ l, y.strategyId = io.2.strategyId := by
  unfold processOrder
  simp only
  split_ifs with hf
  · unfold fillGridOrder
    simp only [updateGridMonitoringData_orders]
    obtain ⟨l, hl, hnew⟩ := createNextGridOrder_new now
      (filledOrderDoc now (touch now p io.2) p db.orders) s
      { db with orders := db.orders.set io.1 (filledOrderDoc now (touch now p io.2) p db.orders) }
    have hsid := (filledOrderDoc_fields now (touch now p io.2) p db.orders).2.2.2.2.2.2.2.2.2
    refine ⟨_, l, hl, hsid, ?_⟩
    intro y hy
    exact ((hnew y hy).2.2).trans hsid
  · exact ⟨touch now p io.2, [], by simp, rfl, by simp⟩

theorem processOrder_ordersOf_other (now : Nat) (p : ℚ) (s : GridStrategy) (db : Store)
    (io : Nat × GridOrder) (sid : String) (hio : db.orders[io.1]? = some io.2)
    (hne : io.2.strategyId ≠ sid) :
    ordersOf sid (processOrder now p s db io).orders = ordersOf sid db.orders := by
  obtain ⟨x, l, hl, hx, hnew⟩ := processOrder_orders_new now p s db io
  unfold ordersOf
  rw [hl, List.filter_append]
  have h1 : l.filter (fun o => decide (o.strategyId = sid)) = [] := by
    rw [List.filter_eq_nil_iff]
    intro y hy
    simp only [decide_eq_true_eq]
    rw [hnew y hy]
    exact hne
  rw [h1, List.append_nil]
  exact filter_set_of_not _ db.orders io.1 io.2 x hio (by simpa using hne)
    (by rw [decide_eq_false_iff_not, hx]; exact hne)

theorem foldl_processOrder_ordersOf_other (now : Nat) (p : ℚ) (s : GridStrategy) (sid : String)
    (P : List (Nat × GridOrder)) (db : Store)
    (hP : P.Pairwise (fun a b => a.1 ≠ b.1))
    (hmem : ∀ io ∈ P, db.orders[io.1]? = some io.2 ∧ io.2.strategyId ≠ sid) :
    ordersOf sid (P.foldl (processOrder now p s) db).orders = ordersOf sid db.orders := by
  induction P generalizing db with
  | nil => rfl
  | cons io P ih =>
    rw [List.foldl_cons]
    rw [List.pairwise_cons] at hP
    obtain ⟨h1, h2⟩ := hmem io (List.mem_cons_self _ _)
    rw [ih _ hP.2, processOrder_ordersOf_other now p s db io sid h1 h2]
    intro io1 hio1
    obtain ⟨h3, h4⟩ := hmem io1 (List.mem_cons_of_mem _ hio1)
    refine ⟨?_, h4⟩
    have hlt : io1.1 < db.orders.length := by
      by_contra hc
      rw [List.getElem?_eq_none (not_lt.mp hc)] at h3
      exact Option.noConfusion h3
    rw [processOrder_get_ne now p s db io io1.1 (hP.1 io1 hio1) hlt]
    exact h3

theorem noPending_iff_ordersOf (sid : String) (orders : List GridOrder) :
    NoPending sid orders ↔ ∀ o ∈ ordersOf sid orders, o.status ≠ OrderStatus.PENDING := by
  unfold NoPending ordersOf
  simp only [List.mem_filter, decide_eq_true_eq]
  constructor
  · intro h o ho; exact h o ho.1 ho.2
  · intro h o ho hs; exact h o ⟨ho, hs⟩

theorem processStrategy_ordersOf (now : Nat) (p : ℚ) (db : Store) (is : Nat × GridStrategy)
    (sid : String) (hnp : NoPending sid db.orders) :
    ordersOf sid (processStrategy now p db is).orders = ordersOf sid db.orders := by
  rw [processStrategy_eq]
  apply foldl_processOrder_ordersOf_other now p _ sid _
    { db with strategies := modifyAt (withPrice now p) is.1 db.strategies }
    (findPending_pairwise _ _)
  intro io hio
  obtain ⟨h1, _, h3⟩ := (mem_findPending _ _ io).mp hio
  refine ⟨h1, ?_⟩
  intro hsid
  exact hnp io.2 (List.getElem?_mem h1) hsid h3

/-- A tick leaves the orders of a strategy that has no PENDING order exactly as they are:
none is filled and none is created. -/
theorem checkOrderFills_ordersOf (now : Nat) (symbol : String) (p : ℚ) (db : Store)
    (sid : String) (hnp : NoPending sid db.orders) :
    ordersOf sid (checkOrderFills now symbol p db).orders = ordersOf sid db.orders := by
  unfold checkOrderFills
  simp only
  generalize db.strategies.enum.filter
    (fun is => decide (is.2.symbol = symbol ∧ is.2.status = StrategyStatus.ACTIVE)) = AS
  induction AS generalizing db with
  | nil => rfl
  | cons a AS ih =>
    rw [List.foldl_cons]
    have h1 := processStrategy_ordersOf now p db a sid hnp
    have h2 : NoPending sid (processStrategy now p db a).orders := by
      rw [noPending_iff_ordersOf, h1, ← noPending_iff_ordersOf]
      exact hnp
    rw [ih _ h2, h1]

theorem applyTicks_ordersOf (ticks : List (Nat × String × ℚ)) (db : Store) (sid : String)
    (hnp : NoPending sid db.orders) :
    ordersOf sid (applyTicks ticks db).orders = ordersOf sid db.orders := by
  unfold applyTicks
  induction ticks generalizing db with
  | nil => rfl
  | cons t ticks ih =>
    rw [List.foldl_cons]
    have h1 := checkOrderFills_ordersOf t.1 t.2.1 t.2.2 db sid hnp
    have h2 : NoPending sid (checkOrderFills t.1 t.2.1 t.2.2 db).orders := by
      rw [noPending_iff_ordersOf, h1, ← noPending_iff_ordersOf]
      exact hnp
    rw [ih _ h2, h1]

theorem cancelPending_noPending (sid : String) (orders : List GridOrder) :
    NoPending sid (cancelPending sid orders) := by
  intro o ho hsid hst
  unfold cancelPending at ho
  obtain ⟨x, _, hx⟩ := List.mem_map.mp ho
  split_ifs at hx with h
  · rw [← hx] at hst
    exact OrderStatus.noConfusion hst
  · rw [← hx] at hsid hst
    exact h ⟨hsid, hst⟩

theorem cancelPending_get (sid : String) (orders : List GridOrder) (i : Nat) :
    (cancelPending sid orders)[i]?
      = orders[i]?.map (fun o =>
          if o.strategyId = sid ∧ o.status = OrderStatus.PENDING then
            { o with status := OrderStatus.CANCELLED }
          else o) := by
  unfold cancelPending
  rw [List.getElem?_map]

theorem cancelPending_keep (sid : String) (orders : List GridOrder) (i : Nat) (o : GridOrder)
    (ho : orders[i]? = some o) (hnp : o.status ≠ OrderStatus.PENDING) :
    (cancelPending sid orders)[i]? = some o := by
  rw [cancelPending_get, ho, Option.map_some', if_neg (fun h => hnp h.2)]

/-- C12: after stop-live for an existing strategy `S`, `S` is STOPPED, every order of `S`
that was PENDING is CANCELLED and every other order is as before, so no order of `S` is
PENDING; and after any later sequence of `checkOrderFills` calls, for any symbols and
prices, the orders of `S` are exactly the same documents: none filled, none created. -/
theorem stopLive_cancels (sid : String) (db : Store) (s : GridStrategy) (hsid : sid ≠ "")
    (hs : db.strategies.find? (fun s => decide (s.strategyId = sid)) = some s) :
    (stopLive sid db).1 = Response.ok ∧
    (stopLive sid db).2.strategies.find? (fun s => decide (s.strategyId = sid))
      = some { s with status := StrategyStatus.STOPPED } ∧
    (∀ (i : Nat) (o : GridOrder), db.orders[i]? = some o →
      (stopLive sid db).2.orders[i]?
        = some (if o.strategyId = sid ∧ o.status = OrderStatus.PENDING then
                  { o with status := OrderStatus.CANCELLED }
                else o)) ∧
    (stopLive sid db).2.orders.length = db.orders.length ∧
    (∀ o ∈ (stopLive sid db).2.orders, o.strategyId = sid → o.status ≠ OrderStatus.PENDING) ∧
    (∀ ticks : List (Nat × String × ℚ),
      ordersOf sid (applyTicks ticks (stopLive sid db).2).orders
        = ordersOf sid (stopLive sid db).2.orders) := by
  have hdef : stopLive sid db = (Response.ok,
      { strategies :=
          updateFirst (fun s => decide (s.strategyId = sid)) markStopped db.strategies,
        orders := cancelPending sid db.orders }) := by
    unfold stopLive
    rw [if_neg hsid, hs]
  rw [hdef]
  refine ⟨rfl, ?_, ?_, ?_, ?_, ?_⟩
  · exact find?_updateFirst (fun s : GridStrategy => decide (s.strategyId = sid)) markStopped
      (fun a ha => ha) db.strategies s hs
  · intro i o ho
    simp only [cancelPending_get, ho, Option.map_some']
  · simp [cancelPending]
  · exact cancelPending_noPending sid db.orders
  · intro ticks
    exact applyTicks_ordersOf ticks _ sid (cancelPending_noPending sid db.orders)

/-- C12 (witness): stop-live for the strategy of the sample run, followed by a tick at 107.5
that would have filled its PENDING SELL order. -/
theorem stopLive_cancels_witness :
    (stopLive "GRID_1" driftRun).1 = Response.ok ∧
    (∀ o ∈ (stopLive "GRID_1" driftRun).2.orders,
      o.strategyId = "GRID_1" → o.status ≠ OrderStatus.PENDING) ∧
    ordersOf "GRID_1" (applyTicks [(5, "SBIN", 215 / 2)] (stopLive "GRID_1" driftRun).2).orders
      = ordersOf "GRID_1" (stopLive "GRID_1" driftRun).2.orders := by
  have h := stopLive_cancels "GRID_1" driftRun (driftRun.strategies.headD seedStrategy)
    (by decide) (by decide!)
  exact ⟨h.1, h.2.2.2.2.1, h.2.2.2.2.2 [(5, "SBIN", 215 / 2)]⟩
/-! ## Start-live -/

theorem mem_updateFirst {α : Type} (p : α → Bool) (f : α → α) (l : List α) (y : α)
    (h : y ∈ updateFirst p f l) : y ∈ l ∨ ∃ x ∈ l, p x = true ∧ y = f x := by
  induction l with
  | nil => simp [updateFirst] at h
  | cons b l ih =>
    unfold updateFirst at h
    split_ifs at h with hb
    · rcases List.mem_cons.mp h with h1 | h1
      · exact Or.inr ⟨b, List.mem_cons_self _ _, hb, h1⟩
      · exact Or.inl (List.mem_cons_of_mem _ h1)
    · rcases List.mem_cons.mp h with h1 | h1
      · exact Or.inl (h1 ▸ List.mem_cons_self _ _)
      · rcases ih h1 with h2 | ⟨x, hx, hpx, hy⟩
        · exact Or.inl (List.mem_cons_of_mem _ h2)
        · exact Or.inr ⟨x, List.mem_cons_of_mem _ hx, hpx, hy⟩

theorem getElem?_updateFirst_of_not {α : Type} (p : α → Bool) (f : α → α) (l : List α)
    (k : Nat) (a : α) (h : l[k]? = some a) (hp : p a = false) :
    (updateFirst p f l)[k]? = some a := by
  induction l generalizing k with
  | nil => simp at h
  | cons b l ih =>
    unfold updateFirst
    cases k with
    | zero =>
      simp only [List.getElem?_cons_zero, Option.some.injEq] at h
      subst h
      simp [hp]
    | succ k =>
      simp only [List.getElem?_cons_succ] at h
      split_ifs
      · simpa using h
      · simpa using ih k h

theorem modifyAt_get {α : Type} (f : α → α) (i k : Nat) (l : List α) :
    (modifyAt f i l)[k]? = if k = i then l[k]?.map f else l[k]? := by
  unfold modifyAt
  cases hi : l[i]? with
  | none =>
    simp only
    split_ifs with h
    · rw [h, hi]; rfl
    · rfl
  | some a =>
    simp only
    split_ifs with h
    · subst h
      have hlt : k < l.length := by
        by_contra hc
        rw [List.getElem?_eq_none (not_lt.mp hc)] at hi
        exact Option.noConfusion hi
      rw [List.getElem?_set_self hlt, hi]; rfl
    · rw [List.getElem?_set_ne (fun h1 => h h1.symm)]

theorem cancelPending_keeps_noPending (sid sid1 : String) (orders : List GridOrder)
    (h : NoPending sid orders) : NoPending sid (cancelPending sid1 orders) := by
  intro o ho hsid hst
  unfold cancelPending at ho
  obtain ⟨x, hx, hxo⟩ := List.mem_map.mp ho
  split_ifs at hxo with hc
  · rw [← hxo] at hst
    exact OrderStatus.noConfusion hst
  · rw [← hxo] at hsid hst
    exact h x hx hsid hst

theorem cancelPending_other (sid : String) (orders : List GridOrder) (i : Nat) (o : GridOrder)
    (ho : orders[i]? = some o) (hne : o.strategyId ≠ sid) :
    (cancelPending sid orders)[i]? = some o := by
  rw [cancelPending_get, ho, Option.map_some', if_neg (fun h => hne h.1)]

theorem stopExisting_strategies_get (id : String) (db : Store) (is : Nat × GridStrategy)
    (k : Nat) :
    (stopExisting id db is).strategies[k]?
      = if k = is.1 ∧ is.2.strategyId ≠ id then db.strategies[k]?.map markStopped
        else db.strategies[k]? := by
  unfold stopExisting
  by_cases h : is.2.strategyId ≠ id
  · rw [if_pos h]
    simp only [modifyAt_get]
    by_cases hk : k = is.1
    · rw [if_pos hk, if_pos ⟨hk, h⟩]
    · rw [if_neg hk, if_neg (fun hc => hk hc.1)]
  · rw [if_neg h, if_neg (fun hc => h hc.2)]

/-- After the loop every document is the one before it, or that one marked STOPPED. -/
theorem foldl_stopExisting_strategies (id : String) (P : List (Nat × GridStrategy))
    (db : Store) (k : Nat) (s : GridStrategy) (hs : db.strategies[k]? = some s) :
    ((∃ is ∈ P, is.1 = k ∧ is.2.strategyId ≠ id) →
      (P.foldl (stopExisting id) db).strategies[k]? = some (markStopped s)) ∧
    ((∀ is ∈ P, is.1 = k → is.2.strategyId = id) →
      (P.foldl (stopExisting id) db).strategies[k]? = some s) := by
  induction P generalizing db s with
  | nil =>
    constructor
    · rintro ⟨is, his, _⟩; simp at his
    · intro _; exact hs
  | cons a P ih =>
    rw [List.foldl_cons]
    have h1 := stopExisting_strategies_get id db a k
    by_cases hc : k = a.1 ∧ a.2.strategyId ≠ id
    · rw [if_pos hc, hs, Option.map_some'] at h1
      have ih1 := ih (stopExisting id db a) (markStopped s) h1
      constructor
      · intro _
        by_cases hrest : ∃ is ∈ P, is.1 = k ∧ is.2.strategyId ≠ id
        · exact ih1.1 hrest
        · push_neg at hrest
          exact ih1.2 hrest
      · intro hall
        exact absurd (hall a (List.mem_cons_self _ _) hc.1.symm) hc.2
    · rw [if_neg hc, hs] at h1
      have ih1 := ih (stopExisting id db a) s h1
      constructor
      · rintro ⟨is, his, hk, hne⟩
        rcases List.mem_cons.mp his with h | h
        · subst h; exact absurd ⟨hk.symm, hne⟩ hc
        · exact ih1.1 ⟨is, h, hk, hne⟩
      · intro hall
        exact ih1.2 (fun is his => hall is (List.mem_cons_of_mem _ his))

theorem foldl_stopExisting_strategies_none (id : String) (P : List (Nat × GridStrategy))
    (db : Store) (k : Nat) (hs : db.strategies[k]? = none) :
    (P.foldl (stopExisting id) db).strategies[k]? = none := by
  induction P generalizing db with
  | nil => exact hs
  | cons a P ih =>
    rw [List.foldl_cons]
    apply ih
    rw [stopExisting_strategies_get, hs]
    simp

/-- What the first part of start-live does to the strategies: exactly the ACTIVE ones with
another id are marked STOPPED. -/
theorem stopOthers_strategies (id : String) (db : Store) :
    (stopOthers id db).strategies
      = db.strategies.map (fun s =>
          if s.status = StrategyStatus.ACTIVE ∧ s.strategyId ≠ id then markStopped s else s) := by
  apply List.ext_getElem?
  intro k
  rw [List.getElem?_map]
  unfold stopOthers
  cases hs : db.strategies[k]? with
  | none => exact foldl_stopExisting_strategies_none id _ db k hs
  | some s =>
    rw [Option.map_some']
    obtain ⟨hA, hB⟩ := foldl_stopExisting_strategies id
      (db.strategies.enum.filter (fun is => decide (is.2.status = StrategyStatus.ACTIVE)))
      db k s hs
    by_cases hc : s.status = StrategyStatus.ACTIVE ∧ s.strategyId ≠ id
    · rw [if_pos hc]
      apply hA
      refine ⟨(k, s), ?_, rfl, hc.2⟩
      rw [List.mem_filter, List.mem_enum_iff_getElem?]
      exact ⟨hs, by simp [hc.1]⟩
    · rw [if_neg hc]
      apply hB
      intro is his hk
      rw [List.mem_filter, List.mem_enum_iff_getElem?] at his
      have hact : is.2.status = StrategyStatus.ACTIVE := by simpa using his.2
      have heq : is.2 = s := by
        have h3 := his.1
        rw [hk, hs] at h3
        exact (Option.some.inj h3).symm
      rw [heq] at hact ⊢
      by_contra hne
      exact hc ⟨hact, hne⟩

theorem stopExisting_orders_keep (id : String) (db : Store) (is : Nat × GridStrategy)
    (i : Nat) (o : GridOrder) (ho : db.orders[i]? = some o)
    (h : o.status ≠ OrderStatus.PENDING ∨ o.strategyId = id) :
    (stopExisting id db is).orders[i]? = some o := by
  unfold stopExisting
  split_ifs with hc
  · rcases h with h | h
    · exact cancelPending_keep _ _ i o ho h
    · exact cancelPending_other _ _ i o ho (fun h1 => hc (h1.symm.trans h))
  · exact ho

/-- The first part of start-live leaves an order alone when it is not PENDING or belongs
to the requested strategy. -/
theorem stopOthers_orders_keep (id : String) (db : Store) (i : Nat) (o : GridOrder)
    (ho : db.orders[i]? = some o)
    (h : o.status ≠ OrderStatus.PENDING ∨ o.strategyId = id) :
    (stopOthers id db).orders[i]? = some o := by
  unfold stopOthers
  generalize db.strategies.enum.filter
    (fun is => decide (is.2.status = StrategyStatus.ACTIVE)) = P
  induction P generalizing db with
  | nil => exact ho
  | cons a P ih =>
    rw [List.foldl_cons]
    exact ih _ (stopExisting_orders_keep id db a i o ho h)

theorem stopExisting_noPending (id sid : String) (db : Store) (is : Nat × GridStrategy)
    (h : NoPending sid db.orders ∨ (is.2.strategyId = sid ∧ sid ≠ id)) :
    NoPending sid (stopExisting id db is).orders := by
  unfold stopExisting
  split_ifs with hc
  · rcases h with h | h
    · exact cancelPending_keeps_noPending sid _ _ h
    · rw [h.1]; exact cancelPending_noPending sid _
  · rcases h with h | h
    · exact h
    · exfalso
      apply hc
      rw [h.1]
      exact h.2

theorem foldl_stopExisting_noPending (id sid : String) (P : List (Nat × GridStrategy))
    (db : Store)
    (h : NoPending sid db.orders ∨ ∃ is ∈ P, is.2.strategyId = sid ∧ sid ≠ id) :
    NoPending sid (P.foldl (stopExisting id) db).orders := by
  induction P generalizing db with
  | nil =>
    rcases h with h | ⟨is, his, _⟩
    · exact h
    · simp at his
  | cons a P ih =>
    rw [List.foldl_cons]
    apply ih
    rcases h with h | ⟨is, his, hsid, hne⟩
    · exact Or.inl (stopExisting_noPending id sid db a (Or.inl h))
    · rcases List.mem_cons.mp his with h1 | h1
      · subst h1
        exact Or.inl (stopExisting_noPending id sid db is (Or.inr ⟨hsid, hne⟩))
      · exact Or.inr ⟨is, h1, hsid, hne⟩

/-- After the first part of start-live an ACTIVE strategy with another id has no PENDING
order left. -/
theorem stopOthers_noPending (id : String) (db : Store) (a : GridStrategy)
    (ha : a ∈ db.strategies) (hact : a.status = StrategyStatus.ACTIVE)
    (hne : a.strategyId ≠ id) : NoPending a.strategyId (stopOthers id db).orders := by
  unfold stopOthers
  apply foldl_stopExisting_noPending
  right
  obtain ⟨k, hk⟩ := List.mem_iff_getElem?.mp ha
  refine ⟨(k, a), ?_, rfl, hne⟩
  rw [List.mem_filter, List.mem_enum_iff_getElem?]
  exact ⟨hk, by simp [hact]⟩
/-- The four ways start-live ends once the body has a strategy and an e-mail address. -/
theorem startLive_cases (pow : ℚ → ℚ → ℚ) (now : Nat) (ltp : Option ℚ) (req : StartLiveRequest)
    (userEmail : String) (db : Store) (hmail : userEmail ≠ "") :
    ((stopOthers req.id db).strategies.find? (fun s => decide (s.strategyId = req.id)) = none ∧
      (req.id = "" ∨ req.stockSymbol = "") ∧
      startLive pow now ltp (some req) userEmail db
        = (Response.serverError, stopOthers req.id db)) ∨
    ((stopOthers req.id db).strategies.find? (fun s => decide (s.strategyId = req.id)) = none ∧
      ¬ (req.id = "" ∨ req.stockSymbol = "") ∧
      startLive pow now ltp (some req) userEmail db
        = (Response.ok,
            createGridOrders now (newLiveStrategy pow now (startPrice ltp req.config) req userEmail)
              { stopOthers req.id db with
                strategies := (stopOthers req.id db).strategies ++
                  [newLiveStrategy pow now (startPrice ltp req.config) req userEmail] })) ∨
    (∃ found,
      (stopOthers req.id db).strategies.find? (fun s => decide (s.strategyId = req.id))
        = some found ∧
      (findPending req.id (stopOthers req.id db).orders).length = 0 ∧
      startLive pow now ltp (some req) userEmail db
        = (Response.ok,
            createGridOrders now (reactivate now (startPrice ltp req.config) userEmail found)
              { stopOthers req.id db with
                strategies := updateFirst (fun s => decide (s.strategyId = req.id))
                  (reactivate now (startPrice ltp req.config) userEmail)
                  (stopOthers req.id db).strategies })) ∨
    (∃ found,
      (stopOthers req.id db).strategies.find? (fun s => decide (s.strategyId = req.id))
        = some found ∧
      (findPending req.id (stopOthers req.id db).orders).length ≠ 0 ∧
      startLive pow now ltp (some req) userEmail db
        = (Response.ok,
            { stopOthers req.id db with
              strategies := updateFirst (fun s => decide (s.strategyId = req.id))
                (reactivate now (startPrice ltp req.config) userEmail)
                (stopOthers req.id db).strategies })) := by
  unfold startLive
  simp only [hmail, if_false]
  cases hf : (stopOthers req.id db).strategies.find? (fun s => decide (s.strategyId = req.id)) with
  | none =>
    simp only
    by_cases hv : req.id = "" ∨ req.stockSymbol = ""
    · left
      exact ⟨trivial, hv, by rw [if_pos hv]⟩
    · right; left
      exact ⟨trivial, hv, by rw [if_neg hv]⟩
  | some found =>
    simp only
    by_cases hp : (findPending req.id (stopOthers req.id db).orders).length = 0
    · right; right; left
      exact ⟨found, rfl, hp, by rw [if_pos hp]⟩
    · right; right; right
      exact ⟨found, rfl, hp, by rw [if_neg hp]⟩

theorem createGridOrders_mem (now : Nat) (strategy : GridStrategy) (db : Store) (o : GridOrder)
    (h : o ∈ (createGridOrders now strategy db).orders) :
    (o ∈ db.orders ∧ o.strategyId ≠ strategy.strategyId) ∨
    (o.strategyId = strategy.strategyId ∧ o.status = OrderStatus.PENDING) := by
  unfold createGridOrders at h
  simp only [List.mem_append, List.mem_filter, decide_eq_true_eq] at h
  rcases h with h | h
  · exact Or.inl h
  · obtain ⟨ip, _, hso⟩ := List.mem_filterMap.mp h
    have hf := seedOrder_fields now strategy _ _ ip o hso
    exact Or.inr ⟨hf.1, hf.2.2.2.2.1⟩

theorem createGridOrders_keeps (now : Nat) (strategy : GridStrategy) (db : Store) (o : GridOrder)
    (h : o ∈ db.orders) (hne : o.strategyId ≠ strategy.strategyId) :
    o ∈ (createGridOrders now strategy db).orders := by
  unfold createGridOrders
  simp only [List.mem_append, List.mem_filter, decide_eq_true_eq]
  exact Or.inl ⟨h, hne⟩

theorem createGridOrders_noPending (now : Nat) (strategy : GridStrategy) (db : Store)
    (sid : String) (h : NoPending sid db.orders) (hne : sid ≠ strategy.strategyId) :
    NoPending sid (createGridOrders now strategy db).orders := by
  intro o ho hsid
  rcases createGridOrders_mem now strategy db o ho with h1 | h1
  · exact h o h1.1 hsid
  · exact absurd (hsid.symm.trans h1.1) hne

theorem stopOthers_active (id : String) (db : Store) (s : GridStrategy)
    (hs : s ∈ (stopOthers id db).strategies) (hact : s.status = StrategyStatus.ACTIVE) :
    s.strategyId = id := by
  rw [stopOthers_strategies] at hs
  obtain ⟨x, _, hx⟩ := List.mem_map.mp hs
  split_ifs at hx with hc
  · rw [← hx] at hact
    exact StrategyStatus.noConfusion hact
  · rw [← hx] at hact ⊢
    by_contra hne
    exact hc ⟨hact, hne⟩

theorem stopOthers_get_stopped (id : String) (db : Store) (k : Nat) (a : GridStrategy)
    (ha : db.strategies[k]? = some a) (hact : a.status = StrategyStatus.ACTIVE)
    (hne : a.strategyId ≠ id) :
    (stopOthers id db).strategies[k]? = some (markStopped a) := by
  rw [stopOthers_strategies, List.getElem?_map, ha, Option.map_some', if_pos ⟨hact, hne⟩]

/-- A PENDING order of an ACTIVE strategy with another id is CANCELLED by the loop. -/
theorem foldl_stopExisting_cancels (id : String) (P : List (Nat × GridStrategy)) (db : Store)
    (i : Nat) (o : GridOrder) (ho : db.orders[i]? = some o)
    (hpend : o.status = OrderStatus.PENDING) (hne : o.strategyId ≠ id)
    (hP : ∃ is ∈ P, is.2.strategyId = o.strategyId) :
    (P.foldl (stopExisting id) db).orders[i]?
      = some { o with status := OrderStatus.CANCELLED } := by
  induction P generalizing db with
  | nil =>
    obtain ⟨is, his, _⟩ := hP
    simp at his
  | cons a P ih =>
    rw [List.foldl_cons]
    by_cases ha : a.2.strategyId = o.strategyId
    · have h1 : (stopExisting id db a).orders[i]?
          = some { o with status := OrderStatus.CANCELLED } := by
        unfold stopExisting
        rw [if_pos (by rw [ha]; exact hne)]
        simp only [cancelPending_get, ho, Option.map_some', ha, hpend, and_self, if_true]
      have hkeep : ∀ (Q : List (Nat × GridStrategy)) (d : Store),
          d.orders[i]? = some { o with status := OrderStatus.CANCELLED } →
          (Q.foldl (stopExisting id) d).orders[i]?
            = some { o with status := OrderStatus.CANCELLED } := by
        intro Q
        induction Q with
        | nil => intro d hd; exact hd
        | cons b Q ihQ =>
          intro d hd
          rw [List.foldl_cons]
          exact ihQ _ (stopExisting_orders_keep id d b i _ hd
            (Or.inl (fun h => OrderStatus.noConfusion h)))
      exact hkeep P _ h1
    · apply ih
      · unfold stopExisting
        split_ifs
        · exact cancelPending_other _ _ i o ho (fun h => ha h.symm)
        · exact ho
      · obtain ⟨is, his, hsid⟩ := hP
        rcases List.mem_cons.mp his with h | h
        · subst h; exact absurd hsid ha
        · exact ⟨is, h, hsid⟩

theorem stopOthers_cancels (id : String) (db : Store) (a : GridStrategy)
    (ha : a ∈ db.strategies) (hact : a.status = StrategyStatus.ACTIVE)
    (hne : a.strategyId ≠ id) (i : Nat) (o : GridOrder) (ho : db.orders[i]? = some o)
    (hpend : o.status = OrderStatus.PENDING) (hsid : o.strategyId = a.strategyId) :
    (stopOthers id db).orders[i]? = some { o with status := OrderStatus.CANCELLED } := by
  unfold stopOthers
  apply foldl_stopExisting_cancels id _ db i o ho hpend (by rw [hsid]; exact hne)
  obtain ⟨k, hk⟩ := List.mem_iff_getElem?.mp ha
  refine ⟨(k, a), ?_, hsid.symm⟩
  rw [List.mem_filter, List.mem_enum_iff_getElem?]
  exact ⟨hk, by simp [hact]⟩

/-- C13: when strategy `A` is ACTIVE and start-live is called for a different strategy `B`
(with an e-mail address in the body), afterwards `A` is STOPPED, every order of `A` that
was PENDING is CANCELLED and none is PENDING; and when the route answers with success, `B`
is ACTIVE and every ACTIVE strategy has the id of `B`. -/
theorem startLive_singleton (pow : ℚ → ℚ → ℚ) (now : Nat) (ltp : Option ℚ)
    (req : StartLiveRequest) (userEmail : String) (db : Store) (k : Nat) (a : GridStrategy)
    (ha : db.strategies[k]? = some a) (hact : a.status = StrategyStatus.ACTIVE)
    (hne : a.strategyId ≠ req.id) (hmail : userEmail ≠ "") :
    (startLive pow now ltp (some req) userEmail db).2.strategies[k]?
      = some { a with status := StrategyStatus.STOPPED } ∧
    NoPending a.strategyId (startLive pow now ltp (some req) userEmail db).2.orders ∧
    (∀ (i : Nat) (o : GridOrder), db.orders[i]? = some o → o.strategyId = a.strategyId →
      o.status = OrderStatus.PENDING →
      { o with status := OrderStatus.CANCELLED }
        ∈ (startLive pow now ltp (some req) userEmail db).2.orders) ∧
    ((startLive pow now ltp (some req) userEmail db).1 = Response.ok →
      (∀ s ∈ (startLive pow now ltp (some req) userEmail db).2.strategies,
        s.status = StrategyStatus.ACTIVE → s.strategyId = req.id) ∧
      ∃ s ∈ (startLive pow now ltp (some req) userEmail db).2.strategies,
        s.strategyId = req.id ∧ s.status = StrategyStatus.ACTIVE) := by
  have hmem : a ∈ db.strategies := List.getElem?_mem ha
  have h1 := stopOthers_get_stopped req.id db k a ha hact hne
  have h2 := stopOthers_noPending req.id db a hmem hact hne
  have h3 : ∀ (i : Nat) (o : GridOrder), db.orders[i]? = some o →
      o.strategyId = a.strategyId → o.status = OrderStatus.PENDING →
      ({ o with status := OrderStatus.CANCELLED } : GridOrder) ∈ (stopOthers req.id db).orders :=
    fun i o ho hsid hpend =>
      List.getElem?_mem (stopOthers_cancels req.id db a hmem hact hne i o ho hpend hsid)
  have hklt : k < (stopOthers req.id db).strategies.length := by
    by_contra hc
    rw [List.getElem?_eq_none (not_lt.mp hc)] at h1
    exact Option.noConfusion h1
  have hpa : (fun s : GridStrategy => decide (s.strategyId = req.id)) (markStopped a) = false := by
    simpa [markStopped] using hne
  rcases startLive_cases pow now ltp req userEmail db hmail with
    ⟨_, _, he⟩ | ⟨_, _, he⟩ | ⟨found, hf, _, he⟩ | ⟨found, hf, _, he⟩
  · rw [he]
    refine ⟨h1, h2, h3, ?_⟩
    intro hok
    exact Response.noConfusion hok
  · rw [he]
    refine ⟨?_, ?_, ?_, ?_⟩
    · show ((stopOthers req.id db).strategies ++ [_])[k]? = _
      rw [List.getElem?_append_left hklt]
      exact h1
    · exact createGridOrders_noPending now _ _ a.strategyId h2 hne
    · intro i o ho hsid hpend
      exact createGridOrders_keeps now _ _ _ (h3 i o ho hsid hpend) (by rw [hsid]; exact hne)
    · intro _
      constructor
      · intro s hs hsact
        rcases List.mem_append.mp hs with h | h
        · exact stopOthers_active req.id db s h hsact
        · rw [List.mem_singleton.mp h]; rfl
      · exact ⟨_, List.mem_append_right _ (List.mem_singleton.mpr rfl), rfl, rfl⟩
  · rw [he]
    refine ⟨?_, ?_, ?_, ?_⟩
    · exact getElem?_updateFirst_of_not _ _ _ k _ h1 hpa
    · have hfid : found.strategyId = req.id := by
        simpa using List.find?_some hf
      exact createGridOrders_noPending now _ _ a.strategyId h2 (by
        show a.strategyId ≠ found.strategyId
        rw [hfid]; exact hne)
    · intro i o ho hsid hpend
      have hfid : found.strategyId = req.id := by
        simpa using List.find?_some hf
      exact createGridOrders_keeps now _ _ _ (h3 i o ho hsid hpend) (by
        show o.strategyId ≠ found.strategyId
        rw [hsid, hfid]; exact hne)
    · intro _
      constructor
      · intro s hs hsact
        rcases mem_updateFirst _ _ _ s hs with h | ⟨x, _, hpx, hx⟩
        · exact stopOthers_active req.id db s h hsact
        · rw [hx]
          simpa using hpx
      · have := find?_updateFirst (fun s : GridStrategy => decide (s.strategyId = req.id))
          (reactivate now (startPrice ltp req.config) userEmail) (fun a ha => ha)
          (stopOthers req.id db).strategies found hf
        refine ⟨_, List.mem_of_find?_eq_some this, ?_, rfl⟩
        simpa using List.find?_some hf
  · rw [he]
    refine ⟨?_, h2, h3, ?_⟩
    · exact getElem?_updateFirst_of_not _ _ _ k _ h1 hpa
    · intro _
      constructor
      · intro s hs hsact
        rcases mem_updateFirst _ _ _ s hs with h | ⟨x, _, hpx, hx⟩
        · exact stopOthers_active req.id db s h hsact
        · rw [hx]
          simpa using hpx
      · have := find?_updateFirst (fun s : GridStrategy => decide (s.strategyId = req.id))
          (reactivate now (startPrice ltp req.config) userEmail) (fun a ha => ha)
          (stopOthers req.id db).strategies found hf
        refine ⟨_, List.mem_of_find?_eq_some this, ?_, rfl⟩
        simpa using List.find?_some hf
/-- C13 (witness): the strategy of the sample run is ACTIVE when start-live is called for a
second strategy. -/
theorem startLive_singleton_witness :
    (startLive samplePow 5 none (some secondRequest) "user@example.com" driftRun).2.strategies[0]?
      = some { driftRun.strategies.headD seedStrategy with status := StrategyStatus.STOPPED } ∧
    NoPending "GRID_1"
      (startLive samplePow 5 none (some secondRequest) "user@example.com" driftRun).2.orders ∧
    (startLive samplePow 5 none (some secondRequest) "user@example.com" driftRun).1
      = Response.ok := by
  have h := startLive_singleton samplePow 5 none secondRequest "user@example.com" driftRun 0
    (driftRun.strategies.headD seedStrategy) (by decide!) (by decide!) (by decide!) (by decide)
  have hid : (driftRun.strategies.headD seedStrategy).strategyId = "GRID_1" := by decide!
  exact ⟨h.1, hid ▸ h.2.1, by decide!⟩

theorem stopOthers_find?_none (id : String) (db : Store)
    (h : db.strategies.find? (fun s => decide (s.strategyId = id)) = none) :
    (stopOthers id db).strategies.find? (fun s => decide (s.strategyId = id)) = none := by
  rw [List.find?_eq_none] at h ⊢
  intro s hs
  rw [stopOthers_strategies] at hs
  obtain ⟨x, hx, hxs⟩ := List.mem_map.mp hs
  have := h x hx
  split_ifs at hxs <;> rw [← hxs] <;> simpa [markStopped] using this

theorem stopOthers_find?_some (id : String) (db : Store) (s : GridStrategy)
    (h : db.strategies.find? (fun s => decide (s.strategyId = id)) = some s) :
    (stopOthers id db).strategies.find? (fun s => decide (s.strategyId = id)) ≠ none := by
  intro hn
  rw [List.find?_eq_none] at hn
  have hmem := List.mem_of_find?_eq_some h
  have hid : s.strategyId = id := by simpa using List.find?_some h
  have : (if s.status = StrategyStatus.ACTIVE ∧ s.strategyId ≠ id then markStopped s else s)
      ∈ (stopOthers id db).strategies := by
    rw [stopOthers_strategies]
    exact List.mem_map.mpr ⟨s, hmem, rfl⟩
  have h2 := hn _ this
  split_ifs at h2 <;> simp [markStopped, hid] at h2

/-- C18 (counterexample): the first order of the sample run is a FILLED BUY order; after
stop-live and a new start-live for the same strategy it is no longer in the ledger. -/
theorem restart_deletes_filled :
    (stoppedRun.orders[0]?).map (fun o => (o.type, o.status))
      = some (OrderType.BUY, OrderStatus.FILLED) ∧
    (startLive samplePow 5 none (some restartRequest) "user@example.com" stoppedRun).1
      = Response.ok ∧
    ∀ o ∈ (startLive samplePow 5 none (some restartRequest) "user@example.com" stoppedRun).2.orders,
      o.status = OrderStatus.PENDING := by
  decide!

/-- C18 (amended): an order that is FILLED or CANCELLED is kept unchanged, at its position,
by every `checkOrderFills` tick and every stop-live; start-live keeps it in the ledger
unchanged when it belongs to another strategy than the one started, or when the started
strategy is in the store and still has a PENDING order (otherwise start-live deletes all
orders of the started strategy before it seeds new ones). -/
theorem terminal_orders_kept (db : Store) (i : Nat) (o : GridOrder)
    (ho : db.orders[i]? = some o) (hnp : o.status ≠ OrderStatus.PENDING) :
    (∀ (now : Nat) (symbol : String) (p : ℚ),
      (checkOrderFills now symbol p db).orders[i]? = some o) ∧
    (∀ sid : String, (stopLive sid db).2.orders[i]? = some o) ∧
    (∀ (pow : ℚ → ℚ → ℚ) (now : Nat) (ltp : Option ℚ) (req : StartLiveRequest)
        (userEmail : String),
      (o.strategyId ≠ req.id ∨
        (db.strategies.find? (fun s => decide (s.strategyId = req.id)) ≠ none ∧
          ∃ x ∈ db.orders, x.strategyId = req.id ∧ x.status = OrderStatus.PENDING)) →
      o ∈ (startLive pow now ltp (some req) userEmail db).2.orders) := by
  refine ⟨?_, ?_, ?_⟩
  · intro now symbol p
    exact checkOrderFills_keep now symbol p db i o ho hnp
  · intro sid
    unfold stopLive
    split_ifs
    · exact ho
    · split
      · exact ho
      · exact cancelPending_keep sid db.orders i o ho hnp
  · intro pow now ltp req userEmail hcond
    by_cases hmail : userEmail = ""
    · have : startLive pow now ltp (some req) userEmail db = (Response.badRequest, db) := by
        unfold startLive
        simp only [hmail, if_true]
      rw [this]
      exact List.getElem?_mem ho
    · have h1 : o ∈ (stopOthers req.id db).orders :=
        List.getElem?_mem (stopOthers_orders_keep req.id db i o ho (Or.inl hnp))
      rcases startLive_cases pow now ltp req userEmail db hmail with
        ⟨_, _, he⟩ | ⟨hf, _, he⟩ | ⟨found, hf, hlen, he⟩ | ⟨found, hf, _, he⟩
      · rw [he]; exact h1
      · rw [he]
        rcases hcond with hne | ⟨hsome, _⟩
        · exact createGridOrders_keeps now _ _ o h1 hne
        · exfalso
          cases hdb : db.strategies.find? (fun s => decide (s.strategyId = req.id)) with
          | none => exact hsome hdb
          | some s => exact stopOthers_find?_some req.id db s hdb hf
      · rw [he]
        have hfid : found.strategyId = req.id := by
          simpa using List.find?_some hf
        rcases hcond with hne | ⟨_, x, hx, hxid, hxp⟩
        · exact createGridOrders_keeps now _ _ o h1 (by
            show o.strategyId ≠ found.strategyId
            rw [hfid]; exact hne)
        · exfalso
          obtain ⟨j, hj⟩ := List.mem_iff_getElem?.mp hx
          have h2 := stopOthers_orders_keep req.id db j x hj (Or.inr hxid)
          have h3 : (j, x) ∈ findPending req.id (stopOthers req.id db).orders :=
            (mem_findPending _ _ (j, x)).mpr ⟨h2, hxid, hxp⟩
          rw [List.length_eq_zero] at hlen
          rw [hlen] at h3
          simp at h3
      · rw [he]; exact h1

/-- C18 (witness): the FILLED BUY order at position 0 of the sample run. -/
theorem terminal_orders_kept_witness :
    (checkOrderFills 5 "SBIN" 100 driftRun).orders[0]? = driftRun.orders[0]? ∧
    (stopLive "GRID_1" driftRun).2.orders[0]? = driftRun.orders[0]? := by
  have h := terminal_orders_kept driftRun 0 (driftRun.orders.headD filledBuy)
    (by decide!) (by decide!)
  have h0 : driftRun.orders[0]? = some (driftRun.orders.headD filledBuy) := by decide!
  rw [h0]
  exact ⟨h.1 5 "SBIN" 100, h.2.1 "GRID_1"⟩
/-! ## Creation and start of a strategy that the store does not have -/

/-- C19 (counterexample): a creation request with `levels = 0` is answered with success and
a strategy with an empty `gridLevels` sequence is persisted. -/
theorem createStrategy_no_validation :
    (createStrategy samplePow "GRID_9" "SBIN" (some emptyGridConfig)
        { strategies := [], orders := [] }).1 = Response.ok ∧
    (createStrategy samplePow "GRID_9" "SBIN" (some emptyGridConfig)
        { strategies := [], orders := [] }).2.strategies.map (fun s => (s.strategyId, s.gridLevels))
      = [("GRID_9", [])] := by
  decide!

/-- C19 (amended): a creation request is rejected, with nothing persisted, exactly when
its symbol or its config is missing; a request with both (and a fresh id) is answered with
success and the strategy is persisted with `gridLevels = calculateGridLevels(config)`,
which is the empty sequence when `levels ≤ 0` or `upperPrice ≤ lowerPrice`. -/
theorem createStrategy_spec (pow : ℚ → ℚ → ℚ) (strategyId symbol : String)
    (config : Option GridConfig) (db : Store) :
    (symbol = "" ∨ config = none →
      createStrategy pow strategyId symbol config db = (Response.badRequest, db)) ∧
    (∀ c : GridConfig, config = some c → symbol ≠ "" →
      (∀ s ∈ db.strategies, s.strategyId ≠ strategyId) →
      createStrategy pow strategyId symbol config db
        = (Response.ok,
            { db with strategies := db.strategies ++
                [{ strategyId := strategyId, symbol := symbol, config := c,
                   gridLevels := calculateGridLevels pow c,
                   monitoring := { totalInvestment := c.investment,
                                   currentValue := c.investment } }] }) ∧
      (c.levels ≤ 0 ∨ c.upperPrice ≤ c.lowerPrice → calculateGridLevels pow c = [])) := by
  constructor
  · intro h
    unfold createStrategy
    cases config with
    | none => rfl
    | some c =>
      rcases h with h | h
      · simp only [h, if_true]
      · exact Option.noConfusion h
  · intro c hc hsym hfresh
    subst hc
    constructor
    · unfold createStrategy
      simp only [hsym, if_false]
      have hany : (db.strategies.any (fun s => decide (s.strategyId = strategyId))) = false := by
        rw [List.any_eq_false]
        intro s hs
        simpa using hfresh s hs
      rw [hany]
      simp
    · intro h
      unfold calculateGridLevels
      have hn : ¬ (0 < c.levels ∧ c.lowerPrice < c.upperPrice) := by
        rintro ⟨h1, h2⟩
        rcases h with h | h <;> linarith
      simp [hn]

/-- C19 (witness): the request with `levels = 0` on the empty store. -/
theorem createStrategy_spec_witness :
    createStrategy samplePow "GRID_9" "SBIN" (some emptyGridConfig)
        { strategies := [], orders := [] }
      = (Response.ok,
          { strategies :=
              [{ strategyId := "GRID_9", symbol := "SBIN", config := emptyGridConfig,
                 gridLevels := calculateGridLevels samplePow emptyGridConfig,
                 monitoring := { totalInvestment := emptyGridConfig.investment,
                                 currentValue := emptyGridConfig.investment } }],
            orders := [] }) ∧
    calculateGridLevels samplePow emptyGridConfig = [] := by
  have h := (createStrategy_spec samplePow "GRID_9" "SBIN" (some emptyGridConfig)
    { strategies := [], orders := [] }).2 emptyGridConfig rfl (by decide) (by simp)
  exact ⟨h.1, h.2 (Or.inl (by decide!))⟩

/-- C20 (counterexample): start-live for an id that the empty store does not have is
answered with success; afterwards the store has that strategy, ACTIVE, and three PENDING
orders of it. -/
theorem startLive_unknown_creates :
    (startLive samplePow 1 (some 104) (some restartRequest) "user@example.com"
        { strategies := [], orders := [] }).1 = Response.ok ∧
    (startLive samplePow 1 (some 104) (some restartRequest) "user@example.com"
        { strategies := [], orders := [] }).2.strategies.map (fun s => (s.strategyId, s.status))
      = [("GRID_1", StrategyStatus.ACTIVE)] ∧
    (startLive samplePow 1 (some 104) (some restartRequest) "user@example.com"
        { strategies := [], orders := [] }).2.orders.map
        (fun o => (o.strategyId, o.type, o.price, o.status))
      = [("GRID_1", OrderType.BUY, 205 / 2, OrderStatus.PENDING),
         ("GRID_1", OrderType.SELL, 105, OrderStatus.PENDING),
         ("GRID_1", OrderType.SELL, 215 / 2, OrderStatus.PENDING)] := by
  decide!

/-! ## DCA gating, execution and monitoring -/

/-- C14: `shouldExecuteDCAOrder(strategy, now)` returns false exactly when `now` is before
`monitoring.nextOrderTime`, or `endCondition` is `orderCount` and `executedOrders ≥ maxOrders`,
or `enableStopLoss` and `roi ≤ -stopLoss`, or `enableTakeProfit` and `roi ≥ takeProfit`; it
returns true otherwise. With `enableStopLoss` and `stopLoss = 5` it returns false for every
`roi ≤ -5`, whatever `nextOrderTime` is. -/
theorem shouldExecuteDCAOrder_spec (strategy : DCAStrategy) (now : Nat) :
    (shouldExecuteDCAOrder strategy now = false ↔
      (∃ t, strategy.monitoring.nextOrderTime = some t ∧ now < t) ∨
      (strategy.config.endCondition = EndCondition.orderCount ∧
        (strategy.monitoring.executedOrders : ℚ) ≥ strategy.config.maxOrders) ∨
      (strategy.config.enableStopLoss = true ∧
        strategy.monitoring.roi ≤ -strategy.config.stopLoss) ∨
      (strategy.config.enableTakeProfit = true ∧
        strategy.monitoring.roi ≥ strategy.config.takeProfit)) ∧
    (shouldExecuteDCAOrder strategy now = true ∨ shouldExecuteDCAOrder strategy now = false) ∧
    (strategy.config.enableStopLoss = true → strategy.config.stopLoss = 5 →
      strategy.monitoring.roi ≤ -5 → shouldExecuteDCAOrder strategy now = false) := by
  have hb : beforeNextOrder strategy.monitoring.nextOrderTime now ↔
      ∃ t, strategy.monitoring.nextOrderTime = some t ∧ now < t := by
    unfold beforeNextOrder
    cases strategy.monitoring.nextOrderTime with
    | none => simp
    | some t => simp
  have hiff : shouldExecuteDCAOrder strategy now = false ↔
      (∃ t, strategy.monitoring.nextOrderTime = some t ∧ now < t) ∨
      (strategy.config.endCondition = EndCondition.orderCount ∧
        (strategy.monitoring.executedOrders : ℚ) ≥ strategy.config.maxOrders) ∨
      (strategy.config.enableStopLoss = true ∧
        strategy.monitoring.roi ≤ -strategy.config.stopLoss) ∨
      (strategy.config.enableTakeProfit = true ∧
        strategy.monitoring.roi ≥ strategy.config.takeProfit) := by
    rw [← hb]
    unfold shouldExecuteDCAOrder
    split_ifs with h1 h2 h3 h4
    · exact ⟨fun _ => Or.inl h1, fun _ => rfl⟩
    · exact ⟨fun _ => Or.inr (Or.inl h2), fun _ => rfl⟩
    · exact ⟨fun _ => Or.inr (Or.inr (Or.inl h3)), fun _ => rfl⟩
    · exact ⟨fun _ => Or.inr (Or.inr (Or.inr h4)), fun _ => rfl⟩
    · constructor
      · intro h; cases h
      · rintro (h | h | h | h)
        · exact absurd h h1
        · exact absurd h h2
        · exact absurd h h3
        · exact absurd h h4
  refine ⟨hiff, ?_, ?_⟩
  · cases shouldExecuteDCAOrder strategy now
    · exact Or.inr rfl
    · exact Or.inl rfl
  · intro he hs hr
    apply hiff.mpr
    right; right; left
    exact ⟨he, by rw [hs]; exact hr⟩

/-- C14 (witness): the sample strategy at a loss of six per cent does not execute although
its next order time (10) has elapsed at time 1000. -/
theorem shouldExecuteDCAOrder_spec_witness :
    shouldExecuteDCAOrder dcaLosing 1000 = false ∧ shouldExecuteDCAOrder dcaSample 1000 = true :=
  ⟨(shouldExecuteDCAOrder_spec dcaLosing 1000).2.2 rfl rfl (by decide!), by decide!⟩

theorem updateDCAMonitoring_orders (now : Nat) (sid : String) (o : DCAOrder) (db : DCAStore) :
    (updateDCAMonitoring now sid o db).orders = db.orders := rfl

/-- C15: `executeDCAOrder(strategy, currentPrice)` with `currentPrice > 0` appends exactly
one order to the ledger, with status EXECUTED, `price = fillPrice = currentPrice`,
`quantity = investmentAmount / currentPrice` and `amount = investmentAmount`, so that
`amount = price * quantity`. -/
theorem executeDCAOrder_spec (now : Nat) (strategy : DCAStrategy) (currentPrice : ℚ)
    (db : DCAStore) (hp : 0 < currentPrice) :
    ∃ o, (executeDCAOrder now strategy currentPrice db).orders = db.orders ++ [o] ∧
      o.status = DCAOrderStatus.EXECUTED ∧ o.price = currentPrice ∧
      o.fillPrice = some currentPrice ∧
      o.quantity = strategy.config.investmentAmount / currentPrice ∧
      o.amount = strategy.config.investmentAmount ∧ o.amount = o.price * o.quantity ∧
      o.strategyId = strategy.strategyId := by
  refine ⟨newDCAOrder now strategy currentPrice, rfl, rfl, rfl, rfl, rfl, rfl, ?_, rfl⟩
  show strategy.config.investmentAmount
    = currentPrice * (strategy.config.investmentAmount / currentPrice)
  field_simp

/-- C15 (witness): the sample strategy buys for 1000 at the price 100. -/
theorem executeDCAOrder_spec_witness :
    ∃ o, (executeDCAOrder 1 dcaSample 100 dcaStore).orders = dcaStore.orders ++ [o] ∧
      o.status = DCAOrderStatus.EXECUTED ∧ o.quantity = 10 ∧ o.amount = 1000 := by
  obtain ⟨o, h1, h2, _, _, h5, h6, _⟩ := executeDCAOrder_spec 1 dcaSample 100 dcaStore (by norm_num)
  refine ⟨o, h1, h2, ?_, ?_⟩
  · rw [h5]; decide!
  · rw [h6]; decide!

theorem foldl_add_eq_sum {α : Type} (f : α → ℚ) (l : List α) (a : ℚ) :
    l.foldl (fun sum x => sum + f x) a = a + (l.map f).sum := by
  induction l generalizing a with
  | nil => simp
  | cons x l ih =>
    rw [List.foldl_cons, ih, List.map_cons, List.sum_cons]
    ring

/-- C16 (counterexample): a strategy with `investmentAmount = -100` executes one order at
100 while the live price is 110. The totals are `totalInvestment = -100` and
`totalQuantity = -1`, yet `averagePrice` is 0 (not `-100 / -1 = 100`) and `roi` is 0 (not
`(-10 / -100) * 100 = 10`). -/
theorem dca_monitoring_negative_totals :
    (executeDCAOrder 1 dcaNegative 100 dcaStore).strategies.map
      (fun s => (s.strategyId, s.monitoring.totalInvestment, s.monitoring.totalQuantity,
        s.monitoring.averagePrice, s.monitoring.totalPnL, s.monitoring.roi))
      = [("DCA_1", 0, 0, 0, 0, 0), ("DCA_2", -100, -1, 0, -10, 0)] := by
  decide!

/-- C16 (amended): `updateDCAMonitoring` recomputes the aggregate from the ledger:
`totalInvestment` and `totalQuantity` are the sums of `amount` and `quantity` over the
strategy's EXECUTED orders, `executedOrders` their number, `averagePrice` is
`totalInvestment / totalQuantity` when `totalQuantity > 0` and 0 otherwise, `currentValue`
is `totalQuantity` times the latest price, `totalPnL = currentValue - totalInvestment`,
`roi = totalPnL / totalInvestment * 100` when `totalInvestment > 0` and 0 otherwise, and
`nextOrderTime` is the `fillTime` of the new order plus the frequency in its unit. -/
theorem updateDCAMonitoring_spec (now : Nat) (sid : String) (newOrder : DCAOrder)
    (db : DCAStore) (s : DCAStrategy) (t : Nat)
    (hs : db.strategies.find? (fun s => decide (s.strategyId = sid)) = some s)
    (ht : newOrder.fillTime = some t) :
    ∃ s1, (updateDCAMonitoring now sid newOrder db).strategies.find?
        (fun s => decide (s.strategyId = sid)) = some s1 ∧
      s1.monitoring.totalInvestment
        = ((executedOrdersOf sid db.orders).map (fun o => o.amount)).sum ∧
      s1.monitoring.totalQuantity
        = ((executedOrdersOf sid db.orders).map (fun o => o.quantity)).sum ∧
      s1.monitoring.executedOrders = (executedOrdersOf sid db.orders).length ∧
      s1.monitoring.averagePrice
        = (if s1.monitoring.totalQuantity > 0 then
            s1.monitoring.totalInvestment / s1.monitoring.totalQuantity else 0) ∧
      s1.monitoring.currentValue
        = s1.monitoring.totalQuantity * latestPrice db.liveData s.symbol newOrder ∧
      s1.monitoring.totalPnL = s1.monitoring.currentValue - s1.monitoring.totalInvestment ∧
      s1.monitoring.roi
        = (if s1.monitoring.totalInvestment > 0 then
            s1.monitoring.totalPnL / s1.monitoring.totalInvestment * 100 else 0) ∧
      s1.monitoring.nextOrderTime
        = some (match s.config.frequencyUnit with
                | FrequencyUnit.minutes => t + s.config.frequency * 60000
                | FrequencyUnit.hours => t + s.config.frequency * 3600000
                | FrequencyUnit.days => t + s.config.frequency * 86400000) := by
  have h1 := find?_updateFirst (fun s : DCAStrategy => decide (s.strategyId = sid))
    (fun s => { s with monitoring :=
      (recomputeDCAMonitoring now (executedOrdersOf sid db.orders)
        (latestPrice db.liveData s.symbol newOrder) newOrder s.config s.monitoring) })
    (fun a ha => ha) db.strategies s hs
  refine ⟨_, h1, ?_, ?_, rfl, rfl, rfl, rfl, rfl, ?_⟩
  · simp only [recomputeDCAMonitoring, foldl_add_eq_sum, zero_add]
  · simp only [recomputeDCAMonitoring, foldl_add_eq_sum, zero_add]
  · simp only [recomputeDCAMonitoring, calculateNextOrderTime, ht, Option.getD_some]

/-- C16 (witness): the monitoring of the sample strategy after one order of 1000 at 100,
the live price being 110. -/
theorem updateDCAMonitoring_spec_witness :
    (executeDCAOrder 1 dcaSample 100 dcaStore).strategies.map
      (fun s => (s.strategyId, s.monitoring.totalInvestment, s.monitoring.totalQuantity,
        s.monitoring.averagePrice, s.monitoring.roi))
      = [("DCA_1", 1000, 10, 100, 10), ("DCA_2", 0, 0, 0, 0)] ∧
    (executeDCAOrder 1 dcaSample 100 dcaStore).strategies.map
      (fun s => s.monitoring.nextOrderTime) = [some 300001, some 0] ∧
    ∃ s1, (updateDCAMonitoring 1 "DCA_1" (newDCAOrder 1 dcaSample 100)
        { dcaStore with orders := [newDCAOrder 1 dcaSample 100] }).strategies.find?
        (fun s => decide (s.strategyId = "DCA_1")) = some s1 ∧
      s1.monitoring.totalInvestment
        = ((executedOrdersOf "DCA_1" [newDCAOrder 1 dcaSample 100]).map (fun o => o.amount)).sum := by
  refine ⟨by decide!, by decide!, ?_⟩
  obtain ⟨s1, h1, h2, _⟩ := updateDCAMonitoring_spec 1 "DCA_1" (newDCAOrder 1 dcaSample 100)
    { dcaStore with orders := [newDCAOrder 1 dcaSample 100] } dcaSample 1 rfl rfl
  exact ⟨s1, h1, h2⟩
/-! ## Grid monitoring record -/

theorem toFixed_zero (d : Nat) : toFixed d 0 = 0 := by
  unfold toFixed roundHalfAway
  norm_num

/-- C17 (counterexample): a strategy created with `investment = -1000` has, after two SELL
fills, `totalInvestment = -1000` and a stored `totalPnL = 5`; the stored `roi` is 0, not
`5.002 / -1000 * 100` rounded to two decimals (which is -0.5). -/
theorem grid_roi_negative_investment :
    negativeRun.strategies.map
      (fun s => (s.monitoring.totalInvestment, s.monitoring.totalPnL, s.monitoring.roi,
        s.monitoring.currentValue))
      = [(-1000, 5, 0, -995)] ∧
    toFixed 2 (sumPnl (ordersOf "GRID_N" negativeRun.orders) / -1000 * 100) = -1 / 2 := by
  decide!

/-- C17 (amended): `updateGridMonitoringData` replaces the monitoring record of the
strategy by the old one with `filledOrders` and `pendingOrders` set to the numbers of
FILLED and PENDING orders of the strategy, `totalPnL` to the sum of their `pnl`,
`currentValue` to `totalInvestment + totalPnL`, `roi` to `totalPnL / totalInvestment * 100`
when `totalInvestment > 0` and to 0 when `totalInvestment ≤ 0` (the three values rounded to
two decimals), and `lastUpdate` to the clock; every other field is unchanged. -/
theorem updateGridMonitoringData_spec (now : Nat) (sid : String) (db : Store)
    (s : GridStrategy)
    (hs : db.strategies.find? (fun s => decide (s.strategyId = sid)) = some s) :
    (updateGridMonitoringData now sid db).strategies.find?
        (fun s => decide (s.strategyId = sid))
      = some { s with monitoring :=
          { s.monitoring with
            totalPnL := toFixed 2 (((ordersOf sid db.orders).map (fun o => o.pnl)).sum),
            roi := toFixed 2
              (if s.monitoring.totalInvestment > 0 then
                ((ordersOf sid db.orders).map (fun o => o.pnl)).sum
                  / s.monitoring.totalInvestment * 100
               else 0),
            filledOrders := ((ordersOf sid db.orders).filter
              (fun o => decide (o.status = OrderStatus.FILLED))).length,
            pendingOrders := ((ordersOf sid db.orders).filter
              (fun o => decide (o.status = OrderStatus.PENDING))).length,
            currentValue := toFixed 2 (s.monitoring.totalInvestment
              + ((ordersOf sid db.orders).map (fun o => o.pnl)).sum),
            lastUpdate := now } } ∧
    (s.monitoring.totalInvestment ≤ 0 →
      ∃ s1, (updateGridMonitoringData now sid db).strategies.find?
          (fun s => decide (s.strategyId = sid)) = some s1 ∧ s1.monitoring.roi = 0) ∧
    (updateGridMonitoringData now sid db).orders = db.orders := by
  have h1 := find?_updateFirst (fun s : GridStrategy => decide (s.strategyId = sid))
    (fun s => { s with monitoring := (recomputeMonitoring now
      (db.orders.filter (fun o => decide (o.strategyId = sid))) s.monitoring) })
    (fun a ha => ha) db.strategies s hs
  have h2 : (updateGridMonitoringData now sid db).strategies.find?
        (fun s => decide (s.strategyId = sid))
      = some { s with monitoring := (recomputeMonitoring now
          (db.orders.filter (fun o => decide (o.strategyId = sid))) s.monitoring) } := h1
  refine ⟨?_, ?_, rfl⟩
  · rw [h2]
    simp only [recomputeMonitoring, sumPnl_eq, ordersOf]
  · intro hle
    refine ⟨_, h2, ?_⟩
    simp only [recomputeMonitoring]
    rw [if_neg (not_lt.mpr hle), toFixed_zero]

/-- C17 (witness): the strategy of the run with the negative investment. -/
theorem updateGridMonitoringData_spec_witness :
    ∃ s1, (updateGridMonitoringData 4 "GRID_N" negativeRun).strategies.find?
        (fun s => decide (s.strategyId = "GRID_N")) = some s1 ∧ s1.monitoring.roi = 0 :=
  (updateGridMonitoringData_spec 4 "GRID_N" negativeRun
    (negativeRun.strategies.headD seedStrategy) (by decide!)).2.1 (by decide!)
/-! ## DCA start-live -/

theorem mem_modifyAt {α : Type} (f : α → α) (i : Nat) (l : List α) (y : α)
    (h : y ∈ modifyAt f i l) : y ∈ l ∨ ∃ x ∈ l, y = f x := by
  unfold modifyAt at h
  cases hi : l[i]? with
  | none =>
    rw [hi] at h
    exact Or.inl h
  | some a =>
    rw [hi] at h
    rcases List.mem_or_eq_of_mem_set h with h1 | h1
    · exact Or.inl h1
    · exact Or.inr ⟨a, List.getElem?_mem hi, h1⟩

theorem stopExistingDCA_fresh (id : String) (db : DCAStore) (is : Nat × DCAStrategy)
    (h : ∀ s ∈ db.strategies, s.strategyId ≠ id) :
    ∀ s ∈ (stopExistingDCA id db is).strategies, s.strategyId ≠ id := by
  unfold stopExistingDCA
  split_ifs
  · intro s hs
    rcases mem_modifyAt markStoppedDCA is.1 db.strategies s hs with h1 | ⟨x, hx, h1⟩
    · exact h s h1
    · rw [h1]
      exact h x hx
  · exact h

theorem stopExistingDCA_orders_length (id : String) (db : DCAStore) (is : Nat × DCAStrategy) :
    (stopExistingDCA id db is).orders.length = db.orders.length := by
  unfold stopExistingDCA
  split_ifs
  · simp [cancelPendingDCA]
  · rfl

theorem stopOthersDCA_fresh (id : String) (db : DCAStore)
    (h : ∀ s ∈ db.strategies, s.strategyId ≠ id) :
    (∀ s ∈ (stopOthersDCA id db).strategies, s.strategyId ≠ id) ∧
    (stopOthersDCA id db).orders.length = db.orders.length := by
  unfold stopOthersDCA
  generalize db.strategies.enum.filter
    (fun is => decide (is.2.status = StrategyStatus.ACTIVE)) = P
  induction P generalizing db with
  | nil => exact ⟨h, rfl⟩
  | cons a P ih =>
    rw [List.foldl_cons]
    obtain ⟨h1, h2⟩ := ih (stopExistingDCA id db a) (stopExistingDCA_fresh id db a h)
    exact ⟨h1, h2.trans (stopExistingDCA_orders_length id db a)⟩

/-- The DCA start-live for an id that the store does not have: the strategy is created
ACTIVE and registered, and no order is created. -/
theorem startLiveDCA_unknown (now : Nat) (req : DCAStartRequest) (userEmail : String)
    (db : DCAStore)
    (hnew : db.strategies.find? (fun s => decide (s.strategyId = req.id)) = none)
    (hmail : userEmail ≠ "") (hid : req.id ≠ "") (hsym : req.stockSymbol ≠ "") :
    (startLiveDCA now true (some req) userEmail db).1 = Response.ok ∧
    (startLiveDCA now true (some req) userEmail db).2.strategies
      = (stopOthersDCA req.id db).strategies ++ [newLiveDCAStrategy now req userEmail] ∧
    (startLiveDCA now true (some req) userEmail db).2.orders.length = db.orders.length ∧
    req.id ∈ (startLiveDCA now true (some req) userEmail db).2.cronJobs := by
  have hfresh : ∀ s ∈ db.strategies, s.strategyId ≠ req.id := by
    intro s hs
    have := List.find?_eq_none.mp hnew s hs
    simpa using this
  obtain ⟨h1, h2⟩ := stopOthersDCA_fresh req.id db hfresh
  have hnone : (stopOthersDCA req.id db).strategies.find?
      (fun s => decide (s.strategyId = req.id)) = none := by
    rw [List.find?_eq_none]
    intro s hs
    simpa using h1 s hs
  have he : startLiveDCA now true (some req) userEmail db
      = registerDCA true (newLiveDCAStrategy now req userEmail)
          { stopOthersDCA req.id db with
            strategies := (stopOthersDCA req.id db).strategies
              ++ [newLiveDCAStrategy now req userEmail] } := by
    unfold startLiveDCA
    simp only [hmail, if_false, hnone]
    rw [if_neg (by push_neg; exact ⟨hid, hsym⟩)]
  rw [he]
  refine ⟨rfl, rfl, h2, ?_⟩
  unfold registerDCA
  simp only [if_true]
  exact List.mem_append_right _ (List.mem_singleton.mpr rfl)
/-- C20 (amended): start-live for a strategy id that the store does not have (the body
carrying an e-mail address, a non-empty id and a symbol) is answered with success, not with
not-found. The grid route stops the other ACTIVE strategies, creates a strategy with that
id from the request with status ACTIVE and seeds its grid orders; the DCA route creates the
strategy with status ACTIVE and registers its timer, and creates no order. Stop-live for
such an id is answered with not-found and changes nothing. -/
theorem startLive_unknown (pow : ℚ → ℚ → ℚ) (now : Nat) (ltp : Option ℚ)
    (req : StartLiveRequest) (userEmail : String) (db : Store)
    (dreq : DCAStartRequest) (ddb : DCAStore)
    (hnew : db.strategies.find? (fun s => decide (s.strategyId = req.id)) = none)
    (hmail : userEmail ≠ "") (hid : req.id ≠ "") (hsym : req.stockSymbol ≠ "")
    (hdnew : ddb.strategies.find? (fun s => decide (s.strategyId = dreq.id)) = none)
    (hdid : dreq.id ≠ "") (hdsym : dreq.stockSymbol ≠ "") :
    startLive pow now ltp (some req) userEmail db
      = (Response.ok,
          createGridOrders now (newLiveStrategy pow now (startPrice ltp req.config) req userEmail)
            { stopOthers req.id db with
              strategies := (stopOthers req.id db).strategies ++
                [newLiveStrategy pow now (startPrice ltp req.config) req userEmail] }) ∧
    (startLive pow now ltp (some req) userEmail db).2.strategies
      = (stopOthers req.id db).strategies ++
          [newLiveStrategy pow now (startPrice ltp req.config) req userEmail] ∧
    (newLiveStrategy pow now (startPrice ltp req.config) req userEmail).status
      = StrategyStatus.ACTIVE ∧
    stopLive req.id db = (Response.notFound, db) ∧
    (startLiveDCA now true (some dreq) userEmail ddb).1 = Response.ok ∧
    (startLiveDCA now true (some dreq) userEmail ddb).2.strategies
      = (stopOthersDCA dreq.id ddb).strategies ++ [newLiveDCAStrategy now dreq userEmail] ∧
    (newLiveDCAStrategy now dreq userEmail).status = StrategyStatus.ACTIVE ∧
    (startLiveDCA now true (some dreq) userEmail ddb).2.orders.length = ddb.orders.length := by
  have h1 := stopOthers_find?_none req.id db hnew
  have he : startLive pow now ltp (some req) userEmail db
      = (Response.ok,
          createGridOrders now (newLiveStrategy pow now (startPrice ltp req.config) req userEmail)
            { stopOthers req.id db with
              strategies := (stopOthers req.id db).strategies ++
                [newLiveStrategy pow now (startPrice ltp req.config) req userEmail] }) := by
    rcases startLive_cases pow now ltp req userEmail db hmail with
      ⟨_, hv, _⟩ | ⟨_, _, he⟩ | ⟨found, hf, _, _⟩ | ⟨found, hf, _, _⟩
    · rcases hv with hv | hv
      · exact absurd hv hid
      · exact absurd hv hsym
    · exact he
    · rw [h1] at hf; exact Option.noConfusion hf
    · rw [h1] at hf; exact Option.noConfusion hf
  have hd := startLiveDCA_unknown now dreq userEmail ddb hdnew hmail hdid hdsym
  refine ⟨he, ?_, rfl, ?_, hd.1, hd.2.1, rfl, hd.2.2.1⟩
  · rw [he]; rfl
  · unfold stopLive
    rw [if_neg hid, hnew]

/-- C20 (witness): the request for `GRID_1` on the empty grid store, and the request for
`DCA_3` on the sample DCA store. -/
theorem startLive_unknown_witness :
    (startLive samplePow 1 (some 104) (some restartRequest) "user@example.com"
        { strategies := [], orders := [] }).1 = Response.ok ∧
    stopLive restartRequest.id { strategies := [], orders := [] }
      = (Response.notFound, { strategies := [], orders := [] }) ∧
    (startLiveDCA 1 true (some dcaRequest) "user@example.com" dcaStore).1 = Response.ok := by
  have h := startLive_unknown samplePow 1 (some 104) restartRequest "user@example.com"
    { strategies := [], orders := [] } dcaRequest dcaStore rfl (by decide) (by decide)
    (by decide) (by decide!) (by decide) (by decide)
  refine ⟨?_, h.2.2.2.1, h.2.2.2.2.1⟩
  rw [h.1]

/-! ## Ticks with a non-positive price -/

theorem orElse_nonpos {a b : ℚ} (ha : a ≤ 0) (hb : b ≤ 0) : orElse a b ≤ 0 := by
  unfold orElse
  split_ifs
  · exact hb
  · exact ha

/-- Every update that the data service emits carries a positive price. -/
theorem handleLiveTick_pos (stocks : List (String × String)) (tick : RawTick)
    (u : String × ℚ) (h : handleLiveTick stocks tick = some u) : 0 < u.2 := by
  unfold handleLiveTick at h
  cases hf : stocks.find? (fun e => decide (e.2 = tick.token)) with
  | none =>
    rw [hf] at h
    exact Option.noConfusion h
  | some stock =>
    rw [hf] at h
    simp only at h
    split_ifs at h with h1 h2 h2
    · have := Option.some.inj h
      rw [← this]
      exact not_le.mp h2
    · have := Option.some.inj h
      rw [← this]
      exact not_le.mp h2

/-- C21: a tick of the feed whose price is zero or negative (no field that may carry the
last traded price is positive) is ignored: `handleLiveTick` of the data service returns
before it stores or emits anything, so on the way through the `live_data` handler,
`monitorGridOrderFills` and `checkOrderFills` the store stays as it is: no order is filled,
none is created and no strategy changes. Every update that the data service does emit has
a positive price, and `monitorGridOrderFills` itself leaves the store alone at the
price 0. -/
theorem nonpositive_tick_ignored (now : Nat) (serviceReady : Bool)
    (stocks : List (String × String)) (tick : RawTick) (db : Store)
    (h1 : tick.last_traded_price ≤ 0) (h2 : tick.ltp ≤ 0) (h3 : tick.lastTradedPrice ≤ 0) :
    handleLiveTick stocks tick = none ∧
    gridTick now serviceReady stocks tick db = db ∧
    (∀ (t : RawTick) (u : String × ℚ), handleLiveTick stocks t = some u → 0 < u.2) ∧
    (∀ symbol : String, monitorGridOrderFills now serviceReady symbol 0 db = db) := by
  have hnone : handleLiveTick stocks tick = none := by
    cases hc : handleLiveTick stocks tick with
    | none => rfl
    | some u =>
      exfalso
      unfold handleLiveTick at hc
      cases hf : stocks.find? (fun e => decide (e.2 = tick.token)) with
      | none =>
        rw [hf] at hc
        exact Option.noConfusion hc
      | some stock =>
        rw [hf] at hc
        simp only at hc
        have hle : orElse tick.last_traded_price
            (orElse tick.ltp (orElse tick.lastTradedPrice 0)) ≤ 0 :=
          orElse_nonpos h1 (orElse_nonpos h2 (orElse_nonpos h3 (le_refl _)))
        have hfin : (if orElse tick.last_traded_price
              (orElse tick.ltp (orElse tick.lastTradedPrice 0)) > 10000 then
            orElse tick.last_traded_price (orElse tick.ltp (orElse tick.lastTradedPrice 0)) / 100
          else orElse tick.last_traded_price
            (orElse tick.ltp (orElse tick.lastTradedPrice 0))) ≤ 0 := by
          rw [if_neg (by linarith)]
          exact hle
        rw [if_pos hfin] at hc
        exact Option.noConfusion hc
  refine ⟨hnone, ?_, fun t u h => handleLiveTick_pos stocks t u h, ?_⟩
  · unfold gridTick
    rw [hnone]
  · intro symbol
    unfold monitorGridOrderFills
    rw [if_neg (fun hc => hc.2 rfl)]

/-- C21 (witness): a tick for the token of `"SBIN"` with `lastTradedPrice = -1` leaves the
sample store, with its PENDING BUY at 100, as it is; the tick at 100 fills that order. -/
theorem nonpositive_tick_ignored_witness :
    gridTick 1 true sampleStocks { token := "3045", lastTradedPrice := -1 } sampleStore
      = sampleStore ∧
    (gridTick 1 true sampleStocks { token := "3045", lastTradedPrice := 100 }
        sampleStore).orders.map (fun o => (o.type, o.status))
      = [(OrderType.BUY, OrderStatus.FILLED), (OrderType.SELL, OrderStatus.PENDING)] :=
  ⟨(nonpositive_tick_ignored 1 true sampleStocks { token := "3045", lastTradedPrice := -1 }
      sampleStore (le_refl _) (le_refl _) (by norm_num)).2.1, by decide!⟩
/-! ## DCA start-live stops the other strategies -/

theorem stopExistingDCA_strategies_get (id : String) (db : DCAStore) (is : Nat × DCAStrategy)
    (k : Nat) :
    (stopExistingDCA id db is).strategies[k]?
      = if k = is.1 ∧ is.2.strategyId ≠ id then db.strategies[k]?.map markStoppedDCA
        else db.strategies[k]? := by
  unfold stopExistingDCA
  by_cases h : is.2.strategyId ≠ id
  · rw [if_pos h]
    simp only [modifyAt_get]
    by_cases hk : k = is.1
    · rw [if_pos hk, if_pos ⟨hk, h⟩]
    · rw [if_neg hk, if_neg (fun hc => hk hc.1)]
  · rw [if_neg h, if_neg (fun hc => h hc.2)]

theorem foldl_stopExistingDCA_strategies (id : String) (P : List (Nat × DCAStrategy))
    (db : DCAStore) (k : Nat) (s : DCAStrategy) (hs : db.strategies[k]? = some s) :
    ((∃ is ∈ P, is.1 = k ∧ is.2.strategyId ≠ id) →
      (P.foldl (stopExistingDCA id) db).strategies[k]? = some (markStoppedDCA s)) ∧
    ((∀ is ∈ P, is.1 = k → is.2.strategyId = id) →
      (P.foldl (stopExistingDCA id) db).strategies[k]? = some s) := by
  induction P generalizing db s with
  | nil =>
    constructor
    · rintro ⟨is, his, _⟩; simp at his
    · intro _; exact hs
  | cons a P ih =>
    rw [List.foldl_cons]
    have h1 := stopExistingDCA_strategies_get id db a k
    by_cases hc : k = a.1 ∧ a.2.strategyId ≠ id
    · rw [if_pos hc, hs, Option.map_some'] at h1
      have ih1 := ih (stopExistingDCA id db a) (markStoppedDCA s) h1
      constructor
      · intro _
        by_cases hrest : ∃ is ∈ P, is.1 = k ∧ is.2.strategyId ≠ id
        · exact ih1.1 hrest
        · push_neg at hrest
          exact ih1.2 hrest
      · intro hall
        exact absurd (hall a (List.mem_cons_self _ _) hc.1.symm) hc.2
    · rw [if_neg hc, hs] at h1
      have ih1 := ih (stopExistingDCA id db a) s h1
      constructor
      · rintro ⟨is, his, hk, hne⟩
        rcases List.mem_cons.mp his with h | h
        · subst h; exact absurd ⟨hk.symm, hne⟩ hc
        · exact ih1.1 ⟨is, h, hk, hne⟩
      · intro hall
        exact ih1.2 (fun is his => hall is (List.mem_cons_of_mem _ his))

theorem foldl_stopExistingDCA_strategies_none (id : String) (P : List (Nat × DCAStrategy))
    (db : DCAStore) (k : Nat) (hs : db.strategies[k]? = none) :
    (P.foldl (stopExistingDCA id) db).strategies[k]? = none := by
  induction P generalizing db with
  | nil => exact hs
  | cons a P ih =>
    rw [List.foldl_cons]
    apply ih
    rw [stopExistingDCA_strategies_get, hs]
    simp

/-- What the first part of the DCA start-live does to the strategies: exactly the ACTIVE
ones with another id are marked STOPPED. -/
theorem stopOthersDCA_strategies (id : String) (db : DCAStore) :
    (stopOthersDCA id db).strategies
      = db.strategies.map (fun s =>
          if s.status = StrategyStatus.ACTIVE ∧ s.strategyId ≠ id then markStoppedDCA s
          else s) := by
  apply List.ext_getElem?
  intro k
  rw [List.getElem?_map]
  unfold stopOthersDCA
  cases hs : db.strategies[k]? with
  | none => exact foldl_stopExistingDCA_strategies_none id _ db k hs
  | some s =>
    rw [Option.map_some']
    obtain ⟨hA, hB⟩ := foldl_stopExistingDCA_strategies id
      (db.strategies.enum.filter (fun is => decide (is.2.status = StrategyStatus.ACTIVE)))
      db k s hs
    by_cases hc : s.status = StrategyStatus.ACTIVE ∧ s.strategyId ≠ id
    · rw [if_pos hc]
      apply hA
      refine ⟨(k, s), ?_, rfl, hc.2⟩
      rw [List.mem_filter, List.mem_enum_iff_getElem?]
      exact ⟨hs, by simp [hc.1]⟩
    · rw [if_neg hc]
      apply hB
      intro is his hk
      rw [List.mem_filter, List.mem_enum_iff_getElem?] at his
      have hact : is.2.status = StrategyStatus.ACTIVE := by simpa using his.2
      have heq : is.2 = s := by
        have h3 := his.1
        rw [hk, hs] at h3
        exact (Option.some.inj h3).symm
      rw [heq] at hact ⊢
      by_contra hne
      exact hc ⟨hact, hne⟩

theorem stopOthersDCA_active (id : String) (db : DCAStore) (s : DCAStrategy)
    (hs : s ∈ (stopOthersDCA id db).strategies) (hact : s.status = StrategyStatus.ACTIVE) :
    s.strategyId = id := by
  rw [stopOthersDCA_strategies] at hs
  obtain ⟨x, _, hx⟩ := List.mem_map.mp hs
  split_ifs at hx with hc
  · rw [← hx] at hact
    exact StrategyStatus.noConfusion hact
  · rw [← hx] at hact ⊢
    by_contra hne
    exact hc ⟨hact, hne⟩

/-- The loop of the DCA start-live only removes timers and map entries. -/
theorem foldl_stopExistingDCA_registered (id : String) (P : List (Nat × DCAStrategy))
    (db : DCAStore) :
    (∀ j ∈ (P.foldl (stopExistingDCA id) db).cronJobs, j ∈ db.cronJobs) ∧
    (∀ e ∈ (P.foldl (stopExistingDCA id) db).activeStrategies, e ∈ db.activeStrategies) := by
  induction P generalizing db with
  | nil => exact ⟨fun _ h => h, fun _ h => h⟩
  | cons a P ih =>
    rw [List.foldl_cons]
    obtain ⟨h1, h2⟩ := ih (stopExistingDCA id db a)
    have h3 : (∀ j ∈ (stopExistingDCA id db a).cronJobs, j ∈ db.cronJobs) ∧
        (∀ e ∈ (stopExistingDCA id db a).activeStrategies, e ∈ db.activeStrategies) := by
      unfold stopExistingDCA
      split_ifs
      · exact ⟨fun j hj => (List.mem_filter.mp hj).1, fun e he => (List.mem_filter.mp he).1⟩
      · exact ⟨fun _ h => h, fun _ h => h⟩
    exact ⟨fun j hj => h3.1 j (h1 j hj), fun e he => h3.2 e (h2 e he)⟩

/-- A strategy with another id that the loop visits has no timer and no map entry
afterwards. -/
theorem foldl_stopExistingDCA_unregisters (id sid : String) (P : List (Nat × DCAStrategy))
    (db : DCAStore) (hP : ∃ is ∈ P, is.2.strategyId = sid) (hne : sid ≠ id) :
    sid ∉ (P.foldl (stopExistingDCA id) db).cronJobs ∧
    ∀ e ∈ (P.foldl (stopExistingDCA id) db).activeStrategies, e.1 ≠ sid := by
  induction P generalizing db with
  | nil =>
    obtain ⟨is, his, _⟩ := hP
    simp at his
  | cons a P ih =>
    rw [List.foldl_cons]
    by_cases ha : a.2.strategyId = sid
    · obtain ⟨h1, h2⟩ := foldl_stopExistingDCA_registered id P (stopExistingDCA id db a)
      have h3 : sid ∉ (stopExistingDCA id db a).cronJobs ∧
          ∀ e ∈ (stopExistingDCA id db a).activeStrategies, e.1 ≠ sid := by
        unfold stopExistingDCA
        rw [if_pos (by rw [ha]; exact hne)]
        constructor
        · intro hj
          have := (List.mem_filter.mp hj).2
          rw [ha] at this
          simp at this
        · intro e he
          have := (List.mem_filter.mp he).2
          rw [ha] at this
          simpa using this
      exact ⟨fun hj => h3.1 (h1 sid hj), fun e he => h3.2 e (h2 e he)⟩
    · apply ih
      obtain ⟨is, his, hsid⟩ := hP
      rcases List.mem_cons.mp his with h | h
      · subst h; exact absurd hsid ha
      · exact ⟨is, h, hsid⟩

theorem stopOthersDCA_unregisters (id : String) (db : DCAStore) (a : DCAStrategy)
    (ha : a ∈ db.strategies) (hact : a.status = StrategyStatus.ACTIVE)
    (hne : a.strategyId ≠ id) :
    a.strategyId ∉ (stopOthersDCA id db).cronJobs ∧
    ∀ e ∈ (stopOthersDCA id db).activeStrategies, e.1 ≠ a.strategyId := by
  unfold stopOthersDCA
  apply foldl_stopExistingDCA_unregisters id a.strategyId _ db _ hne
  obtain ⟨k, hk⟩ := List.mem_iff_getElem?.mp ha
  refine ⟨(k, a), ?_, rfl⟩
  rw [List.mem_filter, List.mem_enum_iff_getElem?]
  exact ⟨hk, by simp [hact]⟩

theorem mem_mapSet {α : Type} (key : String) (value : α) (m : List (String × α))
    (e : String × α) (he : e ∈ mapSet key value m) : e = (key, value) ∨ e ∈ m := by
  unfold mapSet at he
  split_ifs at he
  · obtain ⟨x, hx, hxe⟩ := List.mem_map.mp he
    split_ifs at hxe
    · exact Or.inl hxe.symm
    · rw [← hxe]; exact Or.inr hx
  · rcases List.mem_append.mp he with h | h
    · exact Or.inr h
    · exact Or.inl (List.mem_singleton.mp h)

/-- What `registerDCA` does to the store. -/
theorem registerDCA_spec (cronOk : Bool) (target : DCAStrategy) (db : DCAStore) :
    (registerDCA cronOk target db).2.strategies = db.strategies ∧
    (registerDCA cronOk target db).2.orders = db.orders ∧
    (∀ e ∈ (registerDCA cronOk target db).2.activeStrategies,
      e.1 = target.strategyId ∨ e ∈ db.activeStrategies) ∧
    (∀ j ∈ (registerDCA cronOk target db).2.cronJobs,
      j = target.strategyId ∨ j ∈ db.cronJobs) ∧
    ((registerDCA cronOk target db).1 = Response.ok →
      target.strategyId ∈ (registerDCA cronOk target db).2.cronJobs) := by
  unfold registerDCA
  cases cronOk
  · simp only [Bool.false_eq_true, if_false]
    refine ⟨trivial, trivial, ?_, fun j hj => Or.inr hj, fun h => Response.noConfusion h⟩
    intro e he
    rcases mem_mapSet _ _ _ e he with h | h
    · exact Or.inl (by rw [h])
    · exact Or.inr h
  · simp only [if_true]
    refine ⟨trivial, trivial, ?_, ?_, ?_⟩
    · intro e he
      rcases mem_mapSet _ _ _ e he with h | h
      · exact Or.inl (by rw [h])
      · exact Or.inr h
    · intro j hj
      rcases List.mem_append.mp hj with h | h
      · exact Or.inr (List.mem_filter.mp h).1
      · exact Or.inl (List.mem_singleton.mp h)
    · intro _
      exact List.mem_append_right _ (List.mem_singleton.mpr rfl)

/-- The three ways the DCA start-live can end when the body has an e-mail address. -/
theorem startLiveDCA_cases (now : Nat) (cronOk : Bool) (req : DCAStartRequest)
    (userEmail : String) (db : DCAStore) (hmail : userEmail ≠ "") :
    ((stopOthersDCA req.id db).strategies.find? (fun s => decide (s.strategyId = req.id)) = none ∧
      startLiveDCA now cronOk (some req) userEmail db
        = (Response.serverError, stopOthersDCA req.id db)) ∨
    ((stopOthersDCA req.id db).strategies.find? (fun s => decide (s.strategyId = req.id)) = none ∧
      startLiveDCA now cronOk (some req) userEmail db
        = registerDCA cronOk (newLiveDCAStrategy now req userEmail)
            { stopOthersDCA req.id db with
              strategies := (stopOthersDCA req.id db).strategies
                ++ [newLiveDCAStrategy now req userEmail] }) ∨
    (∃ found,
      (stopOthersDCA req.id db).strategies.find? (fun s => decide (s.strategyId = req.id))
        = some found ∧
      startLiveDCA now cronOk (some req) userEmail db
        = registerDCA cronOk (reactivateDCA now userEmail found)
            { stopOthersDCA req.id db with
              strategies :=
                updateFirst (fun s => decide (s.strategyId = req.id))
                  (reactivateDCA now userEmail) (stopOthersDCA req.id db).strategies }) := by
  unfold startLiveDCA
  simp only [hmail, if_false]
  cases hf : (stopOthersDCA req.id db).strategies.find? (fun s => decide (s.strategyId = req.id)) with
  | none =>
    by_cases hv : req.id = "" ∨ req.stockSymbol = ""
    · left
      simp only [hv, if_true]
      exact ⟨trivial, trivial⟩
    · right; left
      simp only [hv, if_false]
      exact ⟨trivial, trivial⟩
  | some found =>
    right; right
    exact ⟨found, rfl, rfl⟩

/-- C22 (counterexample): `DCA_3` is ACTIVE with its timer registered; after the DCA
start-live for `DCA_1` it is STOPPED and its timer is gone, and `DCA_1` is the only ACTIVE
strategy. -/
theorem dca_start_stops_other :
    dcaStarted.strategies.map (fun s => (s.strategyId, s.status))
      = [("DCA_1", StrategyStatus.STOPPED), ("DCA_2", StrategyStatus.STOPPED),
         ("DCA_3", StrategyStatus.ACTIVE)] ∧
    dcaStarted.cronJobs = ["DCA_3"] ∧
    (startLiveDCA 2000 true (some dcaRestartRequest) "user@example.com" dcaStarted).1
      = Response.ok ∧
    dcaSwitched.strategies.map (fun s => (s.strategyId, s.status))
      = [("DCA_1", StrategyStatus.ACTIVE), ("DCA_2", StrategyStatus.STOPPED),
         ("DCA_3", StrategyStatus.STOPPED)] ∧
    dcaSwitched.cronJobs = ["DCA_1"] ∧
    dcaSwitched.activeStrategies.map (fun e => e.1) = ["DCA_1"] := by
  decide!

/-- C22 (amended): the DCA service applies the singleton rule too. When DCA strategy `A`
is ACTIVE and the DCA start-live is called for a different strategy `B` (with an e-mail
address in the body), afterwards `A` is STOPPED and has neither a timer nor an entry in the
map of active strategies; and when the route answers with success, `B` is ACTIVE with its
timer registered and every ACTIVE DCA strategy has the id of `B`. -/
theorem startLiveDCA_singleton (now : Nat) (cronOk : Bool) (req : DCAStartRequest)
    (userEmail : String) (db : DCAStore) (k : Nat) (a : DCAStrategy)
    (ha : db.strategies[k]? = some a) (hact : a.status = StrategyStatus.ACTIVE)
    (hne : a.strategyId ≠ req.id) (hmail : userEmail ≠ "") :
    (startLiveDCA now cronOk (some req) userEmail db).2.strategies[k]?
      = some { a with status := StrategyStatus.STOPPED } ∧
    a.strategyId ∉ (startLiveDCA now cronOk (some req) userEmail db).2.cronJobs ∧
    (∀ e ∈ (startLiveDCA now cronOk (some req) userEmail db).2.activeStrategies,
      e.1 ≠ a.strategyId) ∧
    ((startLiveDCA now cronOk (some req) userEmail db).1 = Response.ok →
      (∀ s ∈ (startLiveDCA now cronOk (some req) userEmail db).2.strategies,
        s.status = StrategyStatus.ACTIVE → s.strategyId = req.id) ∧
      (∃ s ∈ (startLiveDCA now cronOk (some req) userEmail db).2.strategies,
        s.strategyId = req.id ∧ s.status = StrategyStatus.ACTIVE) ∧
      req.id ∈ (startLiveDCA now cronOk (some req) userEmail db).2.cronJobs) := by
  have hmem : a ∈ db.strategies := List.getElem?_mem ha
  have h1 : (stopOthersDCA req.id db).strategies[k]? = some (markStoppedDCA a) := by
    rw [stopOthersDCA_strategies, List.getElem?_map, ha, Option.map_some', if_pos ⟨hact, hne⟩]
  obtain ⟨h2, h3⟩ := stopOthersDCA_unregisters req.id db a hmem hact hne
  have hklt : k < (stopOthersDCA req.id db).strategies.length := by
    by_contra hc
    rw [List.getElem?_eq_none (not_lt.mp hc)] at h1
    exact Option.noConfusion h1
  have hpa : (fun s : DCAStrategy => decide (s.strategyId = req.id)) (markStoppedDCA a)
      = false := by
    simpa [markStoppedDCA] using hne
  rcases startLiveDCA_cases now cronOk req userEmail db hmail with
    ⟨_, he⟩ | ⟨_, he⟩ | ⟨found, hf, he⟩
  · rw [he]
    exact ⟨h1, h2, h3, fun hok => Response.noConfusion hok⟩
  · rw [he]
    obtain ⟨r1, _, r3, r4, r5⟩ := registerDCA_spec cronOk (newLiveDCAStrategy now req userEmail)
      { stopOthersDCA req.id db with
        strategies := (stopOthersDCA req.id db).strategies
          ++ [newLiveDCAStrategy now req userEmail] }
    refine ⟨?_, ?_, ?_, ?_⟩
    · rw [r1]
      show ((stopOthersDCA req.id db).strategies ++ [_])[k]? = _
      rw [List.getElem?_append_left hklt]
      exact h1
    · intro hj
      rcases r4 _ hj with h | h
      · exact hne h
      · exact h2 h
    · intro e he1
      rcases r3 e he1 with h | h
      · intro hc
        exact hne (hc.symm.trans h)
      · exact h3 e h
    · intro hok
      refine ⟨?_, ?_, r5 hok⟩
      · intro s hs hsact
        rw [r1] at hs
        rcases List.mem_append.mp hs with h | h
        · exact stopOthersDCA_active req.id db s h hsact
        · rw [List.mem_singleton.mp h]; rfl
      · rw [r1]
        exact ⟨_, List.mem_append_right _ (List.mem_singleton.mpr rfl), rfl, rfl⟩
  · rw [he]
    have hfid : found.strategyId = req.id := by
      simpa using List.find?_some hf
    obtain ⟨r1, _, r3, r4, r5⟩ := registerDCA_spec cronOk (reactivateDCA now userEmail found)
      { stopOthersDCA req.id db with
        strategies :=
          updateFirst (fun s => decide (s.strategyId = req.id))
            (reactivateDCA now userEmail) (stopOthersDCA req.id db).strategies }
    have htid : (reactivateDCA now userEmail found).strategyId = req.id := hfid
    refine ⟨?_, ?_, ?_, ?_⟩
    · rw [r1]
      exact getElem?_updateFirst_of_not _ _ _ k _ h1 hpa
    · intro hj
      rcases r4 _ hj with h | h
      · exact hne (h.trans htid)
      · exact h2 h
    · intro e he1
      rcases r3 e he1 with h | h
      · intro hc
        exact hne (hc.symm.trans (h.trans htid))
      · exact h3 e h
    · intro hok
      refine ⟨?_, ?_, ?_⟩
      · intro s hs hsact
        rw [r1] at hs
        rcases mem_updateFirst _ _ _ s hs with h | ⟨x, _, hpx, hx⟩
        · exact stopOthersDCA_active req.id db s h hsact
        · rw [hx]
          simpa using hpx
      · rw [r1]
        have := find?_updateFirst (fun s : DCAStrategy => decide (s.strategyId = req.id))
          (reactivateDCA now userEmail) (fun a ha => ha)
          (stopOthersDCA req.id db).strategies found hf
        exact ⟨_, List.mem_of_find?_eq_some this, hfid, rfl⟩
      · have := r5 hok
        rw [htid] at this
        exact this

/-- C22 (witness): `DCA_3` is ACTIVE when the DCA start-live is called for `DCA_1`. -/
theorem startLiveDCA_singleton_witness :
    dcaSwitched.strategies[2]?
      = some { dcaStarted.strategies.getD 2 dcaSample with status := StrategyStatus.STOPPED } ∧
    "DCA_3" ∉ dcaSwitched.cronJobs := by
  have h := startLiveDCA_singleton 2000 true dcaRestartRequest "user@example.com" dcaStarted 2
    (dcaStarted.strategies.getD 2 dcaSample) (by decide!) (by decide!) (by decide!) (by decide)
  have hid : (dcaStarted.strategies.getD 2 dcaSample).strategyId = "DCA_3" := by decide!
  exact ⟨h.1, hid ▸ h.2.1⟩

/-! ## Ticks and timer fires of the DCA server -/

theorem executeDCAOrder_frame (now : Nat) (s : DCAStrategy) (p : ℚ) (db : DCAStore) :
    (executeDCAOrder now s p db).orders = db.orders ++ [newDCAOrder now s p] ∧
    (executeDCAOrder now s p db).activeStrategies = db.activeStrategies ∧
    (executeDCAOrder now s p db).liveData = db.liveData ∧
    (executeDCAOrder now s p db).cronJobs = db.cronJobs :=
  ⟨rfl, rfl, rfl, rfl⟩

theorem processActive_orders (now : Nat) (symbol : String) (ltp : ℚ) (db : DCAStore)
    (entry : String × DCAStrategy) :
    (processActive now symbol ltp db entry).orders
      = db.orders ++ (if dueOnTick now symbol entry = true then [newDCAOrder now entry.2 ltp]
                      else []) ∧
    (processActive now symbol ltp db entry).liveData = db.liveData := by
  unfold processActive dueOnTick
  by_cases h1 : entry.2.symbol = symbol ∧ entry.2.status = StrategyStatus.ACTIVE
  · by_cases h2 : shouldExecuteDCAOrder entry.2 now = true
    · simp only [h1, h2, and_self, if_true, decide_True, Bool.and_self]
      exact ⟨rfl, rfl⟩
    · simp only [h1, h2, and_self, if_true, if_false, decide_True, Bool.true_and]
      exact ⟨(List.append_nil _).symm, rfl⟩
  · simp only [h1, if_false, decide_False, Bool.false_and, Bool.false_eq_true]
    exact ⟨(List.append_nil _).symm, trivial⟩

theorem foldl_processActive_orders (now : Nat) (symbol : String) (ltp : ℚ)
    (l : List (String × DCAStrategy)) (db : DCAStore) :
    (l.foldl (processActive now symbol ltp) db).orders
      = db.orders ++ (l.filter (dueOnTick now symbol)).map (fun e => newDCAOrder now e.2 ltp) ∧
    (l.foldl (processActive now symbol ltp) db).liveData = db.liveData := by
  induction l generalizing db with
  | nil => exact ⟨(List.append_nil _).symm, rfl⟩
  | cons a l ih =>
    rw [List.foldl_cons]
    obtain ⟨h1, h2⟩ := ih (processActive now symbol ltp db a)
    obtain ⟨h3, h4⟩ := processActive_orders now symbol ltp db a
    rw [h1, h2, h3, h4]
    refine ⟨?_, rfl⟩
    by_cases hd : dueOnTick now symbol a = true
    · rw [if_pos hd, List.filter_cons_of_pos hd, List.map_cons, List.append_assoc]
      rfl
    · rw [if_neg hd, List.filter_cons_of_neg hd, List.append_nil]

theorem lookup_mapSet (key : String) (value : ℚ) (m : List (String × ℚ)) :
    (mapSet key value m).lookup key = some value := by
  unfold mapSet
  induction m with
  | nil => simp [List.lookup]
  | cons e m ih =>
    by_cases he : e.1 = key
    · have hany : (e :: m).any (fun e => decide (e.1 = key)) = true := by
        simp [he]
      rw [if_pos hany, List.map_cons, if_pos he]
      simp [List.lookup]
    · by_cases hany : m.any (fun e => decide (e.1 = key)) = true
      · have hany1 : (e :: m).any (fun e => decide (e.1 = key)) = true := by
          simp only [List.any_cons, hany, Bool.or_true]
        rw [if_pos hany] at ih
        rw [if_pos hany1, List.map_cons, if_neg he]
        have hk : (key == e.1) = false := by
          simpa using fun h => he h.symm
        obtain ⟨k, v⟩ := e
        simp only [List.lookup] at ih ⊢
        simp only at hk
        rw [hk]
        exact ih
      · have hany1 : ¬ (e :: m).any (fun e => decide (e.1 = key)) = true := by
          simp only [List.any_cons, Bool.or_eq_true, decide_eq_true_eq]
          rintro (h | h)
          · exact he h
          · exact hany h
        rw [if_neg hany] at ih
        rw [if_neg hany1, List.cons_append]
        have hk : (key == e.1) = false := by
          simpa using fun h => he h.symm
        obtain ⟨k, v⟩ := e
        simp only [List.lookup] at ih ⊢
        simp only at hk
        rw [hk]
        exact ih

/-- C23 (counterexample): after start-live for `DCA_3`, the live-data update for `"TCS"`
at 200 creates an EXECUTED DCA order; no timer has fired. -/
theorem tick_creates_dca_order :
    dcaStarted.orders = [] ∧
    (onLiveData 2000 "TCS" 200 dcaStarted).orders
      = [newDCAOrder 2000 (newLiveDCAStrategy 1000 dcaRequest "user@example.com") 200] ∧
    (onLiveData 2000 "TCS" 200 dcaStarted).orders.map (fun o => (o.strategyId, o.status))
      = [("DCA_3", DCAOrderStatus.EXECUTED)] := by
  decide!

/-- C23 (amended): the DCA engine is driven by ticks as well as by the schedule. Processing
a live-data update stores the price in the cache and creates one EXECUTED order, at the
tick's price, for every entry of the map of active strategies that is on the tick's symbol,
ACTIVE and due by `shouldExecuteDCAOrder`; it creates no order when the map has no such
entry. A timer fire for a strategy creates at most one order: exactly one, at the cached
price, when the stored strategy is ACTIVE and due and the cache has a price other than 0
for its symbol. -/
theorem onLiveData_spec (now : Nat) (symbol : String) (ltp : ℚ) (strategyId : String)
    (db : DCAStore) :
    (onLiveData now symbol ltp db).orders
      = db.orders ++ (db.activeStrategies.filter (dueOnTick now symbol)).map
          (fun e => newDCAOrder now e.2 ltp) ∧
    (onLiveData now symbol ltp db).liveData.lookup symbol = some ltp ∧
    ((∀ e ∈ db.activeStrategies, dueOnTick now symbol e = false) →
      (onLiveData now symbol ltp db).orders = db.orders) ∧
    (cronFire now strategyId db).orders
      = db.orders ++
        (match db.strategies.find? (fun s => decide (s.strategyId = strategyId)) with
         | none => []
         | some s =>
           if s.status = StrategyStatus.ACTIVE ∧ (db.liveData.lookup s.symbol).getD 0 ≠ 0 ∧
               shouldExecuteDCAOrder s now = true then
             [newDCAOrder now s ((db.liveData.lookup s.symbol).getD 0)]
           else []) := by
  have h1 := foldl_processActive_orders now symbol ltp db.activeStrategies
    { db with liveData := setLive symbol ltp (setLive symbol ltp db.liveData) }
  have ho : (onLiveData now symbol ltp db).orders
      = db.orders ++ (db.activeStrategies.filter (dueOnTick now symbol)).map
          (fun e => newDCAOrder now e.2 ltp) := h1.1
  refine ⟨ho, ?_, ?_, ?_⟩
  · have h2 : (onLiveData now symbol ltp db).liveData
        = setLive symbol ltp (setLive symbol ltp db.liveData) := h1.2
    rw [h2]
    exact lookup_mapSet symbol ltp _
  · intro hnone
    rw [ho]
    have : db.activeStrategies.filter (dueOnTick now symbol) = [] := by
      rw [List.filter_eq_nil_iff]
      intro e he
      rw [hnone e he]
      exact Bool.false_ne_true
    rw [this]
    simp
  · unfold cronFire
    cases hf : db.strategies.find? (fun s => decide (s.strategyId = strategyId)) with
    | none => simp
    | some s =>
      simp only
      by_cases ha : s.status = StrategyStatus.ACTIVE
      · by_cases hp : (db.liveData.lookup s.symbol).getD 0 = 0
        · simp [ha, hp]
        · by_cases hd : shouldExecuteDCAOrder s now = true
          · simp only [ha, hp, hd, ne_eq, not_true_eq_false, not_false_eq_true, if_false,
              if_true, and_self]
            exact (executeDCAOrder_frame now s _ db).1
          · simp [ha, hp, hd]
      · simp [ha]

/-- C23 (witness): the tick for `"TCS"` after start-live for `DCA_3`, and a timer fire for
`DCA_3` while the cache has no price for `"TCS"`. -/
theorem onLiveData_spec_witness :
    (onLiveData 2000 "TCS" 200 dcaStarted).orders.length = 1 ∧
    (onLiveData 2000 "SBIN" 200 dcaStarted).orders = dcaStarted.orders ∧
    (cronFire 2000 "DCA_3" dcaStarted).orders.length = 0 := by
  have h := onLiveData_spec 2000 "TCS" 200 "DCA_3" dcaStarted
  have h2 := onLiveData_spec 2000 "SBIN" 200 "DCA_3" dcaStarted
  refine ⟨?_, h2.2.2.1 (by decide!), ?_⟩
  · rw [h.1]
    decide!
  · rw [h.2.2.2]
    decide!

/-! ## The order numbers of a DCA strategy -/

/-- C24 (evaluation): after start-live for `DCA_3`, two live-data updates for `"TCS"` create
two EXECUTED orders that both carry `orderNumber = 1`, while the stored strategy counts two
executed orders; two timer fires five minutes apart number their orders 1 and 2. -/
theorem dca_orderNumber_repeats :
    dcaTwoTicks.orders.map (fun o => (o.strategyId, o.status, o.orderNumber))
      = [("DCA_3", DCAOrderStatus.EXECUTED, 1), ("DCA_3", DCAOrderStatus.EXECUTED, 1)] ∧
    dcaTwoTicks.strategies.map (fun s => (s.strategyId, s.monitoring.executedOrders))
      = [("DCA_1", 0), ("DCA_2", 0), ("DCA_3", 2)] ∧
    dcaTwoTicks.activeStrategies.map (fun e => (e.1, e.2.monitoring.executedOrders))
      = [("DCA_3", 0)] ∧
    dcaTwoFires.orders.map (fun o => (o.strategyId, o.status, o.orderNumber))
      = [("DCA_3", DCAOrderStatus.EXECUTED, 1), ("DCA_3", DCAOrderStatus.EXECUTED, 2)] := by
  decide!

/-! ## The grid backtest -/

theorem specTrades_even (config : GridConfig) (queue : List Trade) (m : DataPoint × Nat × ℚ)
    (rest : List (DataPoint × Nat × ℚ)) (hm : m.2.1 % 2 = 0) :
    specTrades config queue (m :: rest)
      = specBuy config m :: specTrades config (queue ++ [specBuy config m]) rest ∧
    specQueue config queue (m :: rest) = specQueue config (queue ++ [specBuy config m]) rest := by
  constructor
  · simp only [specTrades, hm, if_true]
  · simp only [specQueue, hm, if_true]

theorem specTrades_odd_nil (config : GridConfig) (m : DataPoint × Nat × ℚ)
    (rest : List (DataPoint × Nat × ℚ)) (hm : ¬ m.2.1 % 2 = 0) :
    specTrades config [] (m :: rest) = specSell config m 0 :: specTrades config [] rest ∧
    specQueue config [] (m :: rest) = specQueue config [] rest := by
  constructor
  · simp only [specTrades, hm, if_false]
  · simp only [specQueue, hm, if_false, List.tail_nil]

theorem specTrades_odd_cons (config : GridConfig) (b : Trade) (queue1 : List Trade)
    (m : DataPoint × Nat × ℚ) (rest : List (DataPoint × Nat × ℚ)) (hm : ¬ m.2.1 % 2 = 0) :
    specTrades config (b :: queue1) (m :: rest)
      = specSell config m ((m.2.2 - b.price) * calculateQuantityPerLevel config m.1.close)
          :: specTrades config queue1 rest ∧
    specQueue config (b :: queue1) (m :: rest) = specQueue config queue1 rest := by
  constructor
  · simp only [specTrades, hm, if_false]
  · simp only [specQueue, hm, if_false, List.tail_cons]

theorem specTrades_append (config : GridConfig) (ms1 ms2 : List (DataPoint × Nat × ℚ))
    (queue : List Trade) :
    specTrades config queue (ms1 ++ ms2)
      = specTrades config queue ms1 ++ specTrades config (specQueue config queue ms1) ms2 ∧
    specQueue config queue (ms1 ++ ms2) = specQueue config (specQueue config queue ms1) ms2 := by
  induction ms1 generalizing queue with
  | nil => exact ⟨rfl, rfl⟩
  | cons m ms1 ih =>
    rw [List.cons_append]
    by_cases hm : m.2.1 % 2 = 0
    · obtain ⟨h1, h2⟩ := ih (queue ++ [specBuy config m])
      obtain ⟨a1, a2⟩ := specTrades_even config queue m (ms1 ++ ms2) hm
      obtain ⟨b1, b2⟩ := specTrades_even config queue m ms1 hm
      rw [a1, a2, b1, b2, h1, h2]
      exact ⟨rfl, rfl⟩
    · cases queue with
      | nil =>
        obtain ⟨h1, h2⟩ := ih []
        obtain ⟨a1, a2⟩ := specTrades_odd_nil config m (ms1 ++ ms2) hm
        obtain ⟨b1, b2⟩ := specTrades_odd_nil config m ms1 hm
        rw [a1, a2, b1, b2, h1, h2]
        exact ⟨rfl, rfl⟩
      | cons b queue1 =>
        obtain ⟨h1, h2⟩ := ih queue1
        obtain ⟨a1, a2⟩ := specTrades_odd_cons config b queue1 m (ms1 ++ ms2) hm
        obtain ⟨b1, b2⟩ := specTrades_odd_cons config b queue1 m ms1 hm
        rw [a1, a2, b1, b2, h1, h2]
        exact ⟨rfl, rfl⟩

/-- One pass of the inner loop: the matches of the data point are settled in index order. -/
theorem foldl_backtestLevel (config : GridConfig) (d : DataPoint) (L : List (Nat × ℚ))
    (st : BacktestState) :
    (L.foldl (backtestLevel config d) st).trades
      = st.trades ++ specTrades config st.openPositions
          ((L.filter (fun il => decide (|d.close - il.2| ≤ 2 / 1000 * il.2))).map
            (fun il => (d, il))) ∧
    (L.foldl (backtestLevel config d) st).openPositions
      = specQueue config st.openPositions
          ((L.filter (fun il => decide (|d.close - il.2| ≤ 2 / 1000 * il.2))).map
            (fun il => (d, il))) ∧
    (L.foldl (backtestLevel config d) st).totalPnL - st.totalPnL
      = ((L.foldl (backtestLevel config d) st).trades.map (fun t => t.pnl)).sum
        - (st.trades.map (fun t => t.pnl)).sum := by
  induction L generalizing st with
  | nil => simp [specTrades, specQueue]
  | cons il L ih =>
    rw [List.foldl_cons]
    obtain ⟨h1, h2, h3⟩ := ih (backtestLevel config d st il)
    by_cases htol : |d.close - il.2| ≤ 2 / 1000 * il.2
    · have htol1 : |d.close - il.2| ≤ il.2 * (2 / 1000) := by rw [mul_comm]; exact htol
      rw [List.filter_cons_of_pos (by simpa using htol), List.map_cons]
      by_cases hpar : il.1 % 2 = 0
      · have hs : backtestLevel config d st il
            = { st with openPositions := st.openPositions ++ [specBuy config (d, il)],
                        trades := st.trades ++ [specBuy config (d, il)] } := by
          unfold backtestLevel
          simp only [htol1, if_true, hpar, specBuy]
        obtain ⟨a1, a2⟩ := specTrades_even config st.openPositions (d, il)
          ((L.filter (fun il => decide (|d.close - il.2| ≤ 2 / 1000 * il.2))).map
            (fun il => (d, il))) hpar
        rw [a1, a2]
        rw [hs] at h1 h2 h3 ⊢
        refine ⟨?_, h2, ?_⟩
        · rw [h1]
          simp only [List.append_assoc, List.singleton_append]
        · rw [h3]
          simp [specBuy]
      · cases hq : st.openPositions with
        | nil =>
          have hs : backtestLevel config d st il
              = { trades := st.trades ++ [specSell config (d, il) 0],
                  totalPnL := st.totalPnL, openPositions := [] } := by
            unfold backtestLevel
            simp only [htol1, if_true, hpar, if_false, hq, specSell]
          obtain ⟨a1, a2⟩ := specTrades_odd_nil config (d, il)
            ((L.filter (fun il => decide (|d.close - il.2| ≤ 2 / 1000 * il.2))).map
              (fun il => (d, il))) hpar
          rw [a1, a2]
          rw [hs] at h1 h2 h3 ⊢
          refine ⟨?_, h2, ?_⟩
          · rw [h1]
            simp only [List.append_assoc, List.singleton_append]
          · rw [h3]
            simp [specSell]
        | cons b rest =>
          have hs : backtestLevel config d st il
              = { trades := st.trades ++ [specSell config (d, il)
                    ((il.2 - b.price) * calculateQuantityPerLevel config d.close)],
                  totalPnL := st.totalPnL
                    + (il.2 - b.price) * calculateQuantityPerLevel config d.close,
                  openPositions := rest } := by
            unfold backtestLevel
            simp only [htol1, if_true, hpar, if_false, hq, specSell]
          obtain ⟨a1, a2⟩ := specTrades_odd_cons config b rest (d, il)
            ((L.filter (fun il => decide (|d.close - il.2| ≤ 2 / 1000 * il.2))).map
              (fun il => (d, il))) hpar
          rw [a1, a2]
          rw [hs] at h1 h2 h3 ⊢
          refine ⟨?_, h2, ?_⟩
          · rw [h1]
            simp only [List.append_assoc, List.singleton_append]
          · have hsum : ((st.trades ++ [specSell config (d, il)
                ((il.2 - b.price) * calculateQuantityPerLevel config d.close)]).map
                  (fun t => t.pnl)).sum
                = (st.trades.map (fun t => t.pnl)).sum
                  + (il.2 - b.price) * calculateQuantityPerLevel config d.close := by
              simp [specSell]
            rw [hsum] at h3
            have h4 : ∀ x y z w v : ℚ, x - (y + v) = z - (w + v) → x - y = z - w := by
              intro x y z w v h
              linarith
            exact h4 _ _ _ _ _ h3
    · have htol1 : ¬ |d.close - il.2| ≤ il.2 * (2 / 1000) := by rw [mul_comm]; exact htol
      have hs : backtestLevel config d st il = st := by
        unfold backtestLevel
        simp only [htol1, if_false]
      rw [hs] at h1 h2 h3 ⊢
      rw [List.filter_cons_of_neg (by simpa using htol)]
      exact ⟨h1, h2, h3⟩

/-- The outer loop: the matches of the whole series are settled in order. -/
theorem foldl_backtest (config : GridConfig) (gridLevels : List ℚ) (data : List DataPoint)
    (st : BacktestState) :
    (data.foldl (fun st d => gridLevels.enum.foldl (backtestLevel config d) st) st).trades
      = st.trades ++ specTrades config st.openPositions (specMatches gridLevels data) ∧
    (data.foldl (fun st d => gridLevels.enum.foldl (backtestLevel config d) st) st).openPositions
      = specQueue config st.openPositions (specMatches gridLevels data) ∧
    (data.foldl (fun st d => gridLevels.enum.foldl (backtestLevel config d) st) st).totalPnL
        - st.totalPnL
      = ((data.foldl (fun st d => gridLevels.enum.foldl (backtestLevel config d) st) st).trades.map
          (fun t => t.pnl)).sum - (st.trades.map (fun t => t.pnl)).sum := by
  induction data generalizing st with
  | nil => simp [specMatches, specTrades, specQueue]
  | cons d data ih =>
    rw [List.foldl_cons]
    obtain ⟨h1, h2, h3⟩ := ih (gridLevels.enum.foldl (backtestLevel config d) st)
    obtain ⟨g1, g2, g3⟩ := foldl_backtestLevel config d gridLevels.enum st
    have hm : specMatches gridLevels (d :: data)
        = (gridLevels.enum.filter (fun il => decide (|d.close - il.2| ≤ 2 / 1000 * il.2))).map
            (fun il => (d, il)) ++ specMatches gridLevels data := by
      unfold specMatches
      rw [List.flatMap_cons]
    obtain ⟨a1, a2⟩ := specTrades_append config
      ((gridLevels.enum.filter (fun il => decide (|d.close - il.2| ≤ 2 / 1000 * il.2))).map
        (fun il => (d, il))) (specMatches gridLevels data) st.openPositions
    refine ⟨?_, ?_, ?_⟩
    · rw [h1, g1, g2, hm, a1, List.append_assoc]
    · rw [h2, g2, hm, a2]
    · linarith

/-- C25: `performBacktest` records a trade for the data point `d` and the level at index
`i` exactly when `|d.close - level| ≤ 0.002 * level` (data points in order, levels in index
order); the trade is a BUY for an even `i` and a SELL for an odd `i`; a BUY joins the queue
of open positions with `pnl = 0`; a SELL closes the oldest open BUY with
`pnl = (level - BUY price) * quantity`, or has `pnl = 0` when no BUY is open; the reported
`totalPnL` is the sum of `pnl` over all recorded trades rounded to 2 decimals, `totalTrades`
is their number, and the last 50 of them are returned. On the sample series the SELL at
105 closes the BUY at 102.5 with `pnl = 2.5`, and the later SELL finds no open BUY. -/
theorem performBacktest_spec (pow : ℚ → ℚ → ℚ) (config : GridConfig)
    (historicalData : List DataPoint) :
    (backtestRun pow config historicalData).trades
      = specTrades config [] (specMatches (calculateGridLevels pow config) historicalData) ∧
    (backtestRun pow config historicalData).openPositions
      = specQueue config [] (specMatches (calculateGridLevels pow config) historicalData) ∧
    (performBacktest pow config historicalData).results.totalPnL
      = toFixed 2 (((backtestRun pow config historicalData).trades.map (fun t => t.pnl)).sum) ∧
    (performBacktest pow config historicalData).results.totalTrades
      = (backtestRun pow config historicalData).trades.length ∧
    (performBacktest pow config historicalData).trades
      = (backtestRun pow config historicalData).trades.drop
          ((backtestRun pow config historicalData).trades.length - 50) ∧
    (performBacktest samplePow seedStrategy.config sampleSeries).trades.map
        (fun t => (t.timestamp, t.type, t.price, t.pnl))
      = [(1, OrderType.BUY, 205 / 2, 0), (2, OrderType.SELL, 105, 5 / 2),
         (4, OrderType.SELL, 105, 0)] ∧
    (performBacktest samplePow seedStrategy.config sampleSeries).results.totalPnL = 5 / 2 := by
  obtain ⟨h1, h2, h3⟩ := foldl_backtest config (calculateGridLevels pow config) historicalData {}
  have e1 : (backtestRun pow config historicalData).trades
      = specTrades config [] (specMatches (calculateGridLevels pow config) historicalData) := by
    unfold backtestRun
    rw [h1]
    rfl
  refine ⟨e1, ?_, ?_, rfl, rfl, by decide!, by decide!⟩
  · unfold backtestRun
    rw [h2]
  · have e3 : (backtestRun pow config historicalData).totalPnL
        = ((backtestRun pow config historicalData).trades.map (fun t => t.pnl)).sum := by
      unfold backtestRun
      simp only [List.map_nil, List.sum_nil, sub_zero] at h3
      exact h3
    show toFixed 2 (backtestRun pow config historicalData).totalPnL = _
    rw [e3]

/-! ## The DCA backtest -/

/-- C26 (evaluation): for the config that buys every 60 minutes, `performDCABacktest` takes
`frequencyInDays = 60 / 24` and `orderInterval = 2`, so on a series of four data points it
places two orders, at the indices 0 and 2, and invests 2000; the same schedule written as
every 1 hour has `orderInterval = 1` and places four orders. -/
theorem dca_backtest_minutes_as_hours :
    orderInterval hourlyInMinutes = 2 ∧
    (performDCABacktest hourlyInMinutes sampleSeries).map
        (fun r => (r.results.totalOrders, r.results.totalInvestment,
          r.trades.map (fun t => t.timestamp)))
      = some (2, 2000, [1, 3]) ∧
    orderInterval hourlyInHours = 1 ∧
    (performDCABacktest hourlyInHours sampleSeries).map
        (fun r => (r.results.totalOrders, r.results.totalInvestment,
          r.trades.map (fun t => t.timestamp)))
      = some (4, 4000, [1, 2, 3, 4]) := by
  decide!

/-! ## The average price of a DCA strategy -/

theorem dca_sums_bounds (l : List DCAOrder)
    (h : ∀ o ∈ l, 0 < o.quantity ∧ o.amount = o.price * o.quantity) :
    (∀ lo : ℚ, (∀ o ∈ l, lo ≤ o.price) →
      lo * (l.map (fun o => o.quantity)).sum ≤ (l.map (fun o => o.amount)).sum) ∧
    (∀ hi : ℚ, (∀ o ∈ l, o.price ≤ hi) →
      (l.map (fun o => o.amount)).sum ≤ hi * (l.map (fun o => o.quantity)).sum) ∧
    (l ≠ [] → 0 < (l.map (fun o => o.quantity)).sum) := by
  induction l with
  | nil => simp
  | cons a l ih =>
    obtain ⟨h1, h2, h3⟩ := ih (fun o ho => h o (List.mem_cons_of_mem _ ho))
    obtain ⟨hq, ha⟩ := h a (List.mem_cons_self _ _)
    have hnn : 0 ≤ (l.map (fun o => o.quantity)).sum := by
      cases l with
      | nil => simp
      | cons b l => exact le_of_lt (h3 (List.cons_ne_nil _ _))
    simp only [List.map_cons, List.sum_cons]
    refine ⟨?_, ?_, ?_⟩
    · intro lo hlo
      have := h1 lo (fun o ho => hlo o (List.mem_cons_of_mem _ ho))
      have h4 : lo * a.quantity ≤ a.price * a.quantity :=
        mul_le_mul_of_nonneg_right (hlo a (List.mem_cons_self _ _)) (le_of_lt hq)
      rw [ha]
      linarith
    · intro hi hhi
      have := h2 hi (fun o ho => hhi o (List.mem_cons_of_mem _ ho))
      have h4 : a.price * a.quantity ≤ hi * a.quantity :=
        mul_le_mul_of_nonneg_right (hhi a (List.mem_cons_self _ _)) (le_of_lt hq)
      rw [ha]
      linarith
    · intro _
      linarith

theorem newDCAOrder_amount (t : Nat) (s : DCAStrategy) (p : ℚ)
    (ha : 0 < s.config.investmentAmount) (hp : 0 < p) :
    0 < (newDCAOrder t s p).quantity ∧
    (newDCAOrder t s p).amount = (newDCAOrder t s p).price * (newDCAOrder t s p).quantity ∧
    (newDCAOrder t s p).fillPrice = some (newDCAOrder t s p).price := by
  refine ⟨div_pos ha hp, ?_, rfl⟩
  show s.config.investmentAmount = p * (s.config.investmentAmount / p)
  field_simp

/-- C29: when the EXECUTED orders of a strategy are not empty and each was created by
`executeDCAOrder` with `investmentAmount > 0` at a positive price, the `averagePrice` that
`updateDCAMonitoring` stores lies between the fill prices: it is at least every lower bound
of the orders' prices (so at least the smallest) and at most every upper bound (so at most
the largest); and the stored `roi` is `≥ 0` exactly when the latest price is at least
`averagePrice`. -/
theorem averagePrice_bounds (now : Nat) (sid : String) (newOrder : DCAOrder) (db : DCAStore)
    (s : DCAStrategy)
    (hs : db.strategies.find? (fun s => decide (s.strategyId = sid)) = some s)
    (hne : executedOrdersOf sid db.orders ≠ [])
    (hex : ∀ o ∈ executedOrdersOf sid db.orders, ∃ (t : Nat) (s0 : DCAStrategy) (p : ℚ),
      0 < s0.config.investmentAmount ∧ 0 < p ∧ o = newDCAOrder t s0 p) :
    ∃ s1, (updateDCAMonitoring now sid newOrder db).strategies.find?
        (fun s => decide (s.strategyId = sid)) = some s1 ∧
      (∀ lo : ℚ, (∀ o ∈ executedOrdersOf sid db.orders, ∀ f, o.fillPrice = some f → lo ≤ f) →
        lo ≤ s1.monitoring.averagePrice) ∧
      (∀ hi : ℚ, (∀ o ∈ executedOrdersOf sid db.orders, ∀ f, o.fillPrice = some f → f ≤ hi) →
        s1.monitoring.averagePrice ≤ hi) ∧
      (0 ≤ s1.monitoring.roi
        ↔ s1.monitoring.averagePrice ≤ latestPrice db.liveData s.symbol newOrder) := by
  have h1 := find?_updateFirst (fun s : DCAStrategy => decide (s.strategyId = sid))
    (fun s => { s with monitoring :=
      (recomputeDCAMonitoring now (executedOrdersOf sid db.orders)
        (latestPrice db.liveData s.symbol newOrder) newOrder s.config s.monitoring) })
    (fun a ha => ha) db.strategies s hs
  have hform : ∀ o ∈ executedOrdersOf sid db.orders,
      0 < o.quantity ∧ o.amount = o.price * o.quantity ∧ o.fillPrice = some o.price := by
    intro o ho
    obtain ⟨t, s0, p, ha, hp, he⟩ := hex o ho
    rw [he]
    exact newDCAOrder_amount t s0 p ha hp
  obtain ⟨b1, b2, b3⟩ := dca_sums_bounds (executedOrdersOf sid db.orders)
    (fun o ho => ⟨(hform o ho).1, (hform o ho).2.1⟩)
  have hQ := b3 hne
  have hI : 0 < ((executedOrdersOf sid db.orders).map (fun o => o.amount)).sum := by
    have hpos : ∀ (l : List DCAOrder), l ≠ [] → (∀ x ∈ l, 0 < x.amount) →
        0 < (l.map (fun o => o.amount)).sum := by
      intro l
      induction l with
      | nil => intro hl; exact absurd rfl hl
      | cons a l ih =>
        intro _ hall
        simp only [List.map_cons, List.sum_cons]
        have ha := hall a (List.mem_cons_self _ _)
        cases l with
        | nil => simpa using ha
        | cons b l =>
          have := ih (List.cons_ne_nil _ _) (fun x hx => hall x (List.mem_cons_of_mem _ hx))
          linarith
    apply hpos _ hne
    intro x hx
    obtain ⟨t1, s1, p1, ha1, _, he1⟩ := hex x hx
    rw [he1]
    exact ha1
  have havg : ({ s with monitoring :=
      (recomputeDCAMonitoring now (executedOrdersOf sid db.orders)
        (latestPrice db.liveData s.symbol newOrder) newOrder s.config s.monitoring) } :
        DCAStrategy).monitoring.averagePrice
      = ((executedOrdersOf sid db.orders).map (fun o => o.amount)).sum
        / ((executedOrdersOf sid db.orders).map (fun o => o.quantity)).sum := by
    simp only [recomputeDCAMonitoring, foldl_add_eq_sum, zero_add]
    rw [if_pos hQ]
  have hroi : ({ s with monitoring :=
      (recomputeDCAMonitoring now (executedOrdersOf sid db.orders)
        (latestPrice db.liveData s.symbol newOrder) newOrder s.config s.monitoring) } :
        DCAStrategy).monitoring.roi
      = (((executedOrdersOf sid db.orders).map (fun o => o.quantity)).sum
            * latestPrice db.liveData s.symbol newOrder
          - ((executedOrdersOf sid db.orders).map (fun o => o.amount)).sum)
        / ((executedOrdersOf sid db.orders).map (fun o => o.amount)).sum * 100 := by
    simp only [recomputeDCAMonitoring, foldl_add_eq_sum, zero_add]
    rw [if_pos hI]
  refine ⟨_, h1, ?_, ?_, ?_⟩
  · intro lo hlo
    rw [havg, le_div_iff₀ hQ]
    exact b1 lo (fun o ho => hlo o ho o.price (hform o ho).2.2)
  · intro hi hhi
    rw [havg, div_le_iff₀ hQ]
    exact b2 hi (fun o ho => hhi o ho o.price (hform o ho).2.2)
  · rw [havg, hroi, div_le_iff₀ hQ]
    constructor
    · intro h
      have h2 : 0 ≤ (((executedOrdersOf sid db.orders).map (fun o => o.quantity)).sum
            * latestPrice db.liveData s.symbol newOrder
          - ((executedOrdersOf sid db.orders).map (fun o => o.amount)).sum)
          / ((executedOrdersOf sid db.orders).map (fun o => o.amount)).sum := by
        by_contra hc
        push_neg at hc
        linarith
      rw [le_div_iff₀ hI] at h2
      linarith
    · intro h
      have h2 : 0 ≤ (((executedOrdersOf sid db.orders).map (fun o => o.quantity)).sum
            * latestPrice db.liveData s.symbol newOrder
          - ((executedOrdersOf sid db.orders).map (fun o => o.amount)).sum)
          / ((executedOrdersOf sid db.orders).map (fun o => o.amount)).sum := by
        apply div_nonneg _ (le_of_lt hI)
        linarith
      linarith

/-- C29 (witness): the sample strategy with orders of 1000 at 100 and at 125, the live
price being 110: the average price is between 100 and 125. -/
theorem averagePrice_bounds_witness :
    ∃ s1, (updateDCAMonitoring 2 "DCA_1" (newDCAOrder 2 dcaSample 125) dcaTwoOrders).strategies.find?
        (fun s => decide (s.strategyId = "DCA_1")) = some s1 ∧
      100 ≤ s1.monitoring.averagePrice ∧ s1.monitoring.averagePrice ≤ 125 := by
  have hE : executedOrdersOf "DCA_1" dcaTwoOrders.orders
      = [newDCAOrder 1 dcaSample 100, newDCAOrder 2 dcaSample 125] := by decide!
  have hmem : ∀ o ∈ executedOrdersOf "DCA_1" dcaTwoOrders.orders,
      o = newDCAOrder 1 dcaSample 100 ∨ o = newDCAOrder 2 dcaSample 125 := by
    intro o ho
    rw [hE] at ho
    simpa using ho
  obtain ⟨s1, h1, h2, h3, _⟩ := averagePrice_bounds 2 "DCA_1" (newDCAOrder 2 dcaSample 125)
    dcaTwoOrders dcaSample (by decide!) (by rw [hE]; exact List.cons_ne_nil _ _)
    (by
      intro o ho
      rcases hmem o ho with h | h
      · exact ⟨1, dcaSample, 100, by decide!, by norm_num, h⟩
      · exact ⟨2, dcaSample, 125, by decide!, by norm_num, h⟩)
  refine ⟨s1, h1, h2 100 ?_, h3 125 ?_⟩
  · intro o ho f hf
    rcases hmem o ho with h | h
    · rw [h] at hf
      have : f = 100 := (Option.some.inj hf).symm
      rw [this]
    · rw [h] at hf
      have : f = 125 := (Option.some.inj hf).symm
      rw [this]
      norm_num
  · intro o ho f hf
    rcases hmem o ho with h | h
    · rw [h] at hf
      have : f = 100 := (Option.some.inj hf).symm
      rw [this]
      norm_num
    · rw [h] at hf
      have : f = 125 := (Option.some.inj hf).symm
      rw [this]

/-! ## Zero thresholds -/

theorem zeroBlocked_never (s : DCAStrategy) (now : Nat) (h : ZeroBlocked s) :
    shouldExecuteDCAOrder s now = false := by
  obtain ⟨hroi, hex, hz⟩ := h
  unfold shouldExecuteDCAOrder
  by_cases h1 : beforeNextOrder s.monitoring.nextOrderTime now
  · rw [if_pos h1]
  · rw [if_neg h1]
    by_cases h2 : s.config.endCondition = EndCondition.orderCount ∧
        (s.monitoring.executedOrders : ℚ) ≥ s.config.maxOrders
    · rw [if_pos h2]
    · rw [if_neg h2]
      by_cases h3 : s.config.enableStopLoss = true ∧ s.monitoring.roi ≤ -s.config.stopLoss
      · rw [if_pos h3]
      · rw [if_neg h3]
        by_cases h4 : s.config.enableTakeProfit = true ∧ s.monitoring.roi ≥ s.config.takeProfit
        · rw [if_pos h4]
        · exfalso
          rcases hz with ⟨ha, hb⟩ | ⟨ha, hb⟩ | ⟨ha, hb⟩
          · apply h3
            refine ⟨ha, ?_⟩
            rw [hroi, hb]
            norm_num
          · apply h4
            refine ⟨ha, ?_⟩
            rw [hroi, hb]
          · apply h2
            refine ⟨ha, ?_⟩
            rw [hex, hb]
            norm_num

/-- The orders of `sid` are as before, and the documents and map entries of `sid` are
blocked. -/
theorem executeDCAOrder_other (now : Nat) (s : DCAStrategy) (p : ℚ) (db : DCAStore)
    (sid : String) (hne : s.strategyId ≠ sid)
    (hdoc : ∀ x ∈ db.strategies, x.strategyId = sid → ZeroBlocked x) :
    (executeDCAOrder now s p db).orders.filter (fun o => decide (o.strategyId = sid))
      = db.orders.filter (fun o => decide (o.strategyId = sid)) ∧
    (∀ x ∈ (executeDCAOrder now s p db).strategies, x.strategyId = sid → ZeroBlocked x) ∧
    (executeDCAOrder now s p db).activeStrategies = db.activeStrategies ∧
    (executeDCAOrder now s p db).liveData = db.liveData := by
  refine ⟨?_, ?_, rfl, rfl⟩
  · rw [(executeDCAOrder_frame now s p db).1, List.filter_append]
    have : [newDCAOrder now s p].filter (fun o => decide (o.strategyId = sid)) = [] := by
      rw [List.filter_eq_nil_iff]
      intro o ho
      rw [List.mem_singleton.mp ho]
      simpa [newDCAOrder] using hne
    rw [this, List.append_nil]
  · intro x hx hxs
    have hx1 : x ∈ updateFirst (fun y => decide (y.strategyId = s.strategyId))
        (fun y => { y with monitoring :=
          (recomputeDCAMonitoring now
            (executedOrdersOf s.strategyId (db.orders ++ [newDCAOrder now s p]))
            (latestPrice db.liveData y.symbol (newDCAOrder now s p))
            (newDCAOrder now s p) y.config y.monitoring) })
        db.strategies := hx
    rcases mem_updateFirst _ _ _ x hx1 with h | ⟨y, _, hpy, hy⟩
    · exact hdoc x h hxs
    · exfalso
      apply hne
      have h1 : y.strategyId = s.strategyId := by simpa using hpy
      rw [← h1, ← hxs, hy]

theorem processActive_blocked (now : Nat) (symbol : String) (ltp : ℚ) (db : DCAStore)
    (entry : String × DCAStrategy) (sid : String)
    (hentry : entry.2.strategyId = sid → ZeroBlocked entry.2)
    (hdoc : ∀ x ∈ db.strategies, x.strategyId = sid → ZeroBlocked x) :
    (processActive now symbol ltp db entry).orders.filter (fun o => decide (o.strategyId = sid))
      = db.orders.filter (fun o => decide (o.strategyId = sid)) ∧
    (∀ x ∈ (processActive now symbol ltp db entry).strategies,
      x.strategyId = sid → ZeroBlocked x) ∧
    (processActive now symbol ltp db entry).activeStrategies = db.activeStrategies := by
  unfold processActive
  split_ifs with h1 h2
  · have hne : entry.2.strategyId ≠ sid := by
      intro hc
      rw [zeroBlocked_never entry.2 now (hentry hc)] at h2
      exact Bool.false_ne_true h2
    obtain ⟨a, b, c, _⟩ := executeDCAOrder_other now entry.2 ltp db sid hne hdoc
    exact ⟨a, b, c⟩
  · exact ⟨rfl, hdoc, rfl⟩
  · exact ⟨rfl, hdoc, rfl⟩

theorem foldl_processActive_blocked (now : Nat) (symbol : String) (ltp : ℚ)
    (l : List (String × DCAStrategy)) (db : DCAStore) (sid : String)
    (hl : ∀ e ∈ l, e.2.strategyId = sid → ZeroBlocked e.2)
    (hdoc : ∀ x ∈ db.strategies, x.strategyId = sid → ZeroBlocked x) :
    (l.foldl (processActive now symbol ltp) db).orders.filter
        (fun o => decide (o.strategyId = sid))
      = db.orders.filter (fun o => decide (o.strategyId = sid)) ∧
    (∀ x ∈ (l.foldl (processActive now symbol ltp) db).strategies,
      x.strategyId = sid → ZeroBlocked x) ∧
    (l.foldl (processActive now symbol ltp) db).activeStrategies = db.activeStrategies := by
  induction l generalizing db with
  | nil => exact ⟨rfl, hdoc, rfl⟩
  | cons a l ih =>
    rw [List.foldl_cons]
    obtain ⟨a1, a2, a3⟩ := processActive_blocked now symbol ltp db a sid
      (hl a (List.mem_cons_self _ _)) hdoc
    obtain ⟨b1, b2, b3⟩ := ih (processActive now symbol ltp db a)
      (fun e he => hl e (List.mem_cons_of_mem _ he)) a2
    exact ⟨b1.trans a1, b2, b3.trans a3⟩

theorem cronFire_blocked (now : Nat) (strategyId : String) (db : DCAStore) (sid : String)
    (hdoc : ∀ x ∈ db.strategies, x.strategyId = sid → ZeroBlocked x)
    (hsnap : ∀ x ∈ db.activeStrategies, x.2.strategyId = sid → ZeroBlocked x.2) :
    (cronFire now strategyId db).orders.filter (fun o => decide (o.strategyId = sid))
      = db.orders.filter (fun o => decide (o.strategyId = sid)) ∧
    (∀ x ∈ (cronFire now strategyId db).strategies, x.strategyId = sid → ZeroBlocked x) ∧
    (∀ x ∈ (cronFire now strategyId db).activeStrategies,
      x.2.strategyId = sid → ZeroBlocked x.2) := by
  unfold cronFire
  cases hf : db.strategies.find? (fun s => decide (s.strategyId = strategyId)) with
  | none => exact ⟨rfl, hdoc, hsnap⟩
  | some cur =>
    simp only
    split_ifs with h1 h2 h3
    · exact ⟨rfl, hdoc, hsnap⟩
    · exact ⟨rfl, hdoc, hsnap⟩
    · have hne : cur.strategyId ≠ sid := by
        intro hc
        rw [zeroBlocked_never cur now (hdoc cur (List.mem_of_find?_eq_some hf) hc)] at h3
        exact Bool.false_ne_true h3
      obtain ⟨a, b, c, _⟩ := executeDCAOrder_other now cur
        ((db.liveData.lookup cur.symbol).getD 0) db sid hne hdoc
      refine ⟨a, b, ?_⟩
      rw [c]
      exact hsnap
    · exact ⟨rfl, hdoc, hsnap⟩

theorem handleDCA_blocked (db : DCAStore) (e : DCAEvent) (sid : String)
    (hdoc : ∀ x ∈ db.strategies, x.strategyId = sid → ZeroBlocked x)
    (hsnap : ∀ x ∈ db.activeStrategies, x.2.strategyId = sid → ZeroBlocked x.2) :
    (handleDCA db e).orders.filter (fun o => decide (o.strategyId = sid))
      = db.orders.filter (fun o => decide (o.strategyId = sid)) ∧
    (∀ x ∈ (handleDCA db e).strategies, x.strategyId = sid → ZeroBlocked x) ∧
    (∀ x ∈ (handleDCA db e).activeStrategies, x.2.strategyId = sid → ZeroBlocked x.2) := by
  cases e with
  | tick now symbol ltp =>
    obtain ⟨a1, a2, a3⟩ := foldl_processActive_blocked now symbol ltp db.activeStrategies
      { db with liveData := setLive symbol ltp (setLive symbol ltp db.liveData) } sid hsnap hdoc
    refine ⟨a1, a2, ?_⟩
    intro x hx
    have hx1 : x ∈ db.activeStrategies := by
      have : (handleDCA db (DCAEvent.tick now symbol ltp)).activeStrategies
          = db.activeStrategies := a3
      rw [this] at hx
      exact hx
    exact hsnap x hx1
  | timer now strategyId => exact cronFire_blocked now strategyId db sid hdoc hsnap

/-- C30: a strategy with no executed order (`roi = 0`, `executedOrders = 0`) for which the
stop loss is enabled with `stopLoss = 0`, or the take profit is enabled with
`takeProfit = 0`, or `endCondition` is `orderCount` with `maxOrders = 0`, is refused by
`shouldExecuteDCAOrder` at every time; and when every stored document and every entry of the
map of active strategies with the id `sid` is such a strategy, no sequence of live-data
updates and timer fires creates an order of `sid`: its orders are the ones it had, and its
documents and map entries stay as blocked as before. -/
theorem zero_thresholds_block (sid : String) (events : List DCAEvent) (db : DCAStore)
    (hdoc : ∀ x ∈ db.strategies, x.strategyId = sid → ZeroBlocked x)
    (hsnap : ∀ x ∈ db.activeStrategies, x.2.strategyId = sid → ZeroBlocked x.2) :
    (∀ (s : DCAStrategy) (now : Nat), ZeroBlocked s → shouldExecuteDCAOrder s now = false) ∧
    (events.foldl handleDCA db).orders.filter (fun o => decide (o.strategyId = sid))
      = db.orders.filter (fun o => decide (o.strategyId = sid)) ∧
    (∀ x ∈ (events.foldl handleDCA db).strategies, x.strategyId = sid →
      ZeroBlocked x ∧ ∀ now, shouldExecuteDCAOrder x now = false) ∧
    (∀ x ∈ (events.foldl handleDCA db).activeStrategies, x.2.strategyId = sid →
      ZeroBlocked x.2 ∧ ∀ now, shouldExecuteDCAOrder x.2 now = false) := by
  refine ⟨fun s now h => zeroBlocked_never s now h, ?_⟩
  induction events generalizing db with
  | nil =>
    exact ⟨rfl, fun x hx hs => ⟨hdoc x hx hs, fun now => zeroBlocked_never x now (hdoc x hx hs)⟩,
      fun x hx hs => ⟨hsnap x hx hs, fun now => zeroBlocked_never x.2 now (hsnap x hx hs)⟩⟩
  | cons e events ih =>
    rw [List.foldl_cons]
    obtain ⟨a1, a2, a3⟩ := handleDCA_blocked db e sid hdoc hsnap
    obtain ⟨b1, b2, b3⟩ := ih (handleDCA db e) a2 a3
    exact ⟨b1.trans a1, b2, b3⟩

/-- C30 (witness): the strategy with the stop loss enabled at the default 0 executes no
order over two ticks and a timer fire, all of them past its next order time. -/
theorem zero_thresholds_block_witness :
    (dcaZeroEvents.foldl handleDCA dcaZeroStore).orders.filter
        (fun o => decide (o.strategyId = "DCA_1")) = [] ∧
    ∀ now, shouldExecuteDCAOrder dcaZero now = false := by
  have hz : ZeroBlocked dcaZero := ⟨rfl, rfl, Or.inl ⟨rfl, rfl⟩⟩
  have h := zero_thresholds_block "DCA_1" dcaZeroEvents dcaZeroStore
    (by
      intro x hx _
      rw [List.mem_singleton.mp hx]
      exact hz)
    (by
      intro x hx _
      rw [List.mem_singleton.mp hx]
      exact hz)
  exact ⟨h.2.1, fun now => h.1 dcaZero now hz⟩

/-! ## A second tick at the same price -/

theorem updateFirst_map_core {α β : Type} (g : α → β) (p : α → Bool) (f : α → α)
    (hf : ∀ a, g (f a) = g a) (l : List α) : (updateFirst p f l).map g = l.map g := by
  induction l with
  | nil => rfl
  | cons a l ih =>
    unfold updateFirst
    split_ifs
    · rw [List.map_cons, List.map_cons, hf]
    · rw [List.map_cons, List.map_cons, ih]

theorem modifyAt_map_core {α β : Type} (g : α → β) (f : α → α) (hf : ∀ a, g (f a) = g a)
    (i : Nat) (l : List α) : (modifyAt f i l).map g = l.map g := by
  apply List.ext_getElem?
  intro k
  rw [List.getElem?_map, List.getElem?_map, modifyAt_get]
  split_ifs with h
  · cases l[k]? with
    | none => rfl
    | some a => simp [hf]
  · rfl

theorem processOrder_core (now : Nat) (p : ℚ) (s : GridStrategy) (db : Store)
    (io : Nat × GridOrder) :
    (processOrder now p s db io).strategies.map coreOf = db.strategies.map coreOf := by
  unfold processOrder
  simp only
  split_ifs
  · unfold fillGridOrder updateGridMonitoringData
    simp only
    refine (updateFirst_map_core coreOf _ _ ?_ _).trans ?_
    · intro a; rfl
    · rw [createNextGridOrder_strategies]
  · rfl

theorem processStrategy_core (now : Nat) (p : ℚ) (db : Store) (is : Nat × GridStrategy) :
    (processStrategy now p db is).strategies.map coreOf = db.strategies.map coreOf := by
  rw [processStrategy_eq]
  have h : ∀ (P : List (Nat × GridOrder)) (d : Store),
      (P.foldl (processOrder now p (withPrice now p is.2)) d).strategies.map coreOf
        = d.strategies.map coreOf := by
    intro P
    induction P with
    | nil => intro d; rfl
    | cons io P ih =>
      intro d
      rw [List.foldl_cons, ih, processOrder_core]
  rw [h]
  exact modifyAt_map_core coreOf (withPrice now p) (fun a => rfl) is.1 db.strategies

theorem checkOrderFills_core (now : Nat) (symbol : String) (p : ℚ) (db : Store) :
    (checkOrderFills now symbol p db).strategies.map coreOf = db.strategies.map coreOf := by
  unfold checkOrderFills
  simp only
  generalize db.strategies.enum.filter
    (fun is => decide (is.2.symbol = symbol ∧ is.2.status = StrategyStatus.ACTIVE)) = AS
  induction AS generalizing db with
  | nil => rfl
  | cons a AS ih =>
    rw [List.foldl_cons, ih, processStrategy_core]

/-- Every document after a tick has the id, symbol, status and config of a document
before it, and the other way round. -/
theorem mem_of_map_core {l1 l2 : List GridStrategy} (h : l1.map coreOf = l2.map coreOf)
    (s : GridStrategy) (hs : s ∈ l1) : ∃ s0 ∈ l2, coreOf s0 = coreOf s := by
  have h1 : coreOf s ∈ l1.map coreOf := List.mem_map.mpr ⟨s, hs, rfl⟩
  rw [h] at h1
  obtain ⟨s0, hs0, he⟩ := List.mem_map.mp h1
  exact ⟨s0, hs0, he⟩

/-- The order that `createNextGridOrder` adds after a fill at `p` does not pass the fill
test at `p` when the step is at least `0.001 * upperPrice + 0.01`. -/
theorem createNextGridOrder_successor (now : Nat) (fo : GridOrder) (s : GridStrategy)
    (db : Store) (p : ℚ) (hfp : fo.fillPrice = some p)
    (hstep : gridStep s.config ≥ s.config.upperPrice / 1000 + 1 / 100) :
    ∃ l, (createNextGridOrder now fo s db).orders = db.orders ++ l ∧
      ∀ y ∈ l, y.strategyId = fo.strategyId ∧ y.status = OrderStatus.PENDING ∧ y.pnl = 0 ∧
        y.quantity = calculateQuantityPerLevel s.config p ∧ ¬ shouldFill y p ∧
        (y.type = OrderType.SELL → fo.type = OrderType.BUY) := by
  unfold gridStep at hstep
  unfold createNextGridOrder
  simp only [hfp, Option.getD_some]
  cases hty : fo.type with
  | BUY =>
    simp only
    split_ifs with hout
    · exact ⟨[], by simp, by simp⟩
    · refine ⟨_, rfl, ?_⟩
      intro y hy
      rw [List.mem_singleton] at hy
      subst hy
      refine ⟨rfl, rfl, rfl, rfl, ?_, fun _ => trivial⟩
      push_neg at hout
      have h1 := toFixed_two_ge (p + (s.config.upperPrice - s.config.lowerPrice) / (s.config.levels + 1))
      unfold shouldFill
      simp only
      rintro (⟨hc, _⟩ | ⟨_, hc⟩)
      · exact OrderType.noConfusion hc
      · linarith [hout.1]
  | SELL =>
    simp only
    split_ifs with hout
    · exact ⟨[], by simp, by simp⟩
    · refine ⟨_, rfl, ?_⟩
      intro y hy
      rw [List.mem_singleton] at hy
      subst hy
      refine ⟨rfl, rfl, rfl, rfl, ?_, fun h => OrderType.noConfusion h⟩
      push_neg at hout
      have h1 := toFixed_two_le (p - (s.config.upperPrice - s.config.lowerPrice) / (s.config.levels + 1))
      unfold shouldFill
      simp only
      rintro (⟨_, hc⟩ | ⟨hc, _⟩)
      · linarith [hout.1]
      · exact OrderType.noConfusion hc

/-- What one step of the order loop does to the ledger: the document at the order's
position is replaced by the filled or the touched order, and the orders added behind are
successors that do not pass the fill test at `p`. -/
theorem processOrder_shape (now : Nat) (p : ℚ) (s : GridStrategy) (db : Store)
    (io : Nat × GridOrder)
    (hstep : gridStep s.config ≥ s.config.upperPrice / 1000 + 1 / 100) :
    ∃ l, (processOrder now p s db io).orders
        = db.orders.set io.1
            (if shouldFill io.2 p then filledOrderDoc now (touch now p io.2) p db.orders
             else touch now p io.2) ++ l ∧
      (¬ shouldFill io.2 p → l = []) ∧
      ∀ y ∈ l, y.strategyId = io.2.strategyId ∧ y.status = OrderStatus.PENDING ∧ y.pnl = 0 ∧
        y.quantity = calculateQuantityPerLevel s.config p ∧ ¬ shouldFill y p ∧
        (y.type = OrderType.SELL → io.2.type = OrderType.BUY ∧ shouldFill io.2 p) := by
  have hsf : shouldFill (touch now p io.2) p ↔ shouldFill io.2 p := Iff.rfl
  unfold processOrder
  by_cases h : shouldFill io.2 p
  · simp only [h, hsf, if_true]
    have hd := filledOrderDoc_fields now (touch now p io.2) p db.orders
    obtain ⟨l, hl, hnew⟩ := createNextGridOrder_successor now
      (filledOrderDoc now (touch now p io.2) p db.orders) s
      { db with orders := db.orders.set io.1 (filledOrderDoc now (touch now p io.2) p db.orders) }
      p hd.2.1 hstep
    refine ⟨l, hl, fun hc => absurd trivial hc, ?_⟩
    intro y hy
    obtain ⟨a1, a2, a3, a4, a5, a6⟩ := hnew y hy
    exact ⟨a1.trans hd.2.2.2.2.2.2.2.2.2, a2, a3, a4, a5, fun ht => ⟨(a6 ht).symm ▸ hd.2.2.2.2.1.symm ▸ rfl, trivial⟩⟩
  · simp only [h, hsf, if_false]
    exact ⟨[], by simp, fun _ => rfl, by simp⟩

/-- The orders that the order loop adds behind the ledger are successors. -/
theorem foldl_processOrder_new (now : Nat) (p : ℚ) (s : GridStrategy)
    (hstep : gridStep s.config ≥ s.config.upperPrice / 1000 + 1 / 100) (sid : String)
    (P : List (Nat × GridOrder)) (db : Store) (n : Nat) (hn : n ≤ db.orders.length)
    (hP : ∀ io ∈ P, io.1 < n ∧ io.2.strategyId = sid) (i : Nat) (y : GridOrder)
    (hi : db.orders.length ≤ i)
    (hy : (P.foldl (processOrder now p s) db).orders[i]? = some y) :
    y.strategyId = sid ∧ y.status = OrderStatus.PENDING ∧ ¬ shouldFill y p := by
  induction P generalizing db with
  | nil =>
    rw [List.foldl_nil, List.getElem?_eq_none hi] at hy
    exact Option.noConfusion hy
  | cons io P ih =>
    rw [List.foldl_cons] at hy
    have hlen := processOrder_length now p s db io
    by_cases hlt : i < (processOrder now p s db io).orders.length
    · rw [foldl_processOrder_get_not_mem now p s P _ i hlt
        (fun x hx => by
          have := (hP x (List.mem_cons_of_mem _ hx)).1
          omega)] at hy
      obtain ⟨l, hl, _, hnew⟩ := processOrder_shape now p s db io hstep
      rw [hl, List.getElem?_append_right (by simpa using hi)] at hy
      have hmem := List.getElem?_mem hy
      obtain ⟨a1, a2, _, _, a5, _⟩ := hnew y hmem
      exact ⟨a1.trans (hP io (List.mem_cons_self _ _)).2, a2, a5⟩
    · exact ih (processOrder now p s db io) (le_trans hn hlen)
        (fun x hx => hP x (List.mem_cons_of_mem _ hx)) (not_lt.mp hlt) hy

/-- After the strategy's pass at the price `p`, no PENDING order with its id passes the
fill test at `p`. -/
theorem processStrategy_quiet (now : Nat) (p : ℚ) (db : Store) (is : Nat × GridStrategy)
    (hstep : gridStep is.2.config ≥ is.2.config.upperPrice / 1000 + 1 / 100) :
    Quiet p is.2.strategyId (processStrategy now p db is).orders := by
  intro o ho hsid hpend hfill
  obtain ⟨i, hi⟩ := List.mem_iff_getElem?.mp ho
  by_cases hlt : i < db.orders.length
  · obtain ⟨x, hx⟩ : ∃ x, db.orders[i]? = some x := ⟨db.orders[i], List.getElem?_eq_getElem hlt⟩
    obtain ⟨hA, hB⟩ := processStrategy_get now p db is i x hx
    by_cases hc : x.strategyId = is.2.strategyId ∧ x.status = OrderStatus.PENDING
    · obtain ⟨ords, h1⟩ := hA hc
      rw [hi] at h1
      have ho1 := Option.some.inj h1
      by_cases hf : shouldFill x p
      · rw [if_pos hf] at ho1
        rw [ho1, (filledOrderDoc_fields now (touch now p x) p ords).1] at hpend
        exact OrderStatus.noConfusion hpend
      · rw [if_neg hf] at ho1
        rw [ho1] at hfill
        exact hf hfill
    · have h1 := hB hc
      rw [hi] at h1
      have ho1 := Option.some.inj h1
      rw [ho1] at hsid hpend
      exact hc ⟨hsid, hpend⟩
  · rw [processStrategy_eq] at hi
    have h := foldl_processOrder_new now p (withPrice now p is.2) hstep is.2.strategyId
      (findPending is.2.strategyId db.orders)
      { db with strategies := modifyAt (withPrice now p) is.1 db.strategies }
      db.orders.length (le_refl _)
      (by
        intro io hio
        obtain ⟨h1, h2, _⟩ := (mem_findPending _ _ io).mp hio
        refine ⟨?_, h2⟩
        by_contra hc
        rw [List.getElem?_eq_none (not_lt.mp hc)] at h1
        exact Option.noConfusion h1)
      i o (not_lt.mp hlt) hi
    exact h.2.2 hfill

theorem quiet_of_ordersOf {p : ℚ} {sid : String} {A B : List GridOrder}
    (h : ordersOf sid A = ordersOf sid B) (hq : Quiet p sid B) : Quiet p sid A := by
  intro o ho hsid hpend
  have h1 : o ∈ ordersOf sid A := by
    unfold ordersOf
    rw [List.mem_filter]
    exact ⟨ho, by simpa using hsid⟩
  rw [h] at h1
  unfold ordersOf at h1
  exact hq o (List.mem_filter.mp h1).1 hsid hpend

/-- The pass of a strategy with another id leaves the orders of `sid` as they are. -/
theorem processStrategy_ordersOf_other (now : Nat) (p : ℚ) (db : Store)
    (is : Nat × GridStrategy) (sid : String) (hne : is.2.strategyId ≠ sid) :
    ordersOf sid (processStrategy now p db is).orders = ordersOf sid db.orders := by
  rw [processStrategy_eq]
  apply foldl_processOrder_ordersOf_other now p _ sid _
    { db with strategies := modifyAt (withPrice now p) is.1 db.strategies }
    (findPending_pairwise _ _)
  intro io hio
  obtain ⟨h1, h2, _⟩ := (mem_findPending _ _ io).mp hio
  exact ⟨h1, by rw [h2]; exact hne⟩

theorem foldl_processStrategy_quiet (now : Nat) (p : ℚ) (AS : List (Nat × GridStrategy))
    (db : Store) (sid : String)
    (hgood : ∀ is ∈ AS, is.2.strategyId = sid →
      gridStep is.2.config ≥ is.2.config.upperPrice / 1000 + 1 / 100)
    (h : Quiet p sid db.orders ∨ ∃ is ∈ AS, is.2.strategyId = sid) :
    Quiet p sid (AS.foldl (processStrategy now p) db).orders := by
  induction AS generalizing db with
  | nil =>
    rcases h with h | ⟨is, his, _⟩
    · exact h
    · simp at his
  | cons a AS ih =>
    rw [List.foldl_cons]
    apply ih _ (fun is his => hgood is (List.mem_cons_of_mem _ his))
    by_cases ha : a.2.strategyId = sid
    · left
      rw [← ha]
      exact processStrategy_quiet now p db a
        (hgood a (List.mem_cons_self _ _) ha)
    · rcases h with h | ⟨is, his, hsid⟩
      · left
        exact quiet_of_ordersOf (processStrategy_ordersOf_other now p db a sid ha) h
      · rcases List.mem_cons.mp his with h1 | h1
        · subst h1; exact absurd hsid ha
        · right; exact ⟨is, h1, hsid⟩

/-- After a tick at `p`, no PENDING order of an ACTIVE strategy on the symbol passes the
fill test at `p`. -/
theorem checkOrderFills_quiet (now : Nat) (symbol : String) (p : ℚ) (db : Store)
    (s : GridStrategy) (hs : s ∈ db.strategies) (hsym : s.symbol = symbol)
    (hact : s.status = StrategyStatus.ACTIVE)
    (hgood : ∀ x ∈ db.strategies, x.strategyId = s.strategyId → x.symbol = symbol →
      x.status = StrategyStatus.ACTIVE →
      gridStep x.config ≥ x.config.upperPrice / 1000 + 1 / 100) :
    Quiet p s.strategyId (checkOrderFills now symbol p db).orders := by
  unfold checkOrderFills
  apply foldl_processStrategy_quiet
  · intro is his hsid
    rw [List.mem_filter, List.mem_enum_iff_getElem?] at his
    have h2 : is.2.symbol = symbol ∧ is.2.status = StrategyStatus.ACTIVE := by simpa using his.2
    exact hgood is.2 (List.getElem?_mem his.1) hsid h2.1 h2.2
  · right
    obtain ⟨k, hk⟩ := List.mem_iff_getElem?.mp hs
    refine ⟨(k, s), ?_, rfl⟩
    rw [List.mem_filter, List.mem_enum_iff_getElem?]
    exact ⟨hk, by simp [hsym, hact]⟩

theorem set_eq_self_of_getElem? {α : Type} (l : List α) (i : Nat) (a : α)
    (h : l[i]? = some a) : l.set i a = l := by
  apply List.ext_getElem?
  intro k
  by_cases hk : i = k
  · subst hk
    have hlt : i < l.length := by
      by_contra hc
      rw [List.getElem?_eq_none (not_lt.mp hc)] at h
      exact Option.noConfusion h
    rw [List.getElem?_set_self hlt, h]
  · rw [List.getElem?_set_ne hk]

theorem processOrder_touch (now : Nat) (p : ℚ) (s : GridStrategy) (db : Store)
    (io : Nat × GridOrder) (h : ¬ shouldFill io.2 p) :
    processOrder now p s db io = { db with orders := db.orders.set io.1 (touch now p io.2) } := by
  have hsf : shouldFill (touch now p io.2) p ↔ shouldFill io.2 p := Iff.rfl
  unfold processOrder
  simp only [h, hsf, if_false]

/-- A pass over orders that do not pass the fill test only renews their stamps. -/
theorem foldl_processOrder_touch (now : Nat) (p : ℚ) (s : GridStrategy)
    (P : List (Nat × GridOrder)) (orders0 : List GridOrder) (db : Store)
    (hP : ∀ io ∈ P, orders0[io.1]? = some io.2 ∧ ¬ shouldFill io.2 p)
    (h : db.orders.map unstamped = orders0.map unstamped) :
    (P.foldl (processOrder now p s) db).orders.map unstamped = orders0.map unstamped := by
  induction P generalizing db with
  | nil => exact h
  | cons io P ih =>
    rw [List.foldl_cons]
    apply ih _ (fun x hx => hP x (List.mem_cons_of_mem _ hx))
    obtain ⟨h1, h2⟩ := hP io (List.mem_cons_self _ _)
    rw [processOrder_touch now p s db io h2]
    show (db.orders.set io.1 (touch now p io.2)).map unstamped = _
    rw [List.map_set, h]
    apply set_eq_self_of_getElem?
    rw [List.getElem?_map, h1]
    rfl

theorem unstamped_fields {a b : GridOrder} (he : unstamped a = unstamped b) :
    a.strategyId = b.strategyId ∧ a.status = b.status ∧ a.type = b.type ∧ a.price = b.price ∧
    a.quantity = b.quantity ∧ a.fillPrice = b.fillPrice ∧ a.fillQuantity = b.fillQuantity ∧
    a.pnl = b.pnl ∧ a.fillTime = b.fillTime := by
  have h1 : (unstamped a).strategyId = (unstamped b).strategyId := by rw [he]
  have h2 : (unstamped a).status = (unstamped b).status := by rw [he]
  have h3 : (unstamped a).type = (unstamped b).type := by rw [he]
  have h4 : (unstamped a).price = (unstamped b).price := by rw [he]
  have h5 : (unstamped a).quantity = (unstamped b).quantity := by rw [he]
  have h6 : (unstamped a).fillPrice = (unstamped b).fillPrice := by rw [he]
  have h7 : (unstamped a).fillQuantity = (unstamped b).fillQuantity := by rw [he]
  have h8 : (unstamped a).pnl = (unstamped b).pnl := by rw [he]
  have h9 : (unstamped a).fillTime = (unstamped b).fillTime := by rw [he]
  exact ⟨h1, h2, h3, h4, h5, h6, h7, h8, h9⟩

theorem quiet_of_unstamped {p : ℚ} {sid : String} {A B : List GridOrder}
    (h : A.map unstamped = B.map unstamped) (hq : Quiet p sid B) : Quiet p sid A := by
  intro o ho hsid hpend hfill
  have h1 : unstamped o ∈ A.map unstamped := List.mem_map.mpr ⟨o, ho, rfl⟩
  rw [h] at h1
  obtain ⟨o1, ho1, he⟩ := List.mem_map.mp h1
  obtain ⟨e1, e2, e3, e4, _⟩ := unstamped_fields he
  exact hq o1 ho1 (e1.trans hsid) (e2.trans hpend) ((shouldFill_congr e3 e4 p).mpr hfill)

theorem processStrategy_unstamped (now : Nat) (p : ℚ) (db : Store) (is : Nat × GridStrategy)
    (hq : Quiet p is.2.strategyId db.orders) :
    (processStrategy now p db is).orders.map unstamped = db.orders.map unstamped := by
  rw [processStrategy_eq]
  apply foldl_processOrder_touch now p _ _ db.orders
    { db with strategies := modifyAt (withPrice now p) is.1 db.strategies }
  · intro io hio
    obtain ⟨h1, h2, h3⟩ := (mem_findPending _ _ io).mp hio
    exact ⟨h1, hq io.2 (List.getElem?_mem h1) h2 h3⟩
  · rfl

theorem foldl_processStrategy_unstamped (now : Nat) (p : ℚ) (AS : List (Nat × GridStrategy))
    (orders0 : List GridOrder) (db : Store)
    (hq : ∀ is ∈ AS, Quiet p is.2.strategyId orders0)
    (h : db.orders.map unstamped = orders0.map unstamped) :
    (AS.foldl (processStrategy now p) db).orders.map unstamped = orders0.map unstamped := by
  induction AS generalizing db with
  | nil => exact h
  | cons a AS ih =>
    rw [List.foldl_cons]
    apply ih _ (fun is his => hq is (List.mem_cons_of_mem _ his))
    rw [processStrategy_unstamped now p db a
      (quiet_of_unstamped h (hq a (List.mem_cons_self _ _)))]
    exact h

/-- The orders behind the ledger of the tick's start are PENDING and do not pass the fill
test at `p`. -/
theorem foldl_processStrategy_new (now : Nat) (p : ℚ) (AS : List (Nat × GridStrategy))
    (db : Store) (n : Nat)
    (hgood : ∀ is ∈ AS, gridStep is.2.config ≥ is.2.config.upperPrice / 1000 + 1 / 100)
    (hinv : ∀ (i : Nat) (o : GridOrder), n ≤ i → db.orders[i]? = some o →
      o.status = OrderStatus.PENDING ∧ ¬ shouldFill o p)
    (i : Nat) (o : GridOrder) (hi : n ≤ i)
    (ho : (AS.foldl (processStrategy now p) db).orders[i]? = some o) :
    o.status = OrderStatus.PENDING ∧ ¬ shouldFill o p := by
  induction AS generalizing db with
  | nil => exact hinv i o hi ho
  | cons a AS ih =>
    rw [List.foldl_cons] at ho
    apply ih _ (fun is his => hgood is (List.mem_cons_of_mem _ his)) _ ho
    intro j y hj hy
    by_cases hlt : j < db.orders.length
    · obtain ⟨x, hx⟩ : ∃ x, db.orders[j]? = some x :=
        ⟨db.orders[j], List.getElem?_eq_getElem hlt⟩
      obtain ⟨hxp, hxf⟩ := hinv j x hj hx
      obtain ⟨hA, hB⟩ := processStrategy_get now p db a j x hx
      by_cases hc : x.strategyId = a.2.strategyId ∧ x.status = OrderStatus.PENDING
      · obtain ⟨ords, h1⟩ := hA hc
        rw [hy, if_neg hxf] at h1
        rw [Option.some.inj h1]
        exact ⟨hxp, hxf⟩
      · have h1 := hB hc
        rw [hy] at h1
        rw [Option.some.inj h1]
        exact ⟨hxp, hxf⟩
    · rw [processStrategy_eq] at hy
      have h := foldl_processOrder_new now p (withPrice now p a.2)
        (hgood a (List.mem_cons_self _ _)) a.2.strategyId
        (findPending a.2.strategyId db.orders)
        { db with strategies := modifyAt (withPrice now p) a.1 db.strategies }
        db.orders.length (le_refl _)
        (by
          intro io hio
          obtain ⟨h1, h2, _⟩ := (mem_findPending _ _ io).mp hio
          refine ⟨?_, h2⟩
          by_contra hc
          rw [List.getElem?_eq_none (not_lt.mp hc)] at h1
          exact Option.noConfusion h1)
        j y (not_lt.mp hlt) hy
      exact ⟨h.2.1, h.2.2⟩

/-- C27: when every ACTIVE strategy on the symbol has a step
`(upperPrice - lowerPrice) / (levels + 1)` greater than `0.001 * upperPrice + 0.01` (and
`levels + 1` is not 0), then for every price `p` a second `checkOrderFills(symbol, p)`
leaves the ledger of the first as it is up to the two last-checked stamps: the same number
of orders, each with the same status, fill price, fill quantity and `pnl`; in particular
the orders that `createNextGridOrder` added during the first application are PENDING
after the first and still PENDING after the second. -/
theorem checkOrderFills_twice (now1 now2 : Nat) (symbol : String) (p : ℚ) (db : Store)
    (hcfg : ∀ s ∈ db.strategies, s.symbol = symbol → s.status = StrategyStatus.ACTIVE →
      s.config.levels + 1 ≠ 0 ∧ gridStep s.config > s.config.upperPrice / 1000 + 1 / 100) :
    (checkOrderFills now2 symbol p (checkOrderFills now1 symbol p db)).orders.map unstamped
      = (checkOrderFills now1 symbol p db).orders.map unstamped ∧
    (checkOrderFills now2 symbol p (checkOrderFills now1 symbol p db)).orders.length
      = (checkOrderFills now1 symbol p db).orders.length ∧
    (∀ (i : Nat) (o : GridOrder), (checkOrderFills now1 symbol p db).orders[i]? = some o →
      ∃ y, (checkOrderFills now2 symbol p (checkOrderFills now1 symbol p db)).orders[i]? = some y ∧
        y.status = o.status ∧ y.fillPrice = o.fillPrice ∧ y.fillQuantity = o.fillQuantity ∧
        y.pnl = o.pnl ∧ y.type = o.type ∧ y.price = o.price ∧ y.quantity = o.quantity) ∧
    (∀ (i : Nat) (o : GridOrder), db.orders.length ≤ i →
      (checkOrderFills now1 symbol p db).orders[i]? = some o →
      o.status = OrderStatus.PENDING ∧
      ∃ y, (checkOrderFills now2 symbol p (checkOrderFills now1 symbol p db)).orders[i]? = some y ∧
        y.status = OrderStatus.PENDING) := by
  have hcore := checkOrderFills_core now1 symbol p db
  have hmap : (checkOrderFills now2 symbol p (checkOrderFills now1 symbol p db)).orders.map unstamped
      = (checkOrderFills now1 symbol p db).orders.map unstamped := by
    show (List.foldl (processStrategy now2 p) (checkOrderFills now1 symbol p db) _).orders.map
      unstamped = _
    apply foldl_processStrategy_unstamped now2 p _ _ _ _ rfl
    intro is his
    rw [List.mem_filter, List.mem_enum_iff_getElem?] at his
    have h2 : is.2.symbol = symbol ∧ is.2.status = StrategyStatus.ACTIVE := by simpa using his.2
    obtain ⟨s0, hs0, he⟩ := mem_of_map_core hcore is.2 (List.getElem?_mem his.1)
    have e1 : s0.strategyId = is.2.strategyId := congrArg (fun c => c.1) he
    have e2 : s0.symbol = is.2.symbol := congrArg (fun c => c.2.1) he
    have e3 : s0.status = is.2.status := congrArg (fun c => c.2.2.1) he
    rw [← e1]
    apply checkOrderFills_quiet now1 symbol p db s0 hs0 (e2.trans h2.1) (e3.trans h2.2)
    intro x hx _ hxs hxa
    exact le_of_lt (hcfg x hx hxs hxa).2
  have hget : ∀ (i : Nat) (o : GridOrder),
      (checkOrderFills now1 symbol p db).orders[i]? = some o →
      ∃ y, (checkOrderFills now2 symbol p (checkOrderFills now1 symbol p db)).orders[i]? = some y ∧
        unstamped y = unstamped o := by
    intro i o ho
    have h1 := congrArg (fun l => l[i]?) hmap
    simp only [List.getElem?_map, ho, Option.map_some'] at h1
    cases hy : (checkOrderFills now2 symbol p (checkOrderFills now1 symbol p db)).orders[i]? with
    | none =>
      rw [hy] at h1
      exact Option.noConfusion h1
    | some y =>
      rw [hy, Option.map_some'] at h1
      exact ⟨y, rfl, Option.some.inj h1⟩
  refine ⟨hmap, ?_, ?_, ?_⟩
  · have := congrArg List.length hmap
    simpa using this
  · intro i o ho
    obtain ⟨y, hy, he⟩ := hget i o ho
    obtain ⟨_, e2, e3, e4, e5, e6, e7, e8, _⟩ := unstamped_fields he
    exact ⟨y, hy, e2, e6, e7, e8, e3, e4, e5⟩
  · intro i o hi ho
    have hp : o.status = OrderStatus.PENDING ∧ ¬ shouldFill o p := by
      apply foldl_processStrategy_new now1 p _ db db.orders.length _ _ i o hi ho
      · intro is his
        rw [List.mem_filter, List.mem_enum_iff_getElem?] at his
        have h2 : is.2.symbol = symbol ∧ is.2.status = StrategyStatus.ACTIVE := by
          simpa using his.2
        exact le_of_lt (hcfg is.2 (List.getElem?_mem his.1) h2.1 h2.2).2
      · intro j y hj hy
        rw [List.getElem?_eq_none hj] at hy
        exact Option.noConfusion hy
    obtain ⟨y, hy, he⟩ := hget i o ho
    exact ⟨hp.1, y, hy, (unstamped_fields he).2.1.trans hp.1⟩

/-- C27 (witness): the sample store, whose grid has the step 2.5. The tick at 100 fills the
BUY at 100 and adds a successor; the second tick at 100 leaves both orders as they are. -/
theorem checkOrderFills_twice_witness :
    (checkOrderFills 1 "SBIN" 100 sampleStore).orders.map (fun o => (o.type, o.status))
      = [(OrderType.BUY, OrderStatus.FILLED), (OrderType.SELL, OrderStatus.PENDING)] ∧
    (checkOrderFills 2 "SBIN" 100 (checkOrderFills 1 "SBIN" 100 sampleStore)).orders.map unstamped
      = (checkOrderFills 1 "SBIN" 100 sampleStore).orders.map unstamped := by
  refine ⟨by decide!, (checkOrderFills_twice 1 2 "SBIN" 100 sampleStore ?_).1⟩
  intro s hs _ _
  rw [List.mem_singleton.mp hs]
  constructor
  · norm_num [arithmeticExample]
  · norm_num [gridStep, arithmeticExample]

/-! ## No trade books a loss -/

theorem filledOrderDoc_pnl (now : Nat) (o : GridOrder) (p : ℚ) (ords : List GridOrder) :
    (o.type = OrderType.BUY → (filledOrderDoc now o p ords).pnl = 0) ∧
    (o.type = OrderType.SELL →
      (filledOrderDoc now o p ords).pnl = o.pnl ∨
      ∃ b ∈ ords, isFilledBuy o.strategyId b ∧
        (∀ c ∈ ords, isFilledBuy o.strategyId c → fillTimeKey c ≤ fillTimeKey b) ∧
        (filledOrderDoc now o p ords).pnl = (p - b.fillPrice.getD 0) * o.quantity) := by
  constructor
  · intro hb
    unfold filledOrderDoc
    simp only [hb]
  · intro hsell
    cases hq : filledBuysLatestFirst o.strategyId ords with
    | nil =>
      left
      unfold filledOrderDoc
      simp only [hsell, hq]
    | cons b rest =>
      right
      obtain ⟨h1, h2, h3⟩ := filledBuysLatestFirst_head o.strategyId ords b rest hq
      refine ⟨b, h1, h2, h3, ?_⟩
      unfold filledOrderDoc
      simp only [hsell, hq]

theorem mem_set_of_ne {α : Type} (l : List α) (i : Nat) (a b y : α) (h : l[i]? = some a)
    (hy : y ∈ l) (hne : y ≠ a) : y ∈ l.set i b := by
  obtain ⟨j, hj⟩ := List.mem_iff_getElem?.mp hy
  have hji : i ≠ j := by
    intro hc
    rw [hc, hj] at h
    exact hne (Option.some.inj h)
  have h2 : (l.set i b)[j]? = some y := by
    rw [List.getElem?_set_ne hji]
    exact hj
  exact List.getElem?_mem h2

theorem fillTimeKey_filled (now : Nat) (o : GridOrder) (p : ℚ) (ords : List GridOrder) :
    fillTimeKey (filledOrderDoc now o p ords) = now + 1 := by
  unfold fillTimeKey
  rw [(filledOrderDoc_fields now o p ords).2.2.1]

/-- One step of the order loop keeps the facts of the tick. -/
theorem processOrder_tickInv (now : Nat) (p : ℚ) (s : GridStrategy) (db : Store)
    (io : Nat × GridOrder) (sid : String) (K : Nat) (f : ℚ) (hK : K ≤ now)
    (hstep : gridStep s.config ≥ s.config.upperPrice / 1000 + 1 / 100)
    (hqty : 0 ≤ calculateQuantityPerLevel s.config p)
    (hio : db.orders[io.1]? = some io.2) (hsid : io.2.strategyId = sid)
    (hpend : io.2.status = OrderStatus.PENDING)
    (hinv : TickInv sid K f now p db.orders) :
    TickInv sid K f now p (processOrder now p s db io).orders := by
  obtain ⟨l, hl, hnil, hnew⟩ := processOrder_shape now p s db io hstep
  obtain ⟨m1, m2, m3, m4⟩ := hinv
  have hiomem : io.2 ∈ db.orders := List.getElem?_mem hio
  have hilt : io.1 < db.orders.length := by
    by_contra hc
    rw [List.getElem?_eq_none (not_lt.mp hc)] at hio
    exact Option.noConfusion hio
  obtain ⟨q1, q2, q3⟩ := m1 io.2 hiomem hsid
  rw [hl]
  generalize hx : (if shouldFill io.2 p then filledOrderDoc now (touch now p io.2) p db.orders
    else touch now p io.2) = x at hl ⊢
  -- membership in the new ledger
  have F1 : ∀ y ∈ db.orders.set io.1 x ++ l, y = x ∨ y ∈ l ∨ y ∈ db.orders := by
    intro y hy
    rcases List.mem_append.mp hy with h | h
    · rcases List.mem_or_eq_of_mem_set h with h1 | h1
      · exact Or.inr (Or.inr h1)
      · exact Or.inl h1
    · exact Or.inr (Or.inl h)
  have F2 : ∀ y ∈ db.orders, y.status ≠ OrderStatus.PENDING →
      y ∈ db.orders.set io.1 x ++ l := by
    intro y hy hne
    apply List.mem_append_left
    apply mem_set_of_ne db.orders io.1 io.2 x y hio hy
    intro hc
    rw [hc] at hne
    exact hne hpend
  have hxmem : x ∈ db.orders.set io.1 x ++ l :=
    List.mem_append_left _ (List.mem_set _ _ hilt x)
  have hFN : FilledNow sid now db.orders → FilledNow sid now (db.orders.set io.1 x ++ l) := by
    rintro ⟨y, hy, hfb, hkey⟩
    refine ⟨y, F2 y hy ?_, hfb, hkey⟩
    rw [hfb.2.2]
    exact fun h => OrderStatus.noConfusion h
  have hlpend : ∀ y ∈ l, ¬ isFilledBuy sid y := by
    intro y hy hfb
    have h1 := hfb.2.2
    rw [(hnew y hy).2.1] at h1
    exact OrderStatus.noConfusion h1
  have hlbook : ∀ y ∈ l, 0 ≤ y.pnl ∧ (y.status = OrderStatus.PENDING → y.pnl = 0) ∧
      0 ≤ y.quantity := by
    intro y hy
    obtain ⟨_, _, a3, a4, _, _⟩ := hnew y hy
    rw [a3, a4]
    exact ⟨le_refl _, fun _ => rfl, hqty⟩
  by_cases hf : shouldFill io.2 p
  · rw [if_pos hf] at hx
    have hd := filledOrderDoc_fields now (touch now p io.2) p db.orders
    rw [hx] at hd
    have hkey : fillTimeKey x = now + 1 := by
      rw [← hx]
      exact fillTimeKey_filled now _ p db.orders
    have hxnp : x.status ≠ OrderStatus.PENDING := by
      rw [hd.1]
      exact fun h => OrderStatus.noConfusion h
    obtain ⟨hpb, hps⟩ := filledOrderDoc_pnl now (touch now p io.2) p db.orders
    rw [hx] at hpb hps
    cases hty : io.2.type with
    | BUY =>
      have hxfb : isFilledBuy sid x := ⟨hd.2.2.2.2.2.2.2.2.2.trans hsid, hd.2.2.2.2.1.trans hty, hd.1⟩
      have hFNnew : FilledNow sid now (db.orders.set io.1 x ++ l) := ⟨x, hxmem, hxfb, hkey⟩
      refine ⟨?_, ?_, ?_, ?_⟩
      · intro o ho hos
        rcases F1 o ho with h | h | h
        · rw [h, hpb hty, hd.2.2.2.2.2.2.1]
          exact ⟨le_refl _, fun _ => rfl, q3⟩
        · exact hlbook o h
        · exact m1 o h hos
      · intro y hy hfb
        rcases F1 y hy with h | h | h
        · right
          rw [h]
          exact ⟨hkey, by rw [hd.2.1]; rfl⟩
        · exact absurd hfb (hlpend y h)
        · exact m2 y h hfb
      · intro b hb hfb hbK hmax
        rcases F1 b hb with h | h | h
        · rw [h, hkey] at hbK
          omega
        · exact absurd hfb (hlpend b h)
        · have := hmax x hxmem hxfb
          rw [hkey] at this
          omega
      · intro o _ _ _ _
        exact Or.inr hFNnew
    | SELL =>
      have hxnb : ¬ isFilledBuy sid x := by
        intro hc
        have := hc.2.1
        rw [hd.2.2.2.2.1] at this
        have h2 : io.2.type = OrderType.BUY := this
        rw [hty] at h2
        exact OrderType.noConfusion h2
      have hold : ∀ y ∈ db.orders.set io.1 x ++ l, isFilledBuy sid y → y ∈ db.orders := by
        intro y hy hfb
        rcases F1 y hy with h | h | h
        · rw [h] at hfb; exact absurd hfb hxnb
        · exact absurd hfb (hlpend y h)
        · exact h
      have hpfill : p ≥ io.2.price - io.2.price * (1 / 1000) := by
        rcases hf with ⟨hc, _⟩ | ⟨_, hc⟩
        · rw [hty] at hc; exact OrderType.noConfusion hc
        · exact hc
      refine ⟨?_, ?_, ?_, ?_⟩
      · intro o ho hos
        rcases F1 o ho with h | h | h
        · rw [h, hd.1, hd.2.2.2.2.2.2.1]
          refine ⟨?_, fun hc => OrderStatus.noConfusion hc, q3⟩
          rcases hps hty with h1 | ⟨b, hb, hfb, hmax, h1⟩
          · rw [h1]
            exact q1
          · rw [h1]
            have hfb1 : isFilledBuy sid b := by
              have := hfb
              rw [show (touch now p io.2).strategyId = sid from hsid] at this
              exact this
            have hmax1 : ∀ c ∈ db.orders, isFilledBuy sid c → fillTimeKey c ≤ fillTimeKey b := by
              intro c hc hfc
              apply hmax c hc
              rw [show (touch now p io.2).strategyId = sid from hsid]
              exact hfc
            apply mul_nonneg _ q3
            rcases m2 b hb hfb1 with hk | ⟨_, hpr⟩
            · have hbf := m3 b hb hfb1 hk hmax1
              rw [hbf]
              rcases m4 io.2 hiomem hsid hpend hty with h4 | ⟨y, hy, hfy, hky⟩
              · linarith
              · have := hmax1 y hy hfy
                omega
            · rw [hpr]
              linarith
        · exact hlbook o h
        · exact m1 o h hos
      · intro y hy hfb
        exact m2 y (hold y hy hfb) hfb
      · intro b hb hfb hbK hmax
        apply m3 b (hold b hb hfb) hfb hbK
        intro c hc hfc
        apply hmax c (F2 c hc _) hfc
        rw [hfc.2.2]
        exact fun h => OrderStatus.noConfusion h
      · intro o ho hos hop hot
        rcases F1 o ho with h | h | h
        · rw [h] at hop
          exact absurd hop hxnp
        · have := ((hnew o h).2.2.2.2.2 hot).1
          rw [hty] at this
          exact OrderType.noConfusion this
        · rcases m4 o h hos hop hot with h4 | h4
          · exact Or.inl h4
          · exact Or.inr (hFN h4)
  · rw [if_neg hf] at hx
    have hlnil := hnil hf
    have hxnb : ¬ isFilledBuy sid x := by
      intro hc
      have := hc.2.2
      rw [← hx] at this
      have h2 : io.2.status = OrderStatus.FILLED := this
      rw [hpend] at h2
      exact OrderStatus.noConfusion h2
    have hold : ∀ y ∈ db.orders.set io.1 x ++ l, isFilledBuy sid y → y ∈ db.orders := by
      intro y hy hfb
      rcases F1 y hy with h | h | h
      · rw [h] at hfb; exact absurd hfb hxnb
      · exact absurd hfb (hlpend y h)
      · exact h
    refine ⟨?_, ?_, ?_, ?_⟩
    · intro o ho hos
      rcases F1 o ho with h | h | h
      · rw [h, ← hx]
        exact ⟨q1, q2, q3⟩
      · exact hlbook o h
      · exact m1 o h hos
    · intro y hy hfb
      exact m2 y (hold y hy hfb) hfb
    · intro b hb hfb hbK hmax
      apply m3 b (hold b hb hfb) hfb hbK
      intro c hc hfc
      apply hmax c (F2 c hc _) hfc
      rw [hfc.2.2]
      exact fun h => OrderStatus.noConfusion h
    · intro o ho hos hop hot
      rcases F1 o ho with h | h | h
      · have hot1 : io.2.type = OrderType.SELL := by
          rw [h, ← hx] at hot
          exact hot
        rcases m4 io.2 hiomem hsid hpend hot1 with h4 | h4
        · left
          rw [h, ← hx]
          exact h4
        · exact Or.inr (hFN h4)
      · rw [hlnil] at h
        simp at h
      · rcases m4 o h hos hop hot with h4 | h4
        · exact Or.inl h4
        · exact Or.inr (hFN h4)

theorem toFixed_nonneg (d : Nat) {x : ℚ} (h : 0 ≤ x) : 0 ≤ toFixed d x := by
  have := toFixed_mono d h
  rw [toFixed_zero] at this
  exact this

theorem fillGridOrder_strategies (now i : Nat) (order : GridOrder) (p : ℚ) (s : GridStrategy)
    (db : Store) :
    (fillGridOrder now i order p s db).strategies
      = updateFirst (fun x => decide (x.strategyId = (filledOrderDoc now order p db.orders).strategyId))
          (fun x => { x with monitoring :=
            (recomputeMonitoring now
              ((fillGridOrder now i order p s db).orders.filter
                (fun o => decide (o.strategyId = (filledOrderDoc now order p db.orders).strategyId)))
              x.monitoring) })
          db.strategies := by
  unfold fillGridOrder updateGridMonitoringData
  simp only [createNextGridOrder_strategies]

/-- One step of the order loop keeps the stored `totalPnL` of the strategy sound, when the
orders of the strategy carry no negative `pnl` after the step. -/
theorem processOrder_pnlSound (now : Nat) (p : ℚ) (s : GridStrategy) (db : Store)
    (io : Nat × GridOrder) (sid : String) (base : List GridStrategy)
    (hdocs : PnlSound sid base db.strategies)
    (hbook : io.2.strategyId = sid →
      ∀ o ∈ (processOrder now p s db io).orders, o.strategyId = sid → 0 ≤ o.pnl) :
    PnlSound sid base (processOrder now p s db io).strategies := by
  have hsf : shouldFill (touch now p io.2) p ↔ shouldFill io.2 p := Iff.rfl
  by_cases h : shouldFill io.2 p
  · have he : processOrder now p s db io = fillGridOrder now io.1 (touch now p io.2) p s db := by
      unfold processOrder
      simp only [h, hsf, if_true]
    rw [he] at hbook ⊢
    rw [fillGridOrder_strategies]
    intro y hy hys
    rcases mem_updateFirst _ _ _ y hy with h1 | ⟨x, _, hpx, hyx⟩
    · exact hdocs y h1 hys
    · have hxid : x.strategyId = io.2.strategyId := by
        have h2 : x.strategyId = (filledOrderDoc now (touch now p io.2) p db.orders).strategyId := by
          simpa using hpx
        rw [h2, (filledOrderDoc_fields now (touch now p io.2) p db.orders).2.2.2.2.2.2.2.2.2]
        rfl
      have hio : io.2.strategyId = sid := by
        rw [← hxid, ← hys, hyx]
      rw [hyx]
      left
      show 0 ≤ toFixed 2 (sumPnl _)
      apply toFixed_nonneg
      rw [sumPnl_eq]
      apply List.sum_nonneg
      intro v hv
      obtain ⟨o, ho, hov⟩ := List.mem_map.mp hv
      rw [← hov]
      have ho1 := List.mem_filter.mp ho
      apply hbook hio o ho1.1
      have h3 : o.strategyId = (filledOrderDoc now (touch now p io.2) p db.orders).strategyId := by
        simpa using ho1.2
      rw [h3, (filledOrderDoc_fields now (touch now p io.2) p db.orders).2.2.2.2.2.2.2.2.2]
      exact hio
  · rw [processOrder_touch now p s db io h]
    exact hdocs

theorem foldl_processOrder_tickInv (now : Nat) (p : ℚ) (s : GridStrategy) (sid : String)
    (K : Nat) (f : ℚ) (hK : K ≤ now)
    (hstep : gridStep s.config ≥ s.config.upperPrice / 1000 + 1 / 100)
    (hqty : 0 ≤ calculateQuantityPerLevel s.config p)
    (P : List (Nat × GridOrder)) (db : Store)
    (hP : P.Pairwise (fun a b => a.1 ≠ b.1))
    (hmem : ∀ io ∈ P, db.orders[io.1]? = some io.2 ∧ io.2.strategyId = sid ∧
      io.2.status = OrderStatus.PENDING)
    (hinv : TickInv sid K f now p db.orders) (base : List GridStrategy)
    (hpnl : PnlSound sid base db.strategies) :
    TickInv sid K f now p (P.foldl (processOrder now p s) db).orders ∧
    PnlSound sid base (P.foldl (processOrder now p s) db).strategies := by
  induction P generalizing db with
  | nil => exact ⟨hinv, hpnl⟩
  | cons io P ih =>
    rw [List.foldl_cons]
    rw [List.pairwise_cons] at hP
    obtain ⟨h1, h2, h3⟩ := hmem io (List.mem_cons_self _ _)
    have hinv1 := processOrder_tickInv now p s db io sid K f hK hstep hqty h1 h2 h3 hinv
    have hpnl1 := processOrder_pnlSound now p s db io sid base hpnl
      (fun _ o ho hos => (hinv1.1 o ho hos).1)
    apply ih _ hP.2 _ hinv1 hpnl1
    intro io1 hio1
    obtain ⟨h4, h5, h6⟩ := hmem io1 (List.mem_cons_of_mem _ hio1)
    refine ⟨?_, h5, h6⟩
    have hlt : io1.1 < db.orders.length := by
      by_contra hc
      rw [List.getElem?_eq_none (not_lt.mp hc)] at h4
      exact Option.noConfusion h4
    rw [processOrder_get_ne now p s db io io1.1 (hP.1 io1 hio1) hlt]
    exact h4

theorem foldl_processOrder_pnlSound_other (now : Nat) (p : ℚ) (s : GridStrategy)
    (sid : String) (base : List GridStrategy) (P : List (Nat × GridOrder)) (db : Store)
    (hP : ∀ io ∈ P, io.2.strategyId ≠ sid) (hpnl : PnlSound sid base db.strategies) :
    PnlSound sid base (P.foldl (processOrder now p s) db).strategies := by
  induction P generalizing db with
  | nil => exact hpnl
  | cons io P ih =>
    rw [List.foldl_cons]
    apply ih _ (fun x hx => hP x (List.mem_cons_of_mem _ hx))
    exact processOrder_pnlSound now p s db io sid base hpnl
      (fun hc => absurd hc (hP io (List.mem_cons_self _ _)))

theorem pnlSound_withPrice (now : Nat) (p : ℚ) (sid : String) (base : List GridStrategy)
    (i : Nat) (l : List GridStrategy) (h : PnlSound sid base l) :
    PnlSound sid base (modifyAt (withPrice now p) i l) := by
  intro y hy hys
  rcases mem_modifyAt _ _ _ y hy with h1 | ⟨x, hx, h1⟩
  · exact h y h1 hys
  · rw [h1] at hys ⊢
    exact h x hx hys

theorem mem_ordersOf (sid : String) (A : List GridOrder) (o : GridOrder) :
    o ∈ ordersOf sid A ↔ o ∈ A ∧ o.strategyId = sid := by
  unfold ordersOf
  rw [List.mem_filter]
  simp

theorem filledNow_of_ordersOf {sid : String} {now : Nat} {A B : List GridOrder}
    (h : ordersOf sid A = ordersOf sid B) (hf : FilledNow sid now B) : FilledNow sid now A := by
  obtain ⟨x, hx, hfb, hk⟩ := hf
  have h1 : x ∈ ordersOf sid B := (mem_ordersOf sid B x).mpr ⟨hx, hfb.1⟩
  rw [← h] at h1
  exact ⟨x, ((mem_ordersOf sid A x).mp h1).1, hfb, hk⟩

theorem tickInv_of_ordersOf {sid : String} {K : Nat} {f : ℚ} {now : Nat} {p : ℚ}
    {A B : List GridOrder} (h : ordersOf sid A = ordersOf sid B)
    (hinv : TickInv sid K f now p B) : TickInv sid K f now p A := by
  have hAB : ∀ o, o ∈ A → o.strategyId = sid → o ∈ B := by
    intro o ho hs
    have h1 : o ∈ ordersOf sid A := (mem_ordersOf sid A o).mpr ⟨ho, hs⟩
    rw [h] at h1
    exact ((mem_ordersOf sid B o).mp h1).1
  have hBA : ∀ o, o ∈ B → o.strategyId = sid → o ∈ A := by
    intro o ho hs
    have h1 : o ∈ ordersOf sid B := (mem_ordersOf sid B o).mpr ⟨ho, hs⟩
    rw [← h] at h1
    exact ((mem_ordersOf sid A o).mp h1).1
  obtain ⟨m1, m2, m3, m4⟩ := hinv
  refine ⟨?_, ?_, ?_, ?_⟩
  · intro o ho hs
    exact m1 o (hAB o ho hs) hs
  · intro x hx hfb
    exact m2 x (hAB x hx hfb.1) hfb
  · intro b hb hfb hk hmax
    apply m3 b (hAB b hb hfb.1) hfb hk
    intro c hc hfc
    exact hmax c (hBA c hc hfc.1) hfc
  · intro o ho hs hp ht
    rcases m4 o (hAB o ho hs) hs hp ht with h4 | h4
    · exact Or.inl h4
    · exact Or.inr (filledNow_of_ordersOf h h4)

/-- Under the conditions of `WideGrid` the quantity of an order created at a positive price
is not negative. -/
theorem wideGrid_quantity (config : GridConfig) (h : WideGrid config) (p : ℚ) (hp : 0 < p) :
    0 ≤ calculateQuantityPerLevel config p := by
  unfold calculateQuantityPerLevel
  split_ifs with hq
  · exact le_of_lt hq
  · rcases h.2.2 with h1 | ⟨_, h1⟩
    · exact absurd h1 hq
    · apply toFixed_nonneg
      have hne : p ≠ 0 := ne_of_gt hp
      have : orElse p ((config.upperPrice + config.lowerPrice) / 2) = p := by
        unfold orElse
        rw [if_neg hne]
      simp only [this]
      exact div_nonneg h1 (le_of_lt hp)

/-- The pass of one strategy keeps the facts of the tick for the strategy `sid`. -/
theorem processStrategy_tickInv (now : Nat) (p : ℚ) (db : Store) (is : Nat × GridStrategy)
    (sid : String) (base : List GridStrategy) (K : Nat) (f : ℚ) (hK : K ≤ now) (hp : 0 < p)
    (hgood : is.2.strategyId = sid → WideGrid is.2.config)
    (hinv : TickInv sid K f now p db.orders)
    (hq : FilledNow sid now db.orders → Quiet p sid db.orders)
    (hpnl : PnlSound sid base db.strategies) :
    TickInv sid K f now p (processStrategy now p db is).orders ∧
    (FilledNow sid now (processStrategy now p db is).orders →
      Quiet p sid (processStrategy now p db is).orders) ∧
    PnlSound sid base (processStrategy now p db is).strategies := by
  by_cases hsid : is.2.strategyId = sid
  · obtain ⟨_, g2, _⟩ := hgood hsid
    have hquiet := processStrategy_quiet now p db is g2
    rw [hsid] at hquiet
    rw [processStrategy_eq] at hquiet ⊢
    obtain ⟨a1, a2⟩ := foldl_processOrder_tickInv now p (withPrice now p is.2) sid K f hK g2
      (wideGrid_quantity is.2.config (hgood hsid) p hp) (findPending is.2.strategyId db.orders)
      { db with strategies := modifyAt (withPrice now p) is.1 db.strategies }
      (findPending_pairwise _ _)
      (by
        intro io hio
        obtain ⟨h1, h2, h3⟩ := (mem_findPending _ _ io).mp hio
        exact ⟨h1, h2.trans hsid, h3⟩)
      hinv base (pnlSound_withPrice now p sid base is.1 db.strategies hpnl)
    exact ⟨a1, fun _ => hquiet, a2⟩
  · have hord := processStrategy_ordersOf_other now p db is sid hsid
    refine ⟨tickInv_of_ordersOf hord hinv, ?_, ?_⟩
    · intro hfn
      exact quiet_of_ordersOf hord (hq (filledNow_of_ordersOf hord.symm hfn))
    · rw [processStrategy_eq]
      apply foldl_processOrder_pnlSound_other now p _ sid base _
        { db with strategies := modifyAt (withPrice now p) is.1 db.strategies }
      · intro io hio
        obtain ⟨_, h2, _⟩ := (mem_findPending _ _ io).mp hio
        rw [h2]
        exact hsid
      · exact pnlSound_withPrice now p sid base is.1 db.strategies hpnl

theorem foldl_processStrategy_tickInv (now : Nat) (p : ℚ) (AS : List (Nat × GridStrategy))
    (db : Store) (sid : String) (base : List GridStrategy) (K : Nat) (f : ℚ) (hK : K ≤ now)
    (hp : 0 < p)
    (hgood : ∀ is ∈ AS, is.2.strategyId = sid → WideGrid is.2.config)
    (hinv : TickInv sid K f now p db.orders)
    (hq : FilledNow sid now db.orders → Quiet p sid db.orders)
    (hpnl : PnlSound sid base db.strategies) :
    TickInv sid K f now p (AS.foldl (processStrategy now p) db).orders ∧
    (FilledNow sid now (AS.foldl (processStrategy now p) db).orders →
      Quiet p sid (AS.foldl (processStrategy now p) db).orders) ∧
    PnlSound sid base (AS.foldl (processStrategy now p) db).strategies := by
  induction AS generalizing db with
  | nil => exact ⟨hinv, hq, hpnl⟩
  | cons a AS ih =>
    rw [List.foldl_cons]
    obtain ⟨a1, a2, a3⟩ := processStrategy_tickInv now p db a sid base K f hK hp
      (hgood a (List.mem_cons_self _ _)) hinv hq hpnl
    exact ih _ (fun is his => hgood is (List.mem_cons_of_mem _ his)) a1 a2 a3

/-- The facts of a tick, at its end, give the facts for every later tick. -/
theorem tickInv_next (sid : String) (K : Nat) (f : ℚ) (now : Nat) (p : ℚ)
    (orders : List GridOrder) (hK : K ≤ now) (hinv : TickInv sid K f now p orders)
    (hq : FilledNow sid now orders → Quiet p sid orders) :
    ∃ f1, ∀ (now1 : Nat) (p1 : ℚ), now + 1 ≤ now1 →
      TickInv sid (now + 1) f1 now1 p1 orders ∧ ¬ FilledNow sid now1 orders := by
  obtain ⟨m1, m2, m3, m4⟩ := hinv
  have hnot : ∀ now1 : Nat, now + 1 ≤ now1 → ¬ FilledNow sid now1 orders := by
    rintro now1 h1 ⟨x, hx, hfb, hk⟩
    rcases m2 x hx hfb with h | ⟨h, _⟩
    · omega
    · omega
  by_cases hfn : FilledNow sid now orders
  · refine ⟨p, fun now1 p1 h1 => ⟨⟨m1, ?_, ?_, ?_⟩, hnot now1 h1⟩⟩
    · intro x hx hfb
      left
      rcases m2 x hx hfb with h | ⟨h, _⟩
      · omega
      · omega
    · intro b hb hfb _ hmax
      obtain ⟨x, hx, hfx, hkx⟩ := hfn
      have := hmax x hx hfx
      rcases m2 b hb hfb with h | ⟨_, h⟩
      · omega
      · exact h
    · intro o ho hs hpend ht
      left
      have hnf := hq hfn o ho hs hpend
      unfold shouldFill at hnf
      push_neg at hnf
      exact hnf.2 ht
  · refine ⟨f, fun now1 p1 h1 => ⟨⟨m1, ?_, ?_, ?_⟩, hnot now1 h1⟩⟩
    · intro x hx hfb
      left
      rcases m2 x hx hfb with h | ⟨h, _⟩
      · omega
      · exact absurd ⟨x, hx, hfb, h⟩ hfn
    · intro b hb hfb _ hmax
      rcases m2 b hb hfb with h | ⟨h, _⟩
      · exact m3 b hb hfb h hmax
      · exact absurd ⟨b, hb, hfb, h⟩ hfn
    · intro o ho hs hpend ht
      rcases m4 o ho hs hpend ht with h | h
      · exact Or.inl h
      · exact absurd h hfn

theorem exists_below_all (l : List GridOrder) :
    ∃ f : ℚ, ∀ o ∈ l, f < o.price - o.price * (1 / 1000) := by
  induction l with
  | nil => exact ⟨0, by simp⟩
  | cons a l ih =>
    obtain ⟨f, hf⟩ := ih
    refine ⟨min f (a.price - a.price * (1 / 1000)) - 1, ?_⟩
    intro o ho
    rcases List.mem_cons.mp ho with h | h
    · rw [h]
      have := min_le_right f (a.price - a.price * (1 / 1000))
      linarith
    · have := min_le_left f (a.price - a.price * (1 / 1000))
      have := hf o h
      linarith

theorem createGridOrders_seeded (now : Nat) (strategy : GridStrategy) (db : Store)
    (o : GridOrder) (h : o ∈ (createGridOrders now strategy db).orders)
    (hs : o.strategyId = strategy.strategyId) :
    o.status = OrderStatus.PENDING ∧ o.pnl = 0 ∧
    o.quantity = calculateQuantityPerLevel strategy.config strategy.currentPrice := by
  unfold createGridOrders at h
  simp only [List.mem_append, List.mem_filter, decide_eq_true_eq] at h
  rcases h with h | h
  · exact absurd hs h.2
  · obtain ⟨ip, _, hso⟩ := List.mem_filterMap.mp h
    have hf := seedOrder_fields now strategy _ _ ip o hso
    exact ⟨hf.2.2.2.2.1, hf.2.2.2.2.2, hf.2.2.2.1⟩

/-- After the seeding the facts hold for every tick to come. -/
theorem createGridOrders_tickInv (now0 : Nat) (s : GridStrategy) (db : Store)
    (hseed : 0 ≤ calculateQuantityPerLevel s.config s.currentPrice) :
    ∃ f, ∀ (now : Nat) (p : ℚ), 0 ≤ now →
      TickInv s.strategyId 0 f now p (createGridOrders now0 s db).orders ∧
      ¬ FilledNow s.strategyId now (createGridOrders now0 s db).orders := by
  obtain ⟨f, hf⟩ := exists_below_all (createGridOrders now0 s db).orders
  have hnb : ∀ x ∈ (createGridOrders now0 s db).orders, ¬ isFilledBuy s.strategyId x := by
    intro x hx hfb
    have h1 := (createGridOrders_seeded now0 s db x hx hfb.1).1
    rw [hfb.2.2] at h1
    exact OrderStatus.noConfusion h1
  refine ⟨f, fun now p _ => ⟨⟨?_, ?_, ?_, ?_⟩, ?_⟩⟩
  · intro o ho hs
    obtain ⟨_, h2, h3⟩ := createGridOrders_seeded now0 s db o ho hs
    rw [h2, h3]
    exact ⟨le_refl _, fun _ => rfl, hseed⟩
  · intro x hx hfb
    exact absurd hfb (hnb x hx)
  · intro b hb hfb
    exact absurd hfb (hnb b hb)
  · intro o ho _ _ _
    exact Or.inl (hf o ho)
  · rintro ⟨x, hx, hfb, _⟩
    exact hnb x hx hfb

/-- A run of ticks at rising clock readings keeps every `pnl` of the strategy non-negative
and its stored `totalPnL` sound. -/
theorem applyTicks_tickInv (ticks : List (Nat × String × ℚ)) (db : Store) (sid : String)
    (base : List GridStrategy) (K : Nat) (f : ℚ)
    (hgood : ∀ x ∈ db.strategies, x.strategyId = sid → WideGrid x.config)
    (hpnl : PnlSound sid base db.strategies)
    (hinv : ∀ (now : Nat) (p : ℚ), K ≤ now →
      TickInv sid K f now p db.orders ∧ ¬ FilledNow sid now db.orders)
    (htimes : ticks.Pairwise (fun a b => a.1 < b.1))
    (hK : ∀ t ∈ ticks, K ≤ t.1) (hpos : ∀ t ∈ ticks, 0 < t.2.2) :
    (∀ o ∈ (applyTicks ticks db).orders, o.strategyId = sid → 0 ≤ o.pnl) ∧
    PnlSound sid base (applyTicks ticks db).strategies := by
  unfold applyTicks
  induction ticks generalizing db K f with
  | nil =>
    refine ⟨?_, hpnl⟩
    intro o ho hs
    exact (((hinv K 0 (le_refl _)).1).1 o ho hs).1
  | cons t ticks ih =>
    rw [List.foldl_cons]
    rw [List.pairwise_cons] at htimes
    have hKt := hK t (List.mem_cons_self _ _)
    obtain ⟨hinv0, hnf0⟩ := hinv t.1 t.2.2 hKt
    obtain ⟨a1, a2, a3⟩ := foldl_processStrategy_tickInv t.1 t.2.2
      (db.strategies.enum.filter
        (fun is => decide (is.2.symbol = t.2.1 ∧ is.2.status = StrategyStatus.ACTIVE)))
      db sid base K f hKt (hpos t (List.mem_cons_self _ _))
      (by
        intro is his hsid
        rw [List.mem_filter, List.mem_enum_iff_getElem?] at his
        exact hgood is.2 (List.getElem?_mem his.1) hsid)
      hinv0 (fun h => absurd h hnf0) hpnl
    obtain ⟨f1, hf1⟩ := tickInv_next sid K f t.1 t.2.2 _ hKt a1 a2
    apply ih (checkOrderFills t.1 t.2.1 t.2.2 db) (t.1 + 1) f1
    · intro x hx hxs
      obtain ⟨x0, hx0, he⟩ := mem_of_map_core (checkOrderFills_core t.1 t.2.1 t.2.2 db) x hx
      have e1 : x0.strategyId = x.strategyId := congrArg (fun c => c.1) he
      have e2 : x0.config = x.config := congrArg (fun c => c.2.2.2) he
      rw [← e2]
      exact hgood x0 hx0 (e1.trans hxs)
    · exact a3
    · exact hf1
    · exact htimes.2
    · intro t1 ht1
      have := htimes.1 t1 ht1
      omega
    · intro t1 ht1
      exact hpos t1 (List.mem_cons_of_mem _ ht1)

/-- The clock readings of a run come after its start. -/
theorem stampTicks_after (ticks : List (Nat × String × ℚ)) (start : Nat) :
    ∀ t ∈ stampTicks start ticks, start < t.1 := by
  induction ticks generalizing start with
  | nil =>
    intro t ht
    exact absurd ht (List.not_mem_nil _)
  | cons a ticks ih =>
    intro t ht
    rw [stampTicks, List.mem_cons] at ht
    rcases ht with h | h
    · rw [h]
      show start < start + a.1 + 1
      omega
    · have := ih _ t h
      omega

/-- The clock readings of a run rise from tick to tick. -/
theorem stampTicks_rising (ticks : List (Nat × String × ℚ)) (start : Nat) :
    (stampTicks start ticks).Pairwise (fun a b => a.1 < b.1) := by
  induction ticks generalizing start with
  | nil => exact List.Pairwise.nil
  | cons a ticks ih =>
    rw [stampTicks, List.pairwise_cons]
    exact ⟨fun b hb => stampTicks_after ticks _ b hb, ih _⟩

/-- The prices of a run are those of its ticks. -/
theorem stampTicks_price (ticks : List (Nat × String × ℚ)) (start : Nat) :
    ∀ t ∈ stampTicks start ticks, ∃ t0 ∈ ticks, t.2.2 = t0.2.2 := by
  induction ticks generalizing start with
  | nil =>
    intro t ht
    exact absurd ht (List.not_mem_nil _)
  | cons a ticks ih =>
    intro t ht
    rw [stampTicks, List.mem_cons] at ht
    rcases ht with h | h
    · exact ⟨a, List.mem_cons_self _ _, by rw [h]⟩
    · obtain ⟨t0, h0, h1⟩ := ih _ t h
      exact ⟨t0, List.mem_cons_of_mem _ h0, h1⟩

/-- C28: grid trades never book a loss. For a strategy whose documents have `levels + 1`
other than 0, a step `(upperPrice - lowerPrice) / (levels + 1)` of at least
`0.001 * upperPrice + 0.01` and an order quantity that is not negative (a fixed
`qtyPerOrder > 0`, or a quantity sized from `investment / levels ≥ 0`), in every run that
consists of the seeding by `createGridOrders` followed by ticks of `checkOrderFills` at
positive prices, after every tick: no order of the strategy carries a negative `pnl`, so
every FILLED SELL order has `pnl ≥ 0`; the `totalPnL` that `updateGridMonitoringData`
computes from the orders is not negative; and the stored `monitoring.totalPnL` of the
strategy is not negative or is still the value stored before the seeding, so it is not
negative when no stored value was negative before. -/
theorem grid_books_no_loss (now0 : Nat) (s : GridStrategy) (db : Store)
    (ticks : List (Nat × String × ℚ)) (n : Nat)
    (hcfg : ∀ x ∈ db.strategies, x.strategyId = s.strategyId →
      x.config.levels + 1 ≠ 0 ∧
      gridStep x.config ≥ x.config.upperPrice / 1000 + 1 / 100 ∧
      (0 < x.config.qtyPerOrder ∨
        (x.config.levels ≠ 0 ∧ 0 ≤ x.config.investment / x.config.levels)))
    (hseed : 0 ≤ calculateQuantityPerLevel s.config s.currentPrice)
    (hpos : ∀ t ∈ ticks, 0 < t.2.2) :
    (∀ o ∈ (runTicks now0 (ticks.take n) (createGridOrders now0 s db)).orders,
      o.strategyId = s.strategyId → 0 ≤ o.pnl) ∧
    (∀ o ∈ (runTicks now0 (ticks.take n) (createGridOrders now0 s db)).orders,
      o.strategyId = s.strategyId → o.type = OrderType.SELL →
      o.status = OrderStatus.FILLED → 0 ≤ o.pnl) ∧
    (∀ (t : Nat) (m : Monitoring),
      0 ≤ (recomputeMonitoring t
        (ordersOf s.strategyId
          (runTicks now0 (ticks.take n) (createGridOrders now0 s db)).orders) m).totalPnL) ∧
    (∀ x ∈ (runTicks now0 (ticks.take n) (createGridOrders now0 s db)).strategies,
      x.strategyId = s.strategyId →
      0 ≤ x.monitoring.totalPnL ∨
      ∃ x0 ∈ db.strategies, x0.strategyId = s.strategyId ∧
        x.monitoring.totalPnL = x0.monitoring.totalPnL) ∧
    ((∀ x0 ∈ db.strategies, x0.strategyId = s.strategyId → 0 ≤ x0.monitoring.totalPnL) →
      ∀ x ∈ (runTicks now0 (ticks.take n) (createGridOrders now0 s db)).strategies,
        x.strategyId = s.strategyId → 0 ≤ x.monitoring.totalPnL) := by
  obtain ⟨f, hf⟩ := createGridOrders_tickInv now0 s db hseed
  obtain ⟨h1, h2⟩ := applyTicks_tickInv (stampTicks now0 (ticks.take n))
    (createGridOrders now0 s db) s.strategyId db.strategies 0 f hcfg
    (fun x hx hxs => Or.inr ⟨x, hx, hxs, rfl⟩) hf
    (stampTicks_rising _ _)
    (fun t _ => Nat.zero_le _)
    (fun t ht => by
      obtain ⟨t0, h0, he⟩ := stampTicks_price _ _ t ht
      rw [he]
      exact hpos t0 (List.mem_of_mem_take h0))
  refine ⟨h1, fun o ho hs _ _ => h1 o ho hs, ?_, h2, ?_⟩
  · intro t m
    show 0 ≤ toFixed 2 (sumPnl _)
    apply toFixed_nonneg
    rw [sumPnl_eq]
    apply List.sum_nonneg
    intro v hv
    obtain ⟨o, ho, hov⟩ := List.mem_map.mp hv
    rw [← hov]
    have ho1 := List.mem_filter.mp ho
    exact h1 o ho1.1 (by simpa using ho1.2)
  · intro h0 x hx hxs
    rcases h2 x hx hxs with h | ⟨x0, hx0, hs0, he⟩
    · exact h
    · rw [he]
      exact h0 x0 hx0 hs0

/-- C28 (witness): the run of `investStrategy`, whose quantity is sized from the investment
(`qtyPerOrder = 0`, step 2.5): seeding, a tick at 102.5 and a tick at 105.001. -/
theorem grid_books_no_loss_witness :
    investStrategy.config.qtyPerOrder = 0 ∧
    investRun.orders.map (fun o => (o.type, o.status, o.quantity, o.pnl))
      = [(OrderType.BUY, OrderStatus.FILLED, 32051 / 10000, 0),
         (OrderType.SELL, OrderStatus.FILLED, 32051 / 10000, 80159551 / 10000000),
         (OrderType.SELL, OrderStatus.PENDING, 32051 / 10000, 0),
         (OrderType.SELL, OrderStatus.FILLED, 813 / 250, 2033313 / 250000),
         (OrderType.BUY, OrderStatus.PENDING, 15873 / 5000, 0),
         (OrderType.BUY, OrderStatus.PENDING, 15873 / 5000, 0)] ∧
    investRun.strategies.map (fun x => x.monitoring.totalPnL) = [323 / 20] ∧
    (∀ o ∈ investRun.orders, o.strategyId = "GRID_1" → 0 ≤ o.pnl) ∧
    (∀ x ∈ investRun.strategies, x.strategyId = "GRID_1" → 0 ≤ x.monitoring.totalPnL) := by
  have h := grid_books_no_loss 1 investStrategy
    { strategies := [investStrategy], orders := [] }
    [(0, "SBIN", 205 / 2), (0, "SBIN", 105001 / 1000)] 2
    (by
      intro x hx _
      rw [List.mem_singleton.mp hx]
      refine ⟨by norm_num [investStrategy, seedStrategy, arithmeticExample],
        by norm_num [gridStep, investStrategy, seedStrategy, arithmeticExample], ?_⟩
      right
      norm_num [investStrategy, seedStrategy, arithmeticExample])
    (by decide!)
    (by
      intro t ht
      simp only [List.mem_cons, List.mem_singleton, List.not_mem_nil, or_false] at ht
      rcases ht with h | h <;> rw [h] <;> norm_num)
  refine ⟨rfl, by decide!, by decide!, h.1, h.2.2.2.2 ?_⟩
  intro x0 hx0 _
  rw [List.mem_singleton.mp hx0]
  decide!

end GridBot
